import Mathlib

/-!
# SimpleWebServer: request tokenizer, parsed-request accessors and response writer

A shallow embedding of `src/src/SimpleWebServer.cpp`.

* `char` is `Char`; the terminator `'\0'` is `NUL`.
* `_buffer` is a `List Char` (its length is the capacity `HTTP_BUFFER_SIZE`).
* a `char*` that the server stores (`_path[i]`, `_args[i].label`,
  `_args[i].value`, `_version`) is `Option Nat`: `none` is `NULL`, `some k`
  is `_buffer + k`.  A `const char*` handed in by a caller (a label, a value,
  a path item) is `Option (List Char)`: `NULL` or the characters of the string.
* `_path` and `_args` are maps from the array index to the entry.
* `_pathCount`, `_argsCount` are `int`s that `_parseRequest` resets to `0` and
  only ever increments, so they are `Nat` here.
* `MAX_PATHCOUNT` and `MAX_ARGSCOUNT` are macros of a header that is not part
  of the sources at hand; they are the parameters `maxP` and `maxA`.
* `strCmp` (`SimpleUtils.h`) and `HTTPMethod` (`SimpleHttp.h`) are not part of the
  sources at hand either; they are modelled from the specification.
* the client object `_client` is the pair of `connected` and `sent` of `Server`; what the
  response writer takes from other files (`HTTP_CodeMessage`, `HTTP_OK`, the default
  arguments of `_sendHeader`, the width of `size_t`) is the parameter `d : Deps`.

The definitions come first: the embedding of the source, then the notions the statements
need (request lines, tokens, the state after a token).  The theorems follow.
-/

namespace SimpleWebServer

/-- The string terminator `'\0'`. -/
def NUL : Char := Char.ofNat 0

/-- State engine values of `_parseRequest` (`SERVER_METH_READ` ... `SERVER_HTTP_READ`
and `HTTP_BAD_REQUEST`, which is a `case` label of the same `switch` and hence
different from the other nine). -/
inductive Mode where
  | SERVER_METH_READ
  | SERVER_METH_DONE
  | SERVER_PATH_INIT
  | SERVER_PATH_READ
  | SERVER_ARGS_INIT
  | SERVER_ARGS_READ
  | SERVER_ARGS_NEXT
  | SERVER_HTTP_INIT
  | SERVER_HTTP_READ
  | HTTP_BAD_REQUEST
  deriving DecidableEq, Repr

/-- Modelled from the spec: the enumeration `HTTPMethod` of `SimpleHttp.h`, which is
not among the sources: "one enumerated value of {GET, POST, PUT, PATCH, DELETE,
OPTIONS, ANY/unrecognized}". -/
inductive HTTPMethod where
  | HTTP_ANY
  | HTTP_GET
  | HTTP_POST
  | HTTP_PUT
  | HTTP_PATCH
  | HTTP_DELETE
  | HTTP_OPTIONS
  deriving DecidableEq, Repr

/-- The `argument` object: two `char*` into `_buffer`. -/
structure Argument where
  label : Option Nat
  value : Option Nat
  deriving DecidableEq, Repr

/-- The members of `SimpleWebServer` that the request tokenizer, the accessors and
the response writer use.  `connected` and `sent` stand for the client object:
whether the session is open and the bytes printed to it so far. -/
structure Server where
  _buffer : List Char
  _method : HTTPMethod
  _version : Option Nat
  _pathCount : Nat
  _argsCount : Nat
  _path : Nat → Option Nat
  _args : Nat → Argument
  _header : Bool
  connected : Bool
  sent : List Char

/-- The C string that starts at `_buffer + k`: the characters up to the first
terminator (or up to the end of the array when there is none). -/
def cstr (buf : List Char) (k : Nat) : List Char :=
  (buf.drop k).takeWhile (fun c => c != NUL)

/-- The C string a stored `char*` points to; `none` for `NULL`. -/
def cstrAt (buf : List Char) (p : Option Nat) : Option (List Char) :=
  p.map (cstr buf)

/-- The function `strlen` on `_buffer`. -/
def strlen (buf : List Char) : Nat :=
  (cstr buf 0).length

/-- Modelled from the spec: `strCmp` of `SimpleUtils.h`, which is not among the
sources: a "C-string comparison helper with null-argument tolerance (label/value
lookups silently treat null as non-match)", exact and case-sensitive otherwise. -/
def strCmp : Option (List Char) → Option (List Char) → Bool
  | some a, some b => a == b
  | _, _ => false

/-- Working state of `_parseRequest`: the server together with the locals
`mode` and `http` (`meth` stays `_buffer`, `leng` is fixed before the loop). -/
structure PState where
  srv : Server
  mode : Mode
  http : Nat

/-- The statement `if ( _buffer[i] == c) { _buffer[i] = 0; mode = m; }`. -/
def cut (c : Char) (m : Mode) (i : Nat) (s : PState) : PState :=
  if s.srv._buffer.getD i NUL = c then
    { s with srv := { s.srv with _buffer := s.srv._buffer.set i NUL }, mode := m }
  else s

/-- Body of `case SERVER_PATH_READ`. -/
def pathRead (i : Nat) (s : PState) : PState :=
  cut ' ' Mode.SERVER_HTTP_INIT i
    (cut '?' Mode.SERVER_ARGS_INIT i
      (cut '/' Mode.SERVER_PATH_INIT i s))

/-- Body of `case SERVER_ARGS_READ`. -/
def argsRead (i : Nat) (s : PState) : PState :=
  cut ' ' Mode.SERVER_HTTP_INIT i
    (cut '&' Mode.SERVER_ARGS_INIT i
      (cut '=' Mode.SERVER_ARGS_NEXT i s))

/-- Body of `case SERVER_HTTP_READ`: `if ( _buffer[i] == '\r') { _buffer[i] = 0; }`. -/
def httpRead (i : Nat) (s : PState) : PState :=
  if s.srv._buffer.getD i NUL = '\r' then
    { s with srv := { s.srv with _buffer := s.srv._buffer.set i NUL } }
  else s

/-- The `switch ( mode)` of the buffer loop, with its fall-throughs. -/
def switchMode (i : Nat) (s : PState) : PState :=
  match s.mode with
  | Mode.SERVER_METH_READ => cut ' ' Mode.SERVER_METH_DONE i s
  | Mode.SERVER_METH_DONE => cut '/' Mode.SERVER_PATH_INIT i s
  | Mode.SERVER_PATH_INIT =>
    if s.srv._buffer.getD i NUL = ' ' then
      { s with srv := { s.srv with _buffer := s.srv._buffer.set i NUL },
               mode := Mode.HTTP_BAD_REQUEST }
    else
      pathRead i
        { s with srv := { s.srv with
                            _path := Function.update s.srv._path s.srv._pathCount (some i),
                            _pathCount := s.srv._pathCount + 1 },
                 mode := Mode.SERVER_PATH_READ }
  | Mode.SERVER_PATH_READ => pathRead i s
  | Mode.SERVER_ARGS_INIT =>
    if s.srv._buffer.getD i NUL = ' ' then
      { s with srv := { s.srv with _buffer := s.srv._buffer.set i NUL },
               mode := Mode.HTTP_BAD_REQUEST }
    else
      argsRead i
        { s with srv := { s.srv with
                            _args := Function.update s.srv._args s.srv._argsCount
                              { s.srv._args s.srv._argsCount with label := some i },
                            _argsCount := s.srv._argsCount + 1 },
                 mode := Mode.SERVER_ARGS_READ }
  | Mode.SERVER_ARGS_READ => argsRead i s
  | Mode.SERVER_ARGS_NEXT =>
    { s with srv := { s.srv with
                        _args := Function.update s.srv._args (s.srv._argsCount - 1)
                          { s.srv._args (s.srv._argsCount - 1) with value := some i } },
             mode := Mode.SERVER_ARGS_READ }
  | Mode.SERVER_HTTP_INIT => httpRead i { s with http := i, mode := Mode.SERVER_HTTP_READ }
  | Mode.SERVER_HTTP_READ => httpRead i s
  | Mode.HTTP_BAD_REQUEST => s

/-- The statement that closes the loop body:
`mode = (( _pathCount < MAX_PATHCOUNT) && ( _argsCount < MAX_ARGSCOUNT)) ? mode : HTTP_BAD_REQUEST`. -/
def capMode (maxP maxA : Nat) (s : PState) : PState :=
  { s with mode := if s.srv._pathCount < maxP ∧ s.srv._argsCount < maxA then s.mode
                   else Mode.HTTP_BAD_REQUEST }

/-- One pass through the body of the buffer loop, at index `i`. -/
def step (maxP maxA : Nat) (s : PState) (i : Nat) : PState :=
  capMode maxP maxA (switchMode i s)

/-- The buffer loop run over the indices `is`. -/
def run (maxP maxA : Nat) (s : PState) (is : List Nat) : PState :=
  is.foldl (step maxP maxA) s

/-- The method lookup after the loop: the chain of `strCmp( meth, ...)`. -/
def lookupMethod (meth : Option (List Char)) : HTTPMethod :=
  if strCmp meth (some "GET".toList) then HTTPMethod.HTTP_GET else
  if strCmp meth (some "POST".toList) then HTTPMethod.HTTP_POST else
  if strCmp meth (some "DELETE".toList) then HTTPMethod.HTTP_DELETE else
  if strCmp meth (some "OPTIONS".toList) then HTTPMethod.HTTP_OPTIONS else
  if strCmp meth (some "PUT".toList) then HTTPMethod.HTTP_PUT else
  if strCmp meth (some "PATCH".toList) then HTTPMethod.HTTP_PATCH else
  HTTPMethod.HTTP_ANY

/-- State of the working variables when the buffer loop of `_parseRequest` ends:
both counts reset, `http = _buffer`, `mode = SERVER_METH_READ`, then the loop
over `0 .. strlen( _buffer) - 1`. -/
def parseLoop (maxP maxA : Nat) (s : Server) : PState :=
  run maxP maxA
    { srv := { s with _pathCount := 0, _argsCount := 0 },
      mode := Mode.SERVER_METH_READ, http := 0 }
    (List.range (strlen s._buffer))

/-- The statements of `_parseRequest` that follow the loop: `_header = true`, the
method lookup on `meth = _buffer`, and `_version = http + 5`. -/
def finish (p : PState) : Server :=
  let m := lookupMethod (cstrAt p.srv._buffer (some 0))
  { p.srv with _header := true, _method := m, _version := some (p.http + 5) }

/-- The function `SimpleWebServer::_parseRequest`: the returned `bool`
(`mode != HTTP_BAD_REQUEST`) and the server it leaves. -/
def _parseRequest (maxP maxA : Nat) (s : Server) : Bool × Server :=
  let p := parseLoop maxP maxA s
  (decide (p.mode ≠ Mode.HTTP_BAD_REQUEST), finish p)

/-- The accessor `pathCount()`. -/
def pathCount (s : Server) : Nat := s._pathCount

/-- The accessor `argsCount()`. -/
def argsCount (s : Server) : Nat := s._argsCount

/-- The accessor `path( uint8_t i)`: the stored pointer, `NULL` when `i` is not below
`_pathCount`; `i` is the value of the `uint8_t` argument. -/
def path (s : Server) (i : Nat) : Option Nat :=
  if i < s._pathCount then s._path i else none

/-- The loop of `arg( const char* label)` from index `i` on, with `n` indices left. -/
def argFrom (s : Server) (label : Option (List Char)) : Nat → Nat → Option Nat
  | _, 0 => none
  | i, n + 1 =>
    if strCmp (cstrAt s._buffer (s._args i).label) label then
      (match (s._args i).value with
       | some v => some v
       | none => (s._args i).label)
    else argFrom s label (i + 1) n

/-- The accessor `arg( const char* label)`: the returned pointer. -/
def arg (s : Server) (label : Option (List Char)) : Option Nat :=
  argFrom s label 0 s._argsCount

/-- The loop of `arg( const char* label, const char* value)` from index `i` on, with `n`
indices left and `found` so far. -/
def argEqFrom (s : Server) (label value : Option (List Char)) : Nat → Nat → Bool → Bool
  | _, 0, found => found
  | i, n + 1, found =>
    argEqFrom s label value (i + 1) n
      (found || (strCmp (cstrAt s._buffer (s._args i).label) label &&
                 strCmp (cstrAt s._buffer (s._args i).value) value))

/-- The accessor `arg( const char* label, const char* value)`. -/
def argEq (s : Server) (label value : Option (List Char)) : Bool :=
  argEqFrom s label value 0 s._argsCount false

/-- A server whose buffer holds `buf` and whose other members are cleared. -/
def freshServer (buf : List Char) : Server :=
  { _buffer := buf, _method := HTTPMethod.HTTP_ANY, _version := none,
    _pathCount := 0, _argsCount := 0, _path := fun _ => none,
    _args := fun _ => { label := none, value := none },
    _header := false, connected := false, sent := [] }

/-- The label string of entry `i` of the argument table. -/
def argLabel (s : Server) (i : Nat) : Option (List Char) :=
  cstrAt s._buffer (s._args i).label

/-- The value string of entry `i` of the argument table; `none` when the value is absent. -/
def argValue (s : Server) (i : Nat) : Option (List Char) :=
  cstrAt s._buffer (s._args i).value

/-- A server whose buffer holds `buf` and whose argument table holds the entries `tab`. -/
def tableServer (buf : List Char) (tab : List Argument) : Server :=
  { freshServer buf with
      _argsCount := tab.length,
      _args := fun i => tab.getD i { label := none, value := none } }

/-! ## The buffer loop, one character at a time

The loop body at index `i` reads and writes `_buffer[i]` only.  `switchK`, `stepK` and
`scanK` restate `switchMode`, `step` and `run` on the pair of the working state and the
character under the index; `run_scanK` and `parseLoop_scanK` relate the two. -/

/-- The working state with `_buffer` replaced. -/
def withBuf (k : PState) (b : List Char) : PState :=
  { k with srv := { k.srv with _buffer := b } }

/-- The statement `cut` on the state and the character at the index. -/
def cutK (d : Char) (m : Mode) (r : PState × Char) : PState × Char :=
  if r.2 = d then ({ r.1 with mode := m }, NUL) else r

/-- The statements of `pathRead` on the state and the character at the index. -/
def pathReadK (r : PState × Char) : PState × Char :=
  cutK ' ' Mode.SERVER_HTTP_INIT
    (cutK '?' Mode.SERVER_ARGS_INIT
      (cutK '/' Mode.SERVER_PATH_INIT r))

/-- The statements of `argsRead` on the state and the character at the index. -/
def argsReadK (r : PState × Char) : PState × Char :=
  cutK ' ' Mode.SERVER_HTTP_INIT
    (cutK '&' Mode.SERVER_ARGS_INIT
      (cutK '=' Mode.SERVER_ARGS_NEXT r))

/-- The statement of `httpRead` on the state and the character at the index. -/
def httpReadK (r : PState × Char) : PState × Char :=
  if r.2 = '\r' then (r.1, NUL) else r

/-- The `switch` of the loop body on the state and the character at index `i`. -/
def switchK (i : Nat) (r : PState × Char) : PState × Char :=
  match r.1.mode with
  | Mode.SERVER_METH_READ => cutK ' ' Mode.SERVER_METH_DONE r
  | Mode.SERVER_METH_DONE => cutK '/' Mode.SERVER_PATH_INIT r
  | Mode.SERVER_PATH_INIT =>
    if r.2 = ' ' then ({ r.1 with mode := Mode.HTTP_BAD_REQUEST }, NUL)
    else
      pathReadK
        ({ r.1 with srv := { r.1.srv with
                               _path := Function.update r.1.srv._path r.1.srv._pathCount (some i),
                               _pathCount := r.1.srv._pathCount + 1 },
                    mode := Mode.SERVER_PATH_READ }, r.2)
  | Mode.SERVER_PATH_READ => pathReadK r
  | Mode.SERVER_ARGS_INIT =>
    if r.2 = ' ' then ({ r.1 with mode := Mode.HTTP_BAD_REQUEST }, NUL)
    else
      argsReadK
        ({ r.1 with srv := { r.1.srv with
                               _args := Function.update r.1.srv._args r.1.srv._argsCount
                                 { r.1.srv._args r.1.srv._argsCount with label := some i },
                               _argsCount := r.1.srv._argsCount + 1 },
                    mode := Mode.SERVER_ARGS_READ }, r.2)
  | Mode.SERVER_ARGS_READ => argsReadK r
  | Mode.SERVER_ARGS_NEXT =>
    ({ r.1 with srv := { r.1.srv with
                           _args := Function.update r.1.srv._args (r.1.srv._argsCount - 1)
                             { r.1.srv._args (r.1.srv._argsCount - 1) with value := some i } },
                mode := Mode.SERVER_ARGS_READ }, r.2)
  | Mode.SERVER_HTTP_INIT =>
    httpReadK ({ r.1 with http := i, mode := Mode.SERVER_HTTP_READ }, r.2)
  | Mode.SERVER_HTTP_READ => httpReadK r
  | Mode.HTTP_BAD_REQUEST => r

/-- The loop body on the state and the character at index `i`. -/
def stepK (maxP maxA : Nat) (i : Nat) (r : PState × Char) : PState × Char :=
  (capMode maxP maxA (switchK i r).1, (switchK i r).2)

/-- The loop over the characters `cs` that sit at the indices `i, i + 1, ...`: the state
reached and the characters left in their place. -/
def scanK (maxP maxA : Nat) : PState → Nat → List Char → PState × List Char
  | k, _, [] => (k, [])
  | k, i, c :: cs =>
    ((scanK maxP maxA (stepK maxP maxA i (k, c)).1 (i + 1) cs).1,
     (stepK maxP maxA i (k, c)).2 :: (scanK maxP maxA (stepK maxP maxA i (k, c)).1 (i + 1) cs).2)

/-- The working state `r.1` over the buffer `pre ++ r.2 :: suf`. -/
def emb (pre suf : List Char) (r : PState × Char) : PState :=
  withBuf r.1 (pre ++ r.2 :: suf)

/-- The working state of `_parseRequest` when the loop is entered. -/
def initK (s : Server) : PState :=
  { srv := { s with _pathCount := 0, _argsCount := 0 },
    mode := Mode.SERVER_METH_READ, http := 0 }

/-! ## Mode and counts

The mode and the two counts after a loop body depend on the mode and the counts before it
and on the character under the index only. -/

/-- Mode, `_pathCount` and `_argsCount` of a working state. -/
def ctlOf (k : PState) : Mode × Nat × Nat :=
  (k.mode, k.srv._pathCount, k.srv._argsCount)

/-- Mode that `pathRead` leaves when entered in mode `m` on the character `c`. -/
def pathC (m : Mode) (c : Char) : Mode :=
  if c = '/' then Mode.SERVER_PATH_INIT
  else if c = '?' then Mode.SERVER_ARGS_INIT
  else if c = ' ' then Mode.SERVER_HTTP_INIT
  else m

/-- Mode that `argsRead` leaves when entered in mode `m` on the character `c`. -/
def argsC (m : Mode) (c : Char) : Mode :=
  if c = '=' then Mode.SERVER_ARGS_NEXT
  else if c = '&' then Mode.SERVER_ARGS_INIT
  else if c = ' ' then Mode.SERVER_HTTP_INIT
  else m

/-- Mode and counts that the `switch` leaves. -/
def switchC (t : Mode × Nat × Nat) (c : Char) : Mode × Nat × Nat :=
  match t.1 with
  | Mode.SERVER_METH_READ =>
    (if c = ' ' then Mode.SERVER_METH_DONE else Mode.SERVER_METH_READ, t.2.1, t.2.2)
  | Mode.SERVER_METH_DONE =>
    (if c = '/' then Mode.SERVER_PATH_INIT else Mode.SERVER_METH_DONE, t.2.1, t.2.2)
  | Mode.SERVER_PATH_INIT =>
    if c = ' ' then (Mode.HTTP_BAD_REQUEST, t.2.1, t.2.2)
    else (pathC Mode.SERVER_PATH_READ c, t.2.1 + 1, t.2.2)
  | Mode.SERVER_PATH_READ => (pathC Mode.SERVER_PATH_READ c, t.2.1, t.2.2)
  | Mode.SERVER_ARGS_INIT =>
    if c = ' ' then (Mode.HTTP_BAD_REQUEST, t.2.1, t.2.2)
    else (argsC Mode.SERVER_ARGS_READ c, t.2.1, t.2.2 + 1)
  | Mode.SERVER_ARGS_READ => (argsC Mode.SERVER_ARGS_READ c, t.2.1, t.2.2)
  | Mode.SERVER_ARGS_NEXT => (Mode.SERVER_ARGS_READ, t.2.1, t.2.2)
  | Mode.SERVER_HTTP_INIT => (Mode.SERVER_HTTP_READ, t.2.1, t.2.2)
  | Mode.SERVER_HTTP_READ => (Mode.SERVER_HTTP_READ, t.2.1, t.2.2)
  | Mode.HTTP_BAD_REQUEST => (Mode.HTTP_BAD_REQUEST, t.2.1, t.2.2)

/-- Mode and counts that the loop body leaves. -/
def stepC (maxP maxA : Nat) (t : Mode × Nat × Nat) (c : Char) : Mode × Nat × Nat :=
  (if (switchC t c).2.1 < maxP ∧ (switchC t c).2.2 < maxA then (switchC t c).1
   else Mode.HTTP_BAD_REQUEST,
   (switchC t c).2.1, (switchC t c).2.2)

/-! ## Request lines -/

/-- The characters of `w` avoid the characters listed in `bad`. -/
def Free (bad w : List Char) : Prop := ∀ c ∈ w, c ∉ bad

instance (bad w : List Char) : Decidable (Free bad w) := by
  unfold Free; infer_instance

/-- The path text `/s1/s2/.../sk` of the segments `s1, ..., sk`. -/
def renderPath : List (List Char) → List Char
  | [] => []
  | s :: ss => '/' :: s ++ renderPath ss

/-- The text `l` or `l=v` of one argument. -/
def renderArg : List Char × Option (List Char) → List Char
  | (l, none) => l
  | (l, some v) => l ++ '=' :: v

/-- The query text: every argument preceded by a delimiter, `d` for the first one and
`&` for the others, so that `renderQuery '?'` yields `?l1=v1&l2&...`. -/
def renderQuery : Char → List (List Char × Option (List Char)) → List Char
  | _, [] => []
  | d, a :: as => d :: renderArg a ++ renderQuery '&' as

/-- The request line `M /s1/.../sk?l1=v1&...&ln V`. -/
def requestLine (M : List Char) (segs : List (List Char))
    (args : List (List Char × Option (List Char))) (V : List Char) : List Char :=
  M ++ ' ' :: (renderPath segs ++ (renderQuery '?' args ++ ' ' :: V))

/-! ## Mode and counts along a request line -/

/-- The mode and counts after the characters `w`. -/
def runC (maxP maxA : Nat) (t : Mode × Nat × Nat) (w : List Char) : Mode × Nat × Nat :=
  w.foldl (stepC maxP maxA) t

/-- The mode is `HTTP_BAD_REQUEST`, or mode and counts are `t`. -/
def BadOr (r t : Mode × Nat × Nat) : Prop :=
  r.1 = Mode.HTTP_BAD_REQUEST ∨ r = t

/-- Mode that follows a path segment closed by the delimiter `d`. -/
def afterSeg (d : Char) : Mode := pathC Mode.SERVER_PATH_READ d

/-- Mode that follows an argument closed by the delimiter `d`. -/
def afterArg (d : Char) : Mode := argsC Mode.SERVER_ARGS_READ d

/-- The tokens of one argument are well formed for the tokenizer: the label avoids the
delimiters, and a value that is written is non-empty and avoids them too. -/
def ArgOK (bad : List Char) (a : List Char × Option (List Char)) : Prop :=
  Free bad a.1 ∧ ∀ v, a.2 = some v → v ≠ [] ∧ Free bad v

instance (bad : List Char) (a : List Char × Option (List Char)) : Decidable (ArgOK bad a) := by
  unfold ArgOK
  cases a.2 with
  | none => exact decidable_of_iff (Free bad a.1) (by simp)
  | some v => exact decidable_of_iff (Free bad a.1 ∧ v ≠ [] ∧ Free bad v) (by simp)

/-- The text that follows the label of an argument: nothing, or `=v`. -/
def valueText : Option (List Char) → List Char
  | none => []
  | some v => '=' :: v

/-! ## The working state along a well-formed request line -/

/-- The working state with `mode` replaced. -/
def setMode (k : PState) (m : Mode) : PState := { k with mode := m }

/-- The working state after `_path[ _pathCount++] = _buffer + i; mode = SERVER_PATH_READ`. -/
def recPath (k : PState) (i : Nat) : PState :=
  { k with srv := { k.srv with
                      _path := Function.update k.srv._path k.srv._pathCount (some i),
                      _pathCount := k.srv._pathCount + 1 },
           mode := Mode.SERVER_PATH_READ }

/-- The working state after `_args[ _argsCount++].label = _buffer + i; mode = SERVER_ARGS_READ`. -/
def recLabel (k : PState) (i : Nat) : PState :=
  { k with srv := { k.srv with
                      _args := Function.update k.srv._args k.srv._argsCount
                        { k.srv._args k.srv._argsCount with label := some i },
                      _argsCount := k.srv._argsCount + 1 },
           mode := Mode.SERVER_ARGS_READ }

/-- The working state after `_args[ _argsCount - 1].value = _buffer + i; mode = SERVER_ARGS_READ`. -/
def recValue (k : PState) (i : Nat) : PState :=
  { k with srv := { k.srv with
                      _args := Function.update k.srv._args (k.srv._argsCount - 1)
                        { k.srv._args (k.srv._argsCount - 1) with value := some i } },
           mode := Mode.SERVER_ARGS_READ }

/-- The working state after `http = _buffer + i; mode = SERVER_HTTP_READ`. -/
def recHttp (k : PState) (i : Nat) : PState :=
  { k with http := i, mode := Mode.SERVER_HTTP_READ }

/-- Both counts are below their maximum. -/
def CountsOK (maxP maxA : Nat) (k : PState) : Prop :=
  k.srv._pathCount < maxP ∧ k.srv._argsCount < maxA

/-- The byte that `SERVER_HTTP_READ` leaves in the place of `c`. -/
def crNul (c : Char) : Char := if c = '\r' then NUL else c

/-- The working state after the tokens of one argument. -/
def argRec (k : PState) (i : Nat) : List Char × Option (List Char) → PState
  | (_, none) => recLabel k i
  | (l, some _) => recValue (recLabel k i) (i + l.length + 1)

/-- The bytes left in the place of one argument. -/
def nulArg : List Char × Option (List Char) → List Char
  | (l, none) => l
  | (l, some v) => l ++ NUL :: v

/-- The working state after the path segments `ss`, each one closed by its delimiter, the
first one starting at index `i`. -/
def segsState (k : PState) (i : Nat) : List (List Char) → PState
  | [] => k
  | s :: ss => segsState (setMode (recPath k i) Mode.SERVER_PATH_INIT) (i + s.length + 1) ss

/-- The bytes left in the place of the path segments and their delimiters. -/
def nulJoin : List (List Char) → List Char
  | [] => []
  | s :: ss => s ++ NUL :: nulJoin ss

/-- The working state after the arguments `xs`, each one closed by its delimiter, the
first one starting at index `i`. -/
def argsState (k : PState) (i : Nat) : List (List Char × Option (List Char)) → PState
  | [] => k
  | x :: xs =>
    argsState (setMode (argRec k i x) Mode.SERVER_ARGS_INIT) (i + (nulArg x).length + 1) xs

/-- The bytes left in the place of the arguments and their delimiters. -/
def nulArgs : List (List Char × Option (List Char)) → List Char
  | [] => []
  | x :: xs => nulArg x ++ NUL :: nulArgs xs

/-- A segment is non-empty and avoids the characters that end a segment. -/
def SegOK (s : List Char) : Prop := s ≠ [] ∧ Free [' ', '/', '?'] s

/-- An argument has a non-empty label, and its label and value avoid the characters that
end them. -/
def ArgTok (x : List Char × Option (List Char)) : Prop :=
  x.1 ≠ [] ∧ ArgOK [' ', '&', '='] x

/-! ## Reading the tokens back -/

/-- Neither the label nor the value of the argument contains the terminator. -/
def ArgNulFree (x : List Char × Option (List Char)) : Prop :=
  NUL ∉ x.1 ∧ ∀ v, x.2 = some v → NUL ∉ v

/-! ## Well-formed request lines -/

/-- A token of a well-formed request line: a non-empty string with none of the characters
`' '`, `'/'`, `'?'`, `'='`, `'&'`, `'\r'` (nor the terminator, as in every C string). -/
def Token (w : List Char) : Prop :=
  w ≠ [] ∧ Free [' ', '/', '?', '=', '&', '\r', NUL] w

instance (w : List Char) : Decidable (Token w) := by
  unfold Token; infer_instance

/-- An argument of a well-formed request line: its label is a token, and so is its value
when it is written with `=`. -/
def ArgToken (x : List Char × Option (List Char)) : Prop :=
  Token x.1 ∧ ∀ v, x.2 = some v → Token v

instance (x : List Char × Option (List Char)) : Decidable (ArgToken x) := by
  unfold ArgToken
  cases x.2 with
  | none => exact decidable_of_iff (Token x.1) (by simp)
  | some v => exact decidable_of_iff (Token x.1 ∧ Token v) (by simp)

/-! ## Parsing again -/

/-- The server after the transport has put the bytes `buf` into `_buffer`. -/
def loadBuffer (s : Server) (buf : List Char) : Server :=
  { s with _buffer := buf }

/-- The server after the request line `first` and then the request line `second` have been
received and parsed, from a cleared server. -/
def parseTwice (maxP maxA : Nat) (first second : List Char) : Server :=
  (_parseRequest maxP maxA
    (loadBuffer (_parseRequest maxP maxA (freshServer (first ++ [NUL]))).2 (second ++ [NUL]))).2

/-! ## The accessors `path( i, pathItem)` and `method( method)` -/

/-- The accessor `path( uint8_t i, const char* pathItem)`:
`( i < _pathCount) ? strCmp( pathItem, _path[ i]) : false`. -/
def pathEq (s : Server) (i : Nat) (pathItem : Option (List Char)) : Bool :=
  if i < s._pathCount then strCmp pathItem (cstrAt s._buffer (s._path i)) else false

/-- The indices at which `path( i)` and `path( i, pathItem)` read the array `_path`: the
index `i` in the branch taken when `i < _pathCount`, none in the other branch. -/
def pathReads (s : Server) (i : Nat) : List Nat :=
  if i < s._pathCount then [i] else []

/-- The accessor `method()`. -/
def method (s : Server) : HTTPMethod := s._method

/-- The accessor `method( HTTPMethod method)`:
`(( method == HTTP_ANY) || ( method == _method))`. -/
def methodIs (s : Server) (m : HTTPMethod) : Bool :=
  (m == HTTPMethod.HTTP_ANY) || (m == s._method)

/-! ## Invariants of the buffer loop -/

/-- In the modes that read an argument there is an argument: `_argsCount` is at least 1. -/
def ArgsInv (t : Mode × Nat × Nat) : Prop :=
  (t.1 = Mode.SERVER_ARGS_READ ∨ t.1 = Mode.SERVER_ARGS_NEXT) → 1 ≤ t.2.2

/-- Between two loop bodies: outside `HTTP_BAD_REQUEST` both counts are below their
maximum, in the modes that read an argument `_argsCount` is at least 1, and no count is
above its maximum. -/
def ModeInv (maxP maxA : Nat) (t : Mode × Nat × Nat) : Prop :=
  (t.1 ≠ Mode.HTTP_BAD_REQUEST → t.2.1 < maxP ∧ t.2.2 < maxA) ∧
  ArgsInv t ∧ t.2.1 ≤ maxP ∧ t.2.2 ≤ maxA

/-- What the loop has recorded when it has passed the indices below `n`, `old` being the
array `_args` before the parse: every path item and every label counted is an offset below
`n`; the value of a counted argument is the pointer the entry held before the parse or an
offset below `n`; the entries from `_argsCount` on are as before the parse; `http` is `0`
or an offset below `n`. -/
def Recorded (old : Nat → Argument) (k : PState) (n : Nat) : Prop :=
  (∀ j, j < k.srv._pathCount → ∃ off, off < n ∧ k.srv._path j = some off) ∧
  (∀ j, j < k.srv._argsCount → ∃ off, off < n ∧ (k.srv._args j).label = some off) ∧
  (∀ j, j < k.srv._argsCount →
    (k.srv._args j).value = (old j).value ∨
      ∃ off, off < n ∧ (k.srv._args j).value = some off) ∧
  (∀ j, k.srv._argsCount ≤ j → k.srv._args j = old j) ∧
  (k.http = 0 ∨ k.http < n) ∧
  ArgsInv (ctlOf k)

/-! ## The bytes the loop writes -/

/-- The characters that a `case` of the loop body compares `_buffer[i]` with before it
writes the terminator there. -/
def Delim (c : Char) : Prop :=
  c = ' ' ∨ c = '/' ∨ c = '?' ∨ c = '=' ∨ c = '&' ∨ c = '\r'

/-- The byte `d` is what a loop body may leave in the place of the byte `c`: `c` itself, or
the terminator when `c` is one of the delimiters. -/
def Cut (c d : Char) : Prop :=
  d = c ∨ (d = NUL ∧ Delim c)

/-! ## The array writes of the buffer loop -/

/-- A write to one of the arrays `_path` and `_args`, with the index it is made at: the
index `_argsCount - 1` of a value is computed in `int`. -/
inductive ArrayWrite where
  | pathAt (index : Nat)
  | labelAt (index : Nat)
  | valueAt (index : Int)
  deriving DecidableEq, Repr

/-- The writes to `_path` and `_args` that the loop body at index `i` makes in the state
`s`: `_path[ _pathCount++] = ...` in `SERVER_PATH_INIT` and `_args[ _argsCount++].label = ...`
in `SERVER_ARGS_INIT` (neither when `_buffer[i]` is a space), and
`_args[ _argsCount - 1].value = ...` in `SERVER_ARGS_NEXT`. -/
def stepWrites (s : PState) (i : Nat) : List ArrayWrite :=
  match s.mode with
  | Mode.SERVER_PATH_INIT =>
    if s.srv._buffer.getD i NUL = ' ' then [] else [ArrayWrite.pathAt s.srv._pathCount]
  | Mode.SERVER_ARGS_INIT =>
    if s.srv._buffer.getD i NUL = ' ' then [] else [ArrayWrite.labelAt s.srv._argsCount]
  | Mode.SERVER_ARGS_NEXT => [ArrayWrite.valueAt ((s.srv._argsCount : Int) - 1)]
  | _ => []

/-- The array writes of the buffer loop run over the indices `is`, in order. -/
def runWrites (maxP maxA : Nat) : PState → List Nat → List ArrayWrite
  | _, [] => []
  | s, i :: is => stepWrites s i ++ runWrites maxP maxA (step maxP maxA s i) is

/-- The array writes of `_parseRequest`, in order. -/
def parseWrites (maxP maxA : Nat) (s : Server) : List ArrayWrite :=
  runWrites maxP maxA (initK s) (List.range (strlen s._buffer))

/-- The write is inside its array: `_path` has `maxP` entries and `_args` has `maxA`. -/
def InBounds (maxP maxA : Nat) : ArrayWrite → Prop
  | ArrayWrite.pathAt i => i < maxP
  | ArrayWrite.labelAt i => i < maxA
  | ArrayWrite.valueAt i => 0 ≤ i ∧ i < maxA

/-! ## The response writer

The client object is the pair of `connected` and `sent` of `Server`: `_client.connected()`
reads `connected`, `_client.print` appends to `sent`, and the session does not close while
one call of the response writer runs. -/

/-- What the response writer takes from outside `SimpleWebServer.cpp`: the lookup
`HTTP_CodeMessage` and the constant `HTTP_OK` of `SimpleHttp.h`, the width of `size_t`,
and the default arguments `size` and `content_type` of `_sendHeader`, whose declaration is
not among the sources. -/
structure Deps where
  HTTP_CodeMessage : Int → List Char
  HTTP_OK : Int
  sizeBits : Nat
  defaultSize : Nat
  defaultType : Option (List Char)

/-- The text that `_client.print` writes for a `size_t`: its decimal digits. -/
def printSize (n : Nat) : List Char :=
  Nat.toDigits 10 n

/-- The text that `_client.print` writes for an `int`: a minus sign when it is negative,
and the decimal digits of its magnitude. -/
def printInt (z : Int) : List Char :=
  if z < 0 then '-' :: Nat.toDigits 10 z.natAbs else Nat.toDigits 10 z.natAbs

/-- The statement `CPRINT( S)`, that is `_client.print( S)`. -/
def CPRINT (x : List Char) (s : Server) : Server :=
  { s with sent := s.sent ++ x }

/-- The function `_sendHeader( int code, size_t size, const char* content_type)`. -/
def _sendHeader (d : Deps) (code : Int) (size : Nat) (content_type : Option (List Char))
    (s : Server) : Server :=
  if s.connected && s._header then
    let s1 := s
      |> CPRINT "HTTP/1.1 ".toList |> CPRINT (printInt code) |> CPRINT " ".toList
      |> CPRINT (d.HTTP_CodeMessage code)
      |> CPRINT "\r\n".toList
      |> CPRINT "User-Agent: ".toList |> CPRINT "Arduino-ethernet".toList
      |> CPRINT "\r\n".toList
      |> CPRINT "Content-Length: ".toList |> CPRINT (printSize size)
      |> CPRINT "\r\n".toList
      |> CPRINT "Content-Type: ".toList |> CPRINT (content_type.getD "text/html".toList)
      |> CPRINT "\r\n".toList
      |> CPRINT "Connection: ".toList |> CPRINT "close".toList
      |> CPRINT "\r\n".toList
      |> CPRINT "\r\n".toList
    { s1 with _header := false }
  else s

/-- The function `_sendContent( content)`, for a string in memory and for one in flash. -/
def _sendContent (content : List Char) (s : Server) : Server :=
  if s.connected then s |> CPRINT content |> CPRINT "\r\n".toList else s

/-- The function `response( int code)`: `_sendHeader( code)`. -/
def response (d : Deps) (code : Int) (s : Server) : Server :=
  _sendHeader d code d.defaultSize d.defaultType s

/-- The function `response( int code, const char* content_type)`. -/
def responseType (d : Deps) (code : Int) (content_type : Option (List Char))
    (s : Server) : Server :=
  _sendHeader d code 0 content_type s

/-- The function `response( int code, const char* content_type, const char* content)`:
the size `strlen( content) + 2` is computed in `size_t`. -/
def responseContent (d : Deps) (code : Int) (content_type : Option (List Char))
    (content : List Char) (s : Server) : Server :=
  _sendContent content
    (_sendHeader d code ((content.length + 2) % 2 ^ d.sizeBits) content_type s)

/-- The function `response( int code, const char* content_type, __FlashStringHelper* content)`. -/
def responseFlash (d : Deps) (code : Int) (content_type : Option (List Char))
    (content : List Char) (s : Server) : Server :=
  _sendContent content (_sendHeader d code 0 content_type s)

/-- The function `disconnect()`: `_client.stop()` when the session is open. -/
def disconnect (s : Server) : Server :=
  if s.connected then { s with connected := false } else s

/-- The header block as the specification words it:
`HTTP/1.1 <code> <reason>\r\nUser-Agent: <fixed string>\r\nContent-Length: <n>\r\n`
`Content-Type: <type>\r\nConnection: close\r\n\r\n`, with `text/html` for an unspecified
type. -/
def specHeaderBlock (d : Deps) (code : Int) (n : Nat) (type : Option (List Char)) :
    List Char :=
  "HTTP/1.1 ".toList ++ printInt code ++ " ".toList ++ d.HTTP_CodeMessage code ++
    "\r\n".toList ++
  "User-Agent: Arduino-ethernet\r\n".toList ++
  "Content-Length: ".toList ++ printSize n ++ "\r\n".toList ++
  "Content-Type: ".toList ++ type.getD "text/html".toList ++ "\r\n".toList ++
  "Connection: close\r\n".toList ++
  "\r\n".toList

/-- Modelled from the spec: the lookup `HTTP_CodeMessage` and the constant `HTTP_OK` of
`SimpleHttp.h`, which is not among the sources: "Status-code-to-reason-phrase mapping is a
fixed lookup table (e.g. 200→OK, 400→Bad Request)"; with them a 16-bit `size_t`, and size 0
and no content type as the default arguments of `_sendHeader`. -/
def stdDeps : Deps :=
  { HTTP_CodeMessage := fun code =>
      if code = 200 then "OK".toList
      else if code = 400 then "Bad Request".toList
      else [],
    HTTP_OK := 200, sizeBits := 16, defaultSize := 0, defaultType := none }

/-- A server with an open client session, nothing sent and the header pending. -/
def openServer : Server :=
  { freshServer [] with _header := true, connected := true }

/-- One call of the response writer, or of `disconnect()`. -/
inductive Call where
  | response (code : Int)
  | responseType (code : Int) (content_type : Option (List Char))
  | responseContent (code : Int) (content_type : Option (List Char)) (content : List Char)
  | responseFlash (code : Int) (content_type : Option (List Char)) (content : List Char)
  | sendHeader (code : Int) (size : Nat) (content_type : Option (List Char))
  | sendContent (content : List Char)
  | disconnect

/-- The server after the call. -/
def exec (d : Deps) (s : Server) : Call → Server
  | Call.response code => response d code s
  | Call.responseType code t => responseType d code t s
  | Call.responseContent code t c => responseContent d code t c s
  | Call.responseFlash code t c => responseFlash d code t c s
  | Call.sendHeader code size t => _sendHeader d code size t s
  | Call.sendContent c => _sendContent c s
  | Call.disconnect => disconnect s

/-- The arguments with which the call invokes `_sendHeader`, as its first statement; `none`
when it does not invoke it. -/
def headerArgs (d : Deps) : Call → Option (Int × Nat × Option (List Char))
  | Call.response code => some (code, d.defaultSize, d.defaultType)
  | Call.responseType code t => some (code, 0, t)
  | Call.responseContent code t c => some (code, (c.length + 2) % 2 ^ d.sizeBits, t)
  | Call.responseFlash code t _ => some (code, 0, t)
  | Call.sendHeader code size t => some (code, size, t)
  | Call.sendContent _ => none
  | Call.disconnect => none

/-- The content with which the call invokes `_sendContent`; `none` when it does not. -/
def contentArg : Call → Option (List Char)
  | Call.responseContent _ _ c => some c
  | Call.responseFlash _ _ c => some c
  | Call.sendContent c => some c
  | _ => none

/-- The bytes that the call's `_sendHeader` prints in the state `s`. -/
def headerBytes (d : Deps) (s : Server) (c : Call) : List Char :=
  match headerArgs d c with
  | none => []
  | some a => (_sendHeader d a.1 a.2.1 a.2.2 s).sent.drop s.sent.length

/-- The bytes that the call's `_sendContent` prints in the state `s`. -/
def contentBytes (s : Server) (c : Call) : List Char :=
  match contentArg c with
  | none => []
  | some x => (_sendContent x s).sent.drop s.sent.length

/-- The number of calls in the sequence `cs`, made one after the other from the state `s`,
whose `_sendHeader` prints something. -/
def headersWritten (d : Deps) : Server → List Call → Nat
  | _, [] => 0
  | s, c :: cs =>
    (if headerBytes d s c = [] then 0 else 1) + headersWritten d (exec d s c) cs

/-! ## The functions `connect()` and `handle()`

The server object `_server` is the argument `incoming`: `none` when `_server.available()`
gives no client, and otherwise the bytes that the client sends.  When the bytes end
before a carriage-return or a newline, the reading loop of `connect()` ends only when the
session closes, and it is taken to end so.  The reading loop writes `_buffer[i++]` with no
test on `i`; the model is for request lines shorter than the buffer. -/

/-- Modelled from the spec: a task of the list of `SimpleTask.h`, which is not among the
sources: "task/callback registration and dispatch-by-route" is an external collaborator; a
task holds its callback, which may change the server and the global `returnCode`, its
device name and its method. -/
structure SimpleWebServerTask where
  func : Server × Int → Server × Int
  device : Option (List Char)
  method : HTTPMethod

/-- The statement `_client = _server.available()` when there is a client: an open session
to which nothing has been sent. -/
def accept (s : Server) : Server :=
  { s with connected := true, sent := [] }

/-- The reading loop of `connect()` on the bytes that arrive, from index `i` on. -/
def readLoop : List Char → Nat → Server → Server
  | [], _, s => { s with connected := false }
  | c :: cs, i, s =>
    if c = '\r' ∨ c = '\n' then s
    else readLoop cs (i + 1) { s with _buffer := s._buffer.set i c }

/-- The function `connect()`: the returned `bool` and the server it leaves. -/
def connect (d : Deps) (maxP maxA : Nat) (incoming : Option (List Char)) (s : Server) :
    Bool × Server :=
  match incoming with
  | none => (false, s)
  | some bytes =>
    let r := _parseRequest maxP maxA (readLoop bytes 0 (accept s))
    if r.1 then
      if r.2._pathCount ≠ 0 ∨ r.2._argsCount ≠ 0 then (true, r.2)
      else (false, response d d.HTTP_OK r.2)
    else (false, response d 400 r.2)

/-- The function `handle()`: the server and the global `returnCode` it leaves.  The
statements `response( returnCode); disconnect();` are inside the block of
`if ( connect())`. -/
def handle (d : Deps) (maxP maxA : Nat) (tasks : List SimpleWebServerTask)
    (incoming : Option (List Char)) (s : Server) : Server × Int :=
  match connect d maxP maxA incoming s with
  | (true, s1) =>
    let w := tasks.foldl
      (fun w t => if methodIs w.1 t.method && pathEq w.1 0 t.device then t.func w else w)
      (s1, 400)
    (disconnect (response d w.2 w.1), w.2)
  | (false, s1) => (s1, 400)

/-! ## An argument value with a further `=` -/

/-- The text of the arguments `xs`, each one followed by `&`. -/
def ampArgs : List (List Char × Option (List Char)) → List Char
  | [] => []
  | x :: xs => renderArg x ++ '&' :: ampArgs xs

/-- The working state after the text `l=v1=...`: the label recorded at index `i`, the value
recorded at the byte that follows the first `=`, and recorded again at the byte that follows
the second `=`. -/
def recAgain (k : PState) (i : Nat) (l v1 : List Char) : PState :=
  recValue (recValue (recLabel k i) (i + l.length + 1)) (i + l.length + 1 + v1.length + 1)

/-- The index of the second `=` of the argument `l=v1=...` in the request line that starts
`M /s1/.../sk?` and has the arguments `pre` before it: the length of the text before
that `=`. -/
def furtherEq (M : List Char) (segs : List (List Char))
    (pre : List (List Char × Option (List Char))) (l v1 : List Char) : Nat :=
  (M ++ ' ' :: (renderPath segs ++ '?' :: (ampArgs pre ++ (l ++ '=' :: v1)))).length

/-! # Theorems

First the lemmas that relate the loop of `_parseRequest` to the characters of the request
line, then the statements on `_parseRequest`, on the accessors, on the response writer
and on `handle()`. -/

/-! ## The buffer loop, one character at a time

The loop body at index `i` reads and writes `_buffer[i]` only.  `switchK`, `stepK` and
`scanK` restate `switchMode`, `step` and `run` on the pair of the working state and the
character under the index; `run_scanK` and `parseLoop_scanK` relate the two. -/

theorem getD_mid (pre suf : List Char) (c d : Char) :
    (pre ++ c :: suf).getD pre.length d = c := by
  induction pre with
  | nil => rfl
  | cons a pre ih => simpa using ih

theorem set_mid (pre suf : List Char) (c x : Char) :
    (pre ++ c :: suf).set pre.length x = pre ++ x :: suf := by
  induction pre with
  | nil => rfl
  | cons a pre ih => simp

theorem cut_emb (pre suf : List Char) (d : Char) (m : Mode) (r : PState × Char) :
    cut d m pre.length (emb pre suf r) = emb pre suf (cutK d m r) := by
  unfold cut cutK emb withBuf
  simp only [getD_mid, set_mid]
  split <;> rfl

theorem pathRead_emb (pre suf : List Char) (r : PState × Char) :
    pathRead pre.length (emb pre suf r) = emb pre suf (pathReadK r) := by
  unfold pathRead pathReadK
  rw [cut_emb, cut_emb, cut_emb]

theorem argsRead_emb (pre suf : List Char) (r : PState × Char) :
    argsRead pre.length (emb pre suf r) = emb pre suf (argsReadK r) := by
  unfold argsRead argsReadK
  rw [cut_emb, cut_emb, cut_emb]

theorem httpRead_emb (pre suf : List Char) (r : PState × Char) :
    httpRead pre.length (emb pre suf r) = emb pre suf (httpReadK r) := by
  unfold httpRead httpReadK emb withBuf
  simp only [getD_mid, set_mid]
  split <;> rfl

theorem emb_mode (pre suf : List Char) (r : PState × Char) :
    (emb pre suf r).mode = r.1.mode := rfl

theorem switchMode_emb (pre suf : List Char) (r : PState × Char) :
    switchMode pre.length (emb pre suf r) = emb pre suf (switchK pre.length r) := by
  unfold switchMode switchK
  rw [emb_mode]
  cases hm : r.1.mode with
  | SERVER_METH_READ => exact cut_emb _ _ _ _ _
  | SERVER_METH_DONE => exact cut_emb _ _ _ _ _
  | SERVER_PATH_INIT =>
    simp only
    have hg : (emb pre suf r).srv._buffer.getD pre.length NUL = r.2 := getD_mid _ _ _ _
    rw [hg]
    by_cases hc : r.2 = ' '
    · rw [if_pos hc, if_pos hc]
      simp only [emb, withBuf, set_mid]
    · rw [if_neg hc, if_neg hc, ← pathRead_emb]
      rfl
  | SERVER_PATH_READ => exact pathRead_emb _ _ _
  | SERVER_ARGS_INIT =>
    simp only
    have hg : (emb pre suf r).srv._buffer.getD pre.length NUL = r.2 := getD_mid _ _ _ _
    rw [hg]
    by_cases hc : r.2 = ' '
    · rw [if_pos hc, if_pos hc]
      simp only [emb, withBuf, set_mid]
    · rw [if_neg hc, if_neg hc, ← argsRead_emb]
      rfl
  | SERVER_ARGS_READ => exact argsRead_emb _ _ _
  | SERVER_ARGS_NEXT => rfl
  | SERVER_HTTP_INIT =>
    simp only
    rw [← httpRead_emb]
    rfl
  | SERVER_HTTP_READ => exact httpRead_emb _ _ _
  | HTTP_BAD_REQUEST => rfl

theorem step_emb (maxP maxA : Nat) (pre suf : List Char) (r : PState × Char) :
    step maxP maxA (emb pre suf r) pre.length = emb pre suf (stepK maxP maxA pre.length r) := by
  unfold step stepK
  rw [switchMode_emb]
  rfl

theorem run_scanK (maxP maxA : Nat) (w : List Char) :
    ∀ (k : PState) (pre suf : List Char),
      run maxP maxA (withBuf k (pre ++ w ++ suf)) (List.range' pre.length w.length) =
        withBuf (scanK maxP maxA k pre.length w).1
          (pre ++ (scanK maxP maxA k pre.length w).2 ++ suf) := by
  induction w with
  | nil => intro k pre suf; simp [run, scanK]
  | cons c w ih =>
    intro k pre suf
    have h1 : withBuf k (pre ++ c :: w ++ suf) = emb pre (w ++ suf) (k, c) := by
      simp [emb]
    have h2 : emb pre (w ++ suf) (stepK maxP maxA pre.length (k, c)) =
        withBuf (stepK maxP maxA pre.length (k, c)).1
          ((pre ++ [(stepK maxP maxA pre.length (k, c)).2]) ++ w ++ suf) := by
      simp [emb]
    have h3 := ih (stepK maxP maxA pre.length (k, c)).1
      (pre ++ [(stepK maxP maxA pre.length (k, c)).2]) suf
    simp only [List.length_append, List.length_singleton] at h3
    simp only [List.length_cons, List.range'_succ, run, List.foldl_cons]
    rw [h1, step_emb, h2]
    simp only [run] at h3
    rw [h3]
    simp [scanK]

theorem cstr_append_dropWhile (buf : List Char) :
    cstr buf 0 ++ buf.dropWhile (fun c => c != NUL) = buf := by
  simp [cstr, List.takeWhile_append_dropWhile]

theorem parseLoop_scanK (maxP maxA : Nat) (s : Server) :
    parseLoop maxP maxA s =
      withBuf (scanK maxP maxA (initK s) 0 (cstr s._buffer 0)).1
        ((scanK maxP maxA (initK s) 0 (cstr s._buffer 0)).2 ++
          s._buffer.dropWhile (fun c => c != NUL)) := by
  have h := run_scanK maxP maxA (cstr s._buffer 0) (initK s) []
    (s._buffer.dropWhile (fun c => c != NUL))
  simp only [List.nil_append, List.length_nil] at h
  rw [cstr_append_dropWhile] at h
  unfold parseLoop strlen
  rw [List.range_eq_range']
  exact h

/-! ## Mode and counts

The mode and the two counts after a loop body depend on the mode and the counts before it
and on the character under the index only. -/

theorem NUL_ne_space : ¬ NUL = ' ' := by decide

theorem NUL_ne_slash : ¬ NUL = '/' := by decide

theorem NUL_ne_quest : ¬ NUL = '?' := by decide

theorem NUL_ne_amp : ¬ NUL = '&' := by decide

theorem NUL_ne_eq : ¬ NUL = '=' := by decide

theorem NUL_ne_cr : ¬ NUL = '\r' := by decide

theorem pathReadK_eq (k : PState) (c : Char) :
    pathReadK (k, c) =
      if c = '/' then ({ k with mode := Mode.SERVER_PATH_INIT }, NUL)
      else if c = '?' then ({ k with mode := Mode.SERVER_ARGS_INIT }, NUL)
      else if c = ' ' then ({ k with mode := Mode.SERVER_HTTP_INIT }, NUL)
      else (k, c) := by
  unfold pathReadK cutK
  by_cases h1 : c = '/'
  · simp [h1, NUL_ne_quest, NUL_ne_space]
  · by_cases h2 : c = '?'
    · simp [h2, NUL_ne_space]
    · by_cases h3 : c = ' '
      · simp [h3]
      · simp [h1, h2, h3]

theorem argsReadK_eq (k : PState) (c : Char) :
    argsReadK (k, c) =
      if c = '=' then ({ k with mode := Mode.SERVER_ARGS_NEXT }, NUL)
      else if c = '&' then ({ k with mode := Mode.SERVER_ARGS_INIT }, NUL)
      else if c = ' ' then ({ k with mode := Mode.SERVER_HTTP_INIT }, NUL)
      else (k, c) := by
  unfold argsReadK cutK
  by_cases h1 : c = '='
  · simp [h1, NUL_ne_amp, NUL_ne_space]
  · by_cases h2 : c = '&'
    · simp [h2, NUL_ne_space]
    · by_cases h3 : c = ' '
      · simp [h3]
      · simp [h1, h2, h3]

theorem ctlOf_switchK (i : Nat) (k : PState) (c : Char) :
    ctlOf (switchK i (k, c)).1 = switchC (ctlOf k) c := by
  unfold switchK switchC
  simp only [ctlOf]
  cases hm : k.mode with
  | SERVER_METH_READ => simp only [cutK]; split_ifs <;> simp [hm]
  | SERVER_METH_DONE => simp only [cutK]; split_ifs <;> simp [hm]
  | SERVER_PATH_INIT =>
    simp only [pathReadK_eq, pathC]
    split_ifs <;> rfl
  | SERVER_PATH_READ =>
    simp only [pathReadK_eq, pathC]
    split_ifs <;> simp [hm]
  | SERVER_ARGS_INIT =>
    simp only [argsReadK_eq, argsC]
    split_ifs <;> rfl
  | SERVER_ARGS_READ =>
    simp only [argsReadK_eq, argsC]
    split_ifs <;> simp [hm]
  | SERVER_ARGS_NEXT => rfl
  | SERVER_HTTP_INIT => simp only [httpReadK]; split <;> rfl
  | SERVER_HTTP_READ => simp only [httpReadK]; split <;> simp [hm]
  | HTTP_BAD_REQUEST => simp [hm]

theorem ctlOf_stepK (maxP maxA i : Nat) (k : PState) (c : Char) :
    ctlOf (stepK maxP maxA i (k, c)).1 = stepC maxP maxA (ctlOf k) c := by
  have h := ctlOf_switchK i k c
  unfold stepK stepC capMode
  rw [← h]
  rfl

theorem ctlOf_scanK (maxP maxA : Nat) (w : List Char) :
    ∀ (k : PState) (i : Nat),
      ctlOf (scanK maxP maxA k i w).1 = w.foldl (stepC maxP maxA) (ctlOf k) := by
  induction w with
  | nil => intro k i; rfl
  | cons c w ih =>
    intro k i
    simp only [scanK, List.foldl_cons]
    rw [ih, ctlOf_stepK]

/-- The result of `_parseRequest` and the two counts it leaves, from the characters of the
request line alone. -/
theorem parse_ctl (maxP maxA : Nat) (s : Server) :
    ((_parseRequest maxP maxA s).1 =
        decide (((cstr s._buffer 0).foldl (stepC maxP maxA)
          (Mode.SERVER_METH_READ, 0, 0)).1 ≠ Mode.HTTP_BAD_REQUEST)) ∧
    (_parseRequest maxP maxA s).2._pathCount =
        ((cstr s._buffer 0).foldl (stepC maxP maxA) (Mode.SERVER_METH_READ, 0, 0)).2.1 ∧
    (_parseRequest maxP maxA s).2._argsCount =
        ((cstr s._buffer 0).foldl (stepC maxP maxA) (Mode.SERVER_METH_READ, 0, 0)).2.2 := by
  have h := ctlOf_scanK maxP maxA (cstr s._buffer 0) (initK s) 0
  have h0 : ctlOf (initK s) = (Mode.SERVER_METH_READ, 0, 0) := rfl
  rw [h0] at h
  rw [← h]
  simp only [_parseRequest, finish, parseLoop_scanK]
  exact ⟨rfl, rfl, rfl⟩

/-! ## Mode and counts along a request line -/

theorem runC_nil (maxP maxA : Nat) (t : Mode × Nat × Nat) : runC maxP maxA t [] = t := rfl

theorem runC_cons (maxP maxA : Nat) (t : Mode × Nat × Nat) (c : Char) (w : List Char) :
    runC maxP maxA t (c :: w) = runC maxP maxA (stepC maxP maxA t c) w := rfl

theorem runC_append (maxP maxA : Nat) (t : Mode × Nat × Nat) (u w : List Char) :
    runC maxP maxA t (u ++ w) = runC maxP maxA (runC maxP maxA t u) w := by
  simp [runC, List.foldl_append]

theorem stepC_bad (maxP maxA : Nat) (t : Mode × Nat × Nat) (c : Char)
    (h : t.1 = Mode.HTTP_BAD_REQUEST) : stepC maxP maxA t c = t := by
  obtain ⟨m, p, a⟩ := t
  simp only at h
  subst h
  simp [stepC, switchC]

theorem runC_bad (maxP maxA : Nat) (w : List Char) :
    ∀ t : Mode × Nat × Nat, t.1 = Mode.HTTP_BAD_REQUEST → runC maxP maxA t w = t := by
  induction w with
  | nil => intro t _; rfl
  | cons c w ih =>
    intro t h
    rw [runC_cons, stepC_bad maxP maxA t c h]
    exact ih t h

/-- A mode other than `HTTP_BAD_REQUEST` after a loop body means that both counts are
below their maximum. -/
theorem stepC_reach (maxP maxA : Nat) (t : Mode × Nat × Nat) (c : Char)
    (h : (stepC maxP maxA t c).1 ≠ Mode.HTTP_BAD_REQUEST) :
    (stepC maxP maxA t c).2.1 < maxP ∧ (stepC maxP maxA t c).2.2 < maxA := by
  unfold stepC at h ⊢
  by_cases hc : (switchC t c).2.1 < maxP ∧ (switchC t c).2.2 < maxA
  · exact hc
  · rw [if_neg hc] at h
    exact absurd rfl h

theorem runC_reach (maxP maxA : Nat) (w : List Char) (hw : w ≠ []) (t : Mode × Nat × Nat)
    (h : (runC maxP maxA t w).1 ≠ Mode.HTTP_BAD_REQUEST) :
    (runC maxP maxA t w).2.1 < maxP ∧ (runC maxP maxA t w).2.2 < maxA := by
  rcases List.eq_nil_or_concat w with h0 | ⟨u, c, rfl⟩
  · exact absurd h0 hw
  · rw [List.concat_eq_append, runC_append] at h ⊢
    exact stepC_reach maxP maxA _ c h

theorem stepC_badOr (maxP maxA : Nat) (t : Mode × Nat × Nat) (c : Char) :
    BadOr (stepC maxP maxA t c) (switchC t c) := by
  unfold BadOr stepC
  by_cases hc : (switchC t c).2.1 < maxP ∧ (switchC t c).2.2 < maxA
  · right; rw [if_pos hc]
  · left; rw [if_neg hc]

theorem badOr_trans (maxP maxA : Nat) (t t1 t2 : Mode × Nat × Nat) (u w : List Char)
    (h1 : BadOr (runC maxP maxA t u) t1) (h2 : BadOr (runC maxP maxA t1 w) t2) :
    BadOr (runC maxP maxA t (u ++ w)) t2 := by
  rw [runC_append]
  rcases h1 with h1 | h1
  · left; rw [runC_bad maxP maxA w _ h1]; exact h1
  · rw [h1]; exact h2

theorem badOr_step (maxP maxA : Nat) (t t1 t2 : Mode × Nat × Nat) (c : Char) (w : List Char)
    (h1 : switchC t c = t1) (h2 : BadOr (runC maxP maxA t1 w) t2) :
    BadOr (runC maxP maxA t (c :: w)) t2 := by
  have h := badOr_trans maxP maxA t t1 t2 [c] w
    (by have := stepC_badOr maxP maxA t c; rw [h1] at this; exact this) h2
  exact h

theorem badOr_plain (maxP maxA : Nat) (t : Mode × Nat × Nat) (w : List Char)
    (h : ∀ c ∈ w, switchC t c = t) : BadOr (runC maxP maxA t w) t := by
  induction w with
  | nil => right; rfl
  | cons c w ih =>
    exact badOr_step maxP maxA t t t c w (h c (List.mem_cons_self _ _))
      (ih (fun d hd => h d (List.mem_cons_of_mem _ hd)))

theorem free_cons {bad : List Char} {c : Char} {w : List Char} (h : Free bad (c :: w)) :
    c ∉ bad ∧ Free bad w :=
  ⟨h c (List.mem_cons_self _ _), fun d hd => h d (List.mem_cons_of_mem _ hd)⟩

theorem free_mono {bad bad2 w : List Char} (hsub : ∀ c ∈ bad, c ∈ bad2) (h : Free bad2 w) :
    Free bad w :=
  fun c hc hb => h c hc (hsub c hb)

theorem switchC_meth_plain (p a : Nat) (c : Char) (h : c ≠ ' ') :
    switchC (Mode.SERVER_METH_READ, p, a) c = (Mode.SERVER_METH_READ, p, a) := by
  simp [switchC, h]

theorem switchC_done_plain (p a : Nat) (c : Char) (h : c ≠ '/') :
    switchC (Mode.SERVER_METH_DONE, p, a) c = (Mode.SERVER_METH_DONE, p, a) := by
  simp [switchC, h]

theorem switchC_path_plain (p a : Nat) (c : Char) (h : c ∉ [' ', '/', '?']) :
    switchC (Mode.SERVER_PATH_READ, p, a) c = (Mode.SERVER_PATH_READ, p, a) := by
  simp at h
  simp [switchC, pathC, h]

theorem switchC_args_plain (p a : Nat) (c : Char) (h : c ∉ [' ', '&', '=']) :
    switchC (Mode.SERVER_ARGS_READ, p, a) c = (Mode.SERVER_ARGS_READ, p, a) := by
  simp at h
  simp [switchC, argsC, h]

theorem switchC_pinit (p a : Nat) (c : Char) (h : c ∉ [' ', '/', '?']) :
    switchC (Mode.SERVER_PATH_INIT, p, a) c = (Mode.SERVER_PATH_READ, p + 1, a) := by
  simp at h
  simp [switchC, pathC, h]

theorem switchC_ainit (p a : Nat) (c : Char) (h : c ∉ [' ', '&', '=']) :
    switchC (Mode.SERVER_ARGS_INIT, p, a) c = (Mode.SERVER_ARGS_READ, p, a + 1) := by
  simp at h
  simp [switchC, argsC, h]

/-- A path segment and its closing delimiter, met in mode `SERVER_PATH_INIT`: one more path
item, or `HTTP_BAD_REQUEST`. -/
theorem badOr_seg (maxP maxA p a : Nat) (s : List Char) (d : Char)
    (hs : Free [' ', '/', '?'] s) (hd : d = '/' ∨ d = '?' ∨ d = ' ') :
    BadOr (runC maxP maxA (Mode.SERVER_PATH_INIT, p, a) (s ++ [d])) (afterSeg d, p + 1, a) := by
  have hlast : ∀ q, switchC (Mode.SERVER_PATH_READ, q, a) d = (afterSeg d, q, a) := by
    intro q; simp [switchC, afterSeg]
  cases s with
  | nil =>
    by_cases h : d = ' '
    · left
      subst h
      simp [runC, stepC, switchC]
    · apply badOr_step maxP maxA _ (afterSeg d, p + 1, a) _ d [] _ (Or.inr rfl)
      simp [switchC, afterSeg, h]
  | cons c s =>
    obtain ⟨hc, hs2⟩ := free_cons hs
    apply badOr_step maxP maxA _ _ _ c _ (switchC_pinit p a c hc)
    apply badOr_trans maxP maxA _ (Mode.SERVER_PATH_READ, p + 1, a)
    · exact badOr_plain maxP maxA _ s (fun x hx => switchC_path_plain _ _ x (hs2 x hx))
    · exact badOr_step maxP maxA _ _ _ d [] (hlast _) (Or.inr rfl)

theorem renderArg_eq (l : List Char) (v : Option (List Char)) :
    renderArg (l, v) = l ++ valueText v := by
  cases v <;> simp [renderArg, valueText]

/-- An argument and its closing delimiter, met in mode `SERVER_ARGS_INIT`: one more
argument, or `HTTP_BAD_REQUEST`. -/
theorem badOr_arg (maxP maxA p a : Nat) (x : List Char × Option (List Char)) (d : Char)
    (hx : ArgOK [' ', '&', '='] x) (hd : d = '&' ∨ d = ' ') :
    BadOr (runC maxP maxA (Mode.SERVER_ARGS_INIT, p, a) (renderArg x ++ [d]))
      (afterArg d, p, a + 1) := by
  have hlast : ∀ q, switchC (Mode.SERVER_ARGS_READ, p, q) d = (afterArg d, p, q) := by
    intro q; simp [switchC, afterArg]
  obtain ⟨l, v⟩ := x
  obtain ⟨hl, hv⟩ := hx
  simp only at hl hv
  -- what follows the label, met in mode `SERVER_ARGS_READ`
  have htail : ∀ q, BadOr (runC maxP maxA (Mode.SERVER_ARGS_READ, p, q)
      (valueText v ++ [d])) (afterArg d, p, q) := by
    intro q
    cases v with
    | none => exact badOr_step maxP maxA _ _ _ d [] (hlast q) (Or.inr rfl)
    | some v =>
      obtain ⟨hne, hfree⟩ := hv v rfl
      cases v with
      | nil => exact absurd rfl hne
      | cons c v =>
        obtain ⟨_, hv2⟩ := free_cons hfree
        simp only [valueText, List.cons_append]
        apply badOr_step maxP maxA _ (Mode.SERVER_ARGS_NEXT, p, q) _ '=' _
          (by simp [switchC, argsC])
        apply badOr_step maxP maxA _ (Mode.SERVER_ARGS_READ, p, q) _ c _
          (by simp [switchC])
        apply badOr_trans maxP maxA _ (Mode.SERVER_ARGS_READ, p, q)
        · exact badOr_plain maxP maxA _ v (fun y hy => switchC_args_plain _ _ y (hv2 y hy))
        · exact badOr_step maxP maxA _ _ _ d [] (hlast q) (Or.inr rfl)
  have hrender : renderArg (l, v) ++ [d] = l ++ (valueText v ++ [d]) := by
    rw [renderArg_eq, List.append_assoc]
  rw [hrender]
  cases l with
  | nil =>
    cases v with
    | none =>
      simp only [valueText, List.nil_append]
      by_cases h : d = ' '
      · left
        subst h
        simp [runC, stepC, switchC]
      · have h2 : d = '&' := by rcases hd with h3 | h3; exact h3; exact absurd h3 h
        subst h2
        apply badOr_step maxP maxA _ (afterArg '&', p, a + 1) _ '&' [] _ (Or.inr rfl)
        simp [switchC, afterArg, argsC]
    | some v =>
      obtain ⟨hne, hfree⟩ := hv v rfl
      cases v with
      | nil => exact absurd rfl hne
      | cons c v =>
        obtain ⟨_, hv2⟩ := free_cons hfree
        simp only [valueText, List.nil_append, List.cons_append]
        apply badOr_step maxP maxA _ (Mode.SERVER_ARGS_NEXT, p, a + 1) _ '=' _
          (by simp [switchC, argsC])
        apply badOr_step maxP maxA _ (Mode.SERVER_ARGS_READ, p, a + 1) _ c _
          (by simp [switchC])
        apply badOr_trans maxP maxA _ (Mode.SERVER_ARGS_READ, p, a + 1)
        · exact badOr_plain maxP maxA _ v (fun y hy => switchC_args_plain _ _ y (hv2 y hy))
        · exact badOr_step maxP maxA _ _ _ d [] (hlast _) (Or.inr rfl)
  | cons c l =>
    obtain ⟨hc, hl2⟩ := free_cons hl
    apply badOr_step maxP maxA _ _ _ c _ (switchC_ainit p a c hc)
    apply badOr_trans maxP maxA _ (Mode.SERVER_ARGS_READ, p, a + 1)
    · exact badOr_plain maxP maxA _ l (fun y hy => switchC_args_plain _ _ y (hl2 y hy))
    · exact htail _

/-- The segments `s :: ss` and the delimiter `d` that closes the last one, met in mode
`SERVER_PATH_INIT`. -/
theorem badOr_path (maxP maxA a : Nat) (d : Char) (hd : d = '?' ∨ d = ' ') (ss : List (List Char)) :
    ∀ (s : List Char) (p : Nat),
      (∀ x ∈ s :: ss, Free [' ', '/', '?'] x) →
      BadOr (runC maxP maxA (Mode.SERVER_PATH_INIT, p, a) (s ++ renderPath ss ++ [d]))
        (afterSeg d, p + 1 + ss.length, a) := by
  induction ss with
  | nil =>
    intro s p h
    simpa [renderPath] using
      badOr_seg maxP maxA p a s d (h s (List.mem_cons_self _ _)) (Or.inr hd)
  | cons s2 ss ih =>
    intro s p h
    have e : s ++ renderPath (s2 :: ss) ++ [d] = (s ++ ['/']) ++ (s2 ++ renderPath ss ++ [d]) := by
      simp [renderPath]
    rw [e]
    apply badOr_trans maxP maxA _ (Mode.SERVER_PATH_INIT, p + 1, a)
    · exact badOr_seg maxP maxA p a s '/' (h s (List.mem_cons_self _ _)) (Or.inl rfl)
    · have := ih s2 (p + 1) (fun x hx => h x (List.mem_cons_of_mem _ hx))
      have e2 : p + 1 + (s2 :: ss).length = p + 1 + 1 + ss.length := by
        simp only [List.length_cons]; omega
      rw [e2]
      exact this

/-- The arguments `x :: xs` and the space that closes the last one, met in mode
`SERVER_ARGS_INIT`. -/
theorem badOr_query (maxP maxA p : Nat) (xs : List (List Char × Option (List Char))) :
    ∀ (x : List Char × Option (List Char)) (a : Nat),
      (∀ y ∈ x :: xs, ArgOK [' ', '&', '='] y) →
      BadOr (runC maxP maxA (Mode.SERVER_ARGS_INIT, p, a)
          (renderArg x ++ renderQuery '&' xs ++ [' ']))
        (Mode.SERVER_HTTP_INIT, p, a + 1 + xs.length) := by
  induction xs with
  | nil =>
    intro x a h
    simpa [renderQuery] using
      badOr_arg maxP maxA p a x ' ' (h x (List.mem_cons_self _ _)) (Or.inr rfl)
  | cons x2 xs ih =>
    intro x a h
    have e : renderArg x ++ renderQuery '&' (x2 :: xs) ++ [' '] =
        (renderArg x ++ ['&']) ++ (renderArg x2 ++ renderQuery '&' xs ++ [' ']) := by
      simp [renderQuery]
    rw [e]
    apply badOr_trans maxP maxA _ (Mode.SERVER_ARGS_INIT, p, a + 1)
    · exact badOr_arg maxP maxA p a x '&' (h x (List.mem_cons_self _ _)) (Or.inl rfl)
    · have := ih x2 (a + 1) (fun y hy => h y (List.mem_cons_of_mem _ hy))
      have e2 : a + 1 + (x2 :: xs).length = a + 1 + 1 + xs.length := by
        simp only [List.length_cons]; omega
      rw [e2]
      exact this

/-! ## The working state along a well-formed request line -/

theorem capMode_ok (maxP maxA : Nat) (k : PState) (h : CountsOK maxP maxA k) :
    capMode maxP maxA k = k := by
  unfold CountsOK at h
  unfold capMode
  rw [if_pos h]

theorem scanK_append (maxP maxA : Nat) (u w : List Char) :
    ∀ (k : PState) (i : Nat),
      scanK maxP maxA k i (u ++ w) =
        ((scanK maxP maxA (scanK maxP maxA k i u).1 (i + u.length) w).1,
         (scanK maxP maxA k i u).2 ++ (scanK maxP maxA (scanK maxP maxA k i u).1 (i + u.length) w).2) := by
  induction u with
  | nil => intro k i; simp [scanK]
  | cons c u ih =>
    intro k i
    rw [List.cons_append]
    simp only [scanK, List.length_cons]
    rw [ih]
    have e : i + 1 + u.length = i + (u.length + 1) := by omega
    rw [e]
    rfl

theorem scanK_plain (maxP maxA : Nat) (k : PState) (w : List Char)
    (h : ∀ c ∈ w, ∀ i, stepK maxP maxA i (k, c) = (k, c)) :
    ∀ i, scanK maxP maxA k i w = (k, w) := by
  induction w with
  | nil => intro i; rfl
  | cons c w ih =>
    intro i
    simp only [scanK, h c (List.mem_cons_self _ _) i]
    rw [ih (fun d hd => h d (List.mem_cons_of_mem _ hd))]

theorem stepK_meth_plain (maxP maxA i : Nat) (k : PState) (c : Char)
    (hm : k.mode = Mode.SERVER_METH_READ) (hok : CountsOK maxP maxA k) (hc : c ≠ ' ') :
    stepK maxP maxA i (k, c) = (k, c) := by
  simp [stepK, switchK, hm, cutK, hc, capMode_ok _ _ _ hok]

theorem stepK_meth_space (maxP maxA i : Nat) (k : PState)
    (hm : k.mode = Mode.SERVER_METH_READ) (hok : CountsOK maxP maxA k) :
    stepK maxP maxA i (k, ' ') = (setMode k Mode.SERVER_METH_DONE, NUL) := by
  have h : capMode maxP maxA (setMode k Mode.SERVER_METH_DONE) =
      setMode k Mode.SERVER_METH_DONE := capMode_ok _ _ _ hok
  simp [stepK, switchK, hm, cutK]
  exact h

theorem stepK_done_plain (maxP maxA i : Nat) (k : PState) (c : Char)
    (hm : k.mode = Mode.SERVER_METH_DONE) (hok : CountsOK maxP maxA k) (hc : c ≠ '/') :
    stepK maxP maxA i (k, c) = (k, c) := by
  simp [stepK, switchK, hm, cutK, hc, capMode_ok _ _ _ hok]

theorem stepK_done_slash (maxP maxA i : Nat) (k : PState)
    (hm : k.mode = Mode.SERVER_METH_DONE) (hok : CountsOK maxP maxA k) :
    stepK maxP maxA i (k, '/') = (setMode k Mode.SERVER_PATH_INIT, NUL) := by
  have h : capMode maxP maxA (setMode k Mode.SERVER_PATH_INIT) =
      setMode k Mode.SERVER_PATH_INIT := capMode_ok _ _ _ hok
  simp [stepK, switchK, hm, cutK]
  exact h

theorem stepK_path_plain (maxP maxA i : Nat) (k : PState) (c : Char)
    (hm : k.mode = Mode.SERVER_PATH_READ) (hok : CountsOK maxP maxA k)
    (hc : c ∉ [' ', '/', '?']) :
    stepK maxP maxA i (k, c) = (k, c) := by
  simp at hc
  simp [stepK, switchK, hm, pathReadK_eq, hc, capMode_ok _ _ _ hok]

theorem stepK_path_delim (maxP maxA i : Nat) (k : PState) (d : Char)
    (hm : k.mode = Mode.SERVER_PATH_READ) (hok : CountsOK maxP maxA k)
    (hd : d = '/' ∨ d = '?' ∨ d = ' ') :
    stepK maxP maxA i (k, d) = (setMode k (afterSeg d), NUL) := by
  have h : capMode maxP maxA (setMode k (afterSeg d)) = setMode k (afterSeg d) :=
    capMode_ok _ _ _ hok
  rcases hd with h1 | h1 | h1 <;> subst h1 <;>
    simp [stepK, switchK, hm, pathReadK_eq] <;> exact h

theorem stepK_pinit (maxP maxA i : Nat) (k : PState) (c : Char)
    (hm : k.mode = Mode.SERVER_PATH_INIT)
    (hp : k.srv._pathCount + 1 < maxP) (ha : k.srv._argsCount < maxA)
    (hc : c ∉ [' ', '/', '?']) :
    stepK maxP maxA i (k, c) = (recPath k i, c) := by
  have h : capMode maxP maxA (recPath k i) = recPath k i := capMode_ok _ _ _ ⟨hp, ha⟩
  simp at hc
  simp [stepK, switchK, hm, pathReadK_eq, hc]
  exact h

theorem stepK_args_plain (maxP maxA i : Nat) (k : PState) (c : Char)
    (hm : k.mode = Mode.SERVER_ARGS_READ) (hok : CountsOK maxP maxA k)
    (hc : c ∉ [' ', '&', '=']) :
    stepK maxP maxA i (k, c) = (k, c) := by
  simp at hc
  simp [stepK, switchK, hm, argsReadK_eq, hc, capMode_ok _ _ _ hok]

theorem stepK_args_delim (maxP maxA i : Nat) (k : PState) (d : Char)
    (hm : k.mode = Mode.SERVER_ARGS_READ) (hok : CountsOK maxP maxA k)
    (hd : d = '=' ∨ d = '&' ∨ d = ' ') :
    stepK maxP maxA i (k, d) = (setMode k (afterArg d), NUL) := by
  have h : capMode maxP maxA (setMode k (afterArg d)) = setMode k (afterArg d) :=
    capMode_ok _ _ _ hok
  rcases hd with h1 | h1 | h1 <;> subst h1 <;>
    simp [stepK, switchK, hm, argsReadK_eq] <;> exact h

theorem stepK_ainit (maxP maxA i : Nat) (k : PState) (c : Char)
    (hm : k.mode = Mode.SERVER_ARGS_INIT)
    (hp : k.srv._pathCount < maxP) (ha : k.srv._argsCount + 1 < maxA)
    (hc : c ∉ [' ', '&', '=']) :
    stepK maxP maxA i (k, c) = (recLabel k i, c) := by
  have h : capMode maxP maxA (recLabel k i) = recLabel k i := capMode_ok _ _ _ ⟨hp, ha⟩
  simp at hc
  simp [stepK, switchK, hm, argsReadK_eq, hc]
  exact h

theorem stepK_anext (maxP maxA i : Nat) (k : PState) (c : Char)
    (hm : k.mode = Mode.SERVER_ARGS_NEXT) (hok : CountsOK maxP maxA k) :
    stepK maxP maxA i (k, c) = (recValue k i, c) := by
  have h : capMode maxP maxA (recValue k i) = recValue k i := capMode_ok _ _ _ hok
  simp [stepK, switchK, hm]
  exact h

theorem stepK_hinit (maxP maxA i : Nat) (k : PState) (c : Char)
    (hm : k.mode = Mode.SERVER_HTTP_INIT) (hok : CountsOK maxP maxA k) :
    stepK maxP maxA i (k, c) = (recHttp k i, crNul c) := by
  have h : capMode maxP maxA (recHttp k i) = recHttp k i := capMode_ok _ _ _ hok
  by_cases hc : c = '\r'
  · simp [stepK, switchK, hm, httpReadK, hc, crNul]; exact h
  · simp [stepK, switchK, hm, httpReadK, hc, crNul]; exact h

theorem stepK_hread (maxP maxA i : Nat) (k : PState) (c : Char)
    (hm : k.mode = Mode.SERVER_HTTP_READ) (hok : CountsOK maxP maxA k) :
    stepK maxP maxA i (k, c) = (k, crNul c) := by
  by_cases hc : c = '\r'
  · simp [stepK, switchK, hm, httpReadK, hc, crNul, capMode_ok _ _ _ hok]
  · simp [stepK, switchK, hm, httpReadK, hc, crNul, capMode_ok _ _ _ hok]

theorem scanK_cons (maxP maxA : Nat) (k : PState) (i : Nat) (c : Char) (w : List Char) :
    scanK maxP maxA k i (c :: w) =
      ((scanK maxP maxA (stepK maxP maxA i (k, c)).1 (i + 1) w).1,
       (stepK maxP maxA i (k, c)).2 :: (scanK maxP maxA (stepK maxP maxA i (k, c)).1 (i + 1) w).2) :=
  rfl

theorem scanK_nil (maxP maxA : Nat) (k : PState) (i : Nat) :
    scanK maxP maxA k i [] = (k, []) := rfl

/-- A path segment and its closing delimiter, met in mode `SERVER_PATH_INIT` with room for
one more path item. -/
theorem scanK_seg (maxP maxA : Nat) (k : PState) (i : Nat) (s : List Char) (d : Char)
    (hm : k.mode = Mode.SERVER_PATH_INIT)
    (hp : k.srv._pathCount + 1 < maxP) (ha : k.srv._argsCount < maxA)
    (hne : s ≠ []) (hs : Free [' ', '/', '?'] s) (hd : d = '/' ∨ d = '?' ∨ d = ' ') :
    scanK maxP maxA k i (s ++ [d]) = (setMode (recPath k i) (afterSeg d), s ++ [NUL]) := by
  cases s with
  | nil => exact absurd rfl hne
  | cons c s =>
    obtain ⟨hc, hs2⟩ := free_cons hs
    have hok : CountsOK maxP maxA (recPath k i) := ⟨hp, ha⟩
    rw [List.cons_append, scanK_cons, stepK_pinit maxP maxA i k c hm hp ha hc]
    simp only
    rw [scanK_append,
      scanK_plain maxP maxA (recPath k i) s
        (fun x hx j => stepK_path_plain maxP maxA j _ x rfl hok (hs2 x hx))]
    simp only
    rw [scanK_cons, stepK_path_delim maxP maxA _ _ d rfl hok hd]
    simp [scanK_nil]

theorem argRec_counts (k : PState) (i : Nat) (x : List Char × Option (List Char)) :
    (argRec k i x).srv._pathCount = k.srv._pathCount ∧
    (argRec k i x).srv._argsCount = k.srv._argsCount + 1 := by
  obtain ⟨l, v⟩ := x
  cases v <;> exact ⟨rfl, rfl⟩

/-- An argument and its closing delimiter, met in mode `SERVER_ARGS_INIT` with room for one
more argument. -/
theorem scanK_arg (maxP maxA : Nat) (k : PState) (i : Nat)
    (x : List Char × Option (List Char)) (d : Char)
    (hm : k.mode = Mode.SERVER_ARGS_INIT)
    (hp : k.srv._pathCount < maxP) (ha : k.srv._argsCount + 1 < maxA)
    (hne : x.1 ≠ []) (hx : ArgOK [' ', '&', '='] x) (hd : d = '&' ∨ d = ' ') :
    scanK maxP maxA k i (renderArg x ++ [d]) =
      (setMode (argRec k i x) (afterArg d), nulArg x ++ [NUL]) := by
  obtain ⟨l, v⟩ := x
  obtain ⟨hl, hv⟩ := hx
  simp only at hl hv hne
  cases l with
  | nil => exact absurd rfl hne
  | cons c l =>
    obtain ⟨hc, hl2⟩ := free_cons hl
    have hok : CountsOK maxP maxA (recLabel k i) := ⟨hp, ha⟩
    have hd3 : d = '=' ∨ d = '&' ∨ d = ' ' := Or.inr hd
    cases v with
    | none =>
      simp only [renderArg, nulArg, argRec]
      rw [List.cons_append, scanK_cons, stepK_ainit maxP maxA i k c hm hp ha hc]
      simp only
      rw [scanK_append,
        scanK_plain maxP maxA (recLabel k i) l
          (fun y hy j => stepK_args_plain maxP maxA j _ y rfl hok (hl2 y hy))]
      simp only
      rw [scanK_cons, stepK_args_delim maxP maxA _ _ d rfl hok hd3]
      simp [scanK_nil]
    | some v =>
      obtain ⟨hvne, hvfree⟩ := hv v rfl
      cases v with
      | nil => exact absurd rfl hvne
      | cons c0 v =>
        obtain ⟨_, hv2⟩ := free_cons hvfree
        have hok2 : CountsOK maxP maxA (recValue (recLabel k i) (i + (c :: l).length + 1)) :=
          ⟨hp, ha⟩
        have e : renderArg (c :: l, some (c0 :: v)) ++ [d] =
            c :: (l ++ ('=' :: c0 :: (v ++ [d]))) := by
          simp [renderArg]
        rw [e, scanK_cons, stepK_ainit maxP maxA i k c hm hp ha hc]
        simp only
        rw [scanK_append,
          scanK_plain maxP maxA (recLabel k i) l
            (fun y hy j => stepK_args_plain maxP maxA j _ y rfl hok (hl2 y hy))]
        simp only
        rw [scanK_cons, stepK_args_delim maxP maxA _ _ '=' rfl hok (Or.inl rfl)]
        simp only
        rw [scanK_cons,
          stepK_anext maxP maxA _ (setMode (recLabel k i) (afterArg '=')) c0 rfl hok]
        simp only
        have e2 : recValue (setMode (recLabel k i) (afterArg '=')) (i + 1 + l.length + 1) =
            recValue (recLabel k i) (i + (c :: l).length + 1) := by
          have : i + 1 + l.length + 1 = i + (c :: l).length + 1 := by
            simp only [List.length_cons]; omega
          rw [this]; rfl
        rw [e2, scanK_append,
          scanK_plain maxP maxA _ v
            (fun y hy j => stepK_args_plain maxP maxA j _ y rfl hok2 (hv2 y hy))]
        simp only
        rw [scanK_cons, stepK_args_delim maxP maxA _ _ d rfl hok2 hd3]
        simp [scanK_nil, argRec, nulArg, setMode]

theorem segsState_setMode (ss : List (List Char)) :
    ∀ (k : PState) (i : Nat) (m : Mode), ss ≠ [] →
      segsState (setMode k m) i ss = segsState k i ss := by
  intro k i m h
  cases ss with
  | nil => exact absurd rfl h
  | cons s ss => rfl

theorem argsState_setMode (xs : List (List Char × Option (List Char))) :
    ∀ (k : PState) (i : Nat) (m : Mode), xs ≠ [] →
      argsState (setMode k m) i xs = argsState k i xs := by
  intro k i m h
  cases xs with
  | nil => exact absurd rfl h
  | cons x xs =>
    obtain ⟨l, v⟩ := x
    cases v <;> rfl

theorem segsState_counts (ss : List (List Char)) :
    ∀ (k : PState) (i : Nat),
      (segsState k i ss).srv._pathCount = k.srv._pathCount + ss.length ∧
      (segsState k i ss).srv._argsCount = k.srv._argsCount := by
  induction ss with
  | nil => intro k i; exact ⟨rfl, rfl⟩
  | cons s ss ih =>
    intro k i
    obtain ⟨h1, h2⟩ := ih (setMode (recPath k i) Mode.SERVER_PATH_INIT) (i + s.length + 1)
    refine ⟨?_, ?_⟩
    · show (segsState _ _ ss).srv._pathCount = _
      rw [h1]
      simp only [setMode, recPath, List.length_cons]
      omega
    · show (segsState _ _ ss).srv._argsCount = _
      rw [h2]
      rfl

theorem argsState_counts (xs : List (List Char × Option (List Char))) :
    ∀ (k : PState) (i : Nat),
      (argsState k i xs).srv._pathCount = k.srv._pathCount ∧
      (argsState k i xs).srv._argsCount = k.srv._argsCount + xs.length := by
  induction xs with
  | nil => intro k i; exact ⟨rfl, rfl⟩
  | cons x xs ih =>
    intro k i
    obtain ⟨h1, h2⟩ :=
      ih (setMode (argRec k i x) Mode.SERVER_ARGS_INIT) (i + (nulArg x).length + 1)
    obtain ⟨h3, h4⟩ := argRec_counts k i x
    refine ⟨?_, ?_⟩
    · show (argsState _ _ xs).srv._pathCount = _
      rw [h1]
      exact h3
    · show (argsState _ _ xs).srv._argsCount = _
      rw [h2]
      show (argRec k i x).srv._argsCount + xs.length = _
      rw [h4]
      simp only [List.length_cons]
      omega

theorem afterSeg_slash : afterSeg '/' = Mode.SERVER_PATH_INIT := by decide

theorem afterSeg_quest : afterSeg '?' = Mode.SERVER_ARGS_INIT := by decide

theorem afterSeg_space : afterSeg ' ' = Mode.SERVER_HTTP_INIT := by decide

theorem afterArg_amp : afterArg '&' = Mode.SERVER_ARGS_INIT := by decide

theorem afterArg_space : afterArg ' ' = Mode.SERVER_HTTP_INIT := by decide

/-- The segments `s :: ss` and the delimiter `d` that closes the last one, met in mode
`SERVER_PATH_INIT` with room for all of them. -/
theorem scanK_path (maxP maxA : Nat) (d : Char) (hd : d = '?' ∨ d = ' ')
    (ss : List (List Char)) :
    ∀ (s : List Char) (k : PState) (i : Nat),
      k.mode = Mode.SERVER_PATH_INIT →
      k.srv._pathCount + 1 + ss.length < maxP → k.srv._argsCount < maxA →
      (∀ x ∈ s :: ss, SegOK x) →
      scanK maxP maxA k i (s ++ renderPath ss ++ [d]) =
        (setMode (segsState k i (s :: ss)) (afterSeg d), nulJoin (s :: ss)) := by
  induction ss with
  | nil =>
    intro s k i hm hp ha h
    obtain ⟨hne, hs⟩ := h s (List.mem_cons_self _ _)
    simp only [renderPath, List.append_nil]
    rw [scanK_seg maxP maxA k i s d hm (by simpa using hp) ha hne hs (Or.inr hd)]
    rfl
  | cons s2 ss ih =>
    intro s k i hm hp ha h
    obtain ⟨hne, hs⟩ := h s (List.mem_cons_self _ _)
    have e : s ++ renderPath (s2 :: ss) ++ [d] = (s ++ ['/']) ++ (s2 ++ renderPath ss ++ [d]) := by
      simp [renderPath]
    simp only [List.length_cons] at hp
    rw [e, scanK_append,
      scanK_seg maxP maxA k i s '/' hm (by omega) ha hne hs (Or.inl rfl)]
    simp only [afterSeg_slash]
    have e2 : i + (s ++ ['/']).length = i + s.length + 1 := by simp; omega
    rw [e2, ih s2 (setMode (recPath k i) Mode.SERVER_PATH_INIT) (i + s.length + 1) rfl
      (by show k.srv._pathCount + 1 + 1 + ss.length < maxP; omega) ha
      (fun x hx => h x (List.mem_cons_of_mem _ hx))]
    simp [segsState, nulJoin]

/-- The arguments `x :: xs` and the space that closes the last one, met in mode
`SERVER_ARGS_INIT` with room for all of them. -/
theorem scanK_query (maxP maxA : Nat) (xs : List (List Char × Option (List Char))) :
    ∀ (x : List Char × Option (List Char)) (k : PState) (i : Nat),
      k.mode = Mode.SERVER_ARGS_INIT →
      k.srv._pathCount < maxP → k.srv._argsCount + 1 + xs.length < maxA →
      (∀ y ∈ x :: xs, ArgTok y) →
      scanK maxP maxA k i (renderArg x ++ renderQuery '&' xs ++ [' ']) =
        (setMode (argsState k i (x :: xs)) Mode.SERVER_HTTP_INIT, nulArgs (x :: xs)) := by
  induction xs with
  | nil =>
    intro x k i hm hp ha h
    obtain ⟨hne, hx⟩ := h x (List.mem_cons_self _ _)
    simp only [renderQuery, List.append_nil]
    rw [scanK_arg maxP maxA k i x ' ' hm hp (by simpa using ha) hne hx (Or.inr rfl)]
    simp only [afterArg_space]
    rfl
  | cons x2 xs ih =>
    intro x k i hm hp ha h
    obtain ⟨hne, hx⟩ := h x (List.mem_cons_self _ _)
    have e : renderArg x ++ renderQuery '&' (x2 :: xs) ++ [' '] =
        (renderArg x ++ ['&']) ++ (renderArg x2 ++ renderQuery '&' xs ++ [' ']) := by
      simp [renderQuery]
    simp only [List.length_cons] at ha
    have hlen : (renderArg x ++ ['&']).length = (nulArg x).length + 1 := by
      obtain ⟨l, v⟩ := x
      cases v with
      | none => simp [renderArg, nulArg]
      | some v => simp [renderArg, nulArg]; omega
    obtain ⟨h3, h4⟩ := argRec_counts k i x
    rw [e, scanK_append,
      scanK_arg maxP maxA k i x '&' hm hp (by omega) hne hx (Or.inl rfl)]
    simp only [afterArg_amp]
    have e2 : i + (renderArg x ++ ['&']).length = i + (nulArg x).length + 1 := by
      rw [hlen]; omega
    rw [e2, ih x2 (setMode (argRec k i x) Mode.SERVER_ARGS_INIT) (i + (nulArg x).length + 1) rfl
      (by show (argRec k i x).srv._pathCount < maxP; rw [h3]; exact hp)
      (by show (argRec k i x).srv._argsCount + 1 + xs.length < maxA; rw [h4]; omega)
      (fun y hy => h y (List.mem_cons_of_mem _ hy))]
    simp [argsState, nulArgs]

theorem scanK_hread (maxP maxA : Nat) (w : List Char) :
    ∀ (k : PState) (i : Nat), k.mode = Mode.SERVER_HTTP_READ → CountsOK maxP maxA k →
      scanK maxP maxA k i w = (k, w.map crNul) := by
  induction w with
  | nil => intro k i _ _; rfl
  | cons c w ih =>
    intro k i hm hok
    rw [scanK_cons, stepK_hread maxP maxA i k c hm hok]
    simp only
    rw [ih k (i + 1) hm hok]
    rfl

/-- The version token, met in mode `SERVER_HTTP_INIT`. -/
theorem scanK_vers (maxP maxA : Nat) (V : List Char) (k : PState) (i : Nat)
    (hm : k.mode = Mode.SERVER_HTTP_INIT) (hok : CountsOK maxP maxA k) (hV : V ≠ []) :
    scanK maxP maxA k i V = (recHttp k i, V.map crNul) := by
  cases V with
  | nil => exact absurd rfl hV
  | cons c V =>
    rw [scanK_cons, stepK_hinit maxP maxA i k c hm hok]
    simp only
    rw [scanK_hread maxP maxA V (recHttp k i) (i + 1) rfl hok]
    rfl

theorem length_path (d : Char) (ss : List (List Char)) :
    ∀ s : List Char, (s ++ renderPath ss ++ [d]).length = (nulJoin (s :: ss)).length := by
  induction ss with
  | nil => intro s; simp [renderPath, nulJoin]
  | cons s2 ss ih =>
    intro s
    have h := ih s2
    simp only [renderPath, nulJoin, List.length_append, List.length_cons, List.length_nil] at h ⊢
    omega

theorem length_arg (x : List Char × Option (List Char)) :
    (renderArg x).length = (nulArg x).length := by
  obtain ⟨l, v⟩ := x
  cases v <;> simp [renderArg, nulArg]

theorem length_query (d : Char) (xs : List (List Char × Option (List Char))) :
    ∀ x : List Char × Option (List Char),
      (renderArg x ++ renderQuery '&' xs ++ [d]).length = (nulArgs (x :: xs)).length := by
  induction xs with
  | nil => intro x; simp [renderQuery, nulArgs, length_arg]
  | cons x2 xs ih =>
    intro x
    have h := ih x2
    have h2 := length_arg x
    simp only [renderQuery, nulArgs, List.length_append, List.length_cons, List.length_nil] at h ⊢
    omega

/-- The method token, its space and the slash that opens the path. -/
theorem scanK_start (maxP maxA : Nat) (M rest : List Char) (k : PState)
    (hm : k.mode = Mode.SERVER_METH_READ) (hok : CountsOK maxP maxA k) (hM : Free [' '] M) :
    scanK maxP maxA k 0 (M ++ ' ' :: '/' :: rest) =
      ((scanK maxP maxA (setMode k Mode.SERVER_PATH_INIT) (M.length + 2) rest).1,
       M ++ NUL :: NUL ::
         (scanK maxP maxA (setMode k Mode.SERVER_PATH_INIT) (M.length + 2) rest).2) := by
  have hk1 : CountsOK maxP maxA (setMode k Mode.SERVER_METH_DONE) := hok
  have hMplain : ∀ c ∈ M, ∀ j, stepK maxP maxA j (k, c) = (k, c) := by
    intro c hc j
    exact stepK_meth_plain maxP maxA j k c hm hok (by simpa using hM c hc)
  have ei : 0 + M.length + 1 + 1 = M.length + 2 := by omega
  rw [scanK_append, scanK_plain maxP maxA k M hMplain]
  simp only
  rw [scanK_cons, stepK_meth_space maxP maxA _ k hm hok]
  simp only
  rw [scanK_cons, stepK_done_slash maxP maxA _ (setMode k Mode.SERVER_METH_DONE) rfl hk1]
  simp only
  rw [ei]
  rfl

/-- The working state and the buffer bytes after a well-formed request line whose segments
and arguments stay below the two maxima. -/
theorem scanK_line (maxP maxA : Nat) (M : List Char) (segs : List (List Char))
    (args : List (List Char × Option (List Char))) (V : List Char) (k : PState)
    (hm : k.mode = Mode.SERVER_METH_READ)
    (hp0 : k.srv._pathCount = 0) (ha0 : k.srv._argsCount = 0)
    (hM : Free [' '] M) (hne : segs ≠ []) (hsegs : ∀ x ∈ segs, SegOK x)
    (hargs : ∀ y ∈ args, ArgTok y) (hV : V ≠ [])
    (hp : segs.length < maxP) (ha : args.length < maxA) :
    scanK maxP maxA k 0 (requestLine M segs args V) =
      (recHttp (argsState (segsState k (M.length + 2) segs)
                  (M.length + 2 + (nulJoin segs).length) args)
         (M.length + 2 + (nulJoin segs).length + (nulArgs args).length),
       M ++ NUL :: NUL :: (nulJoin segs ++ (nulArgs args ++ V.map crNul))) := by
  cases segs with
  | nil => exact absurd rfl hne
  | cons s ss =>
    simp only [List.length_cons] at hp
    have hok : CountsOK maxP maxA k := by
      unfold CountsOK; rw [hp0, ha0]; exact ⟨by omega, by omega⟩
    have hsc := segsState_counts (s :: ss) k (M.length + 2)
    rw [hp0, ha0] at hsc
    obtain ⟨hsc1, hsc2⟩ := hsc
    simp only [List.length_cons, Nat.zero_add] at hsc1
    have hseg : segsState (setMode k Mode.SERVER_PATH_INIT) (M.length + 2) (s :: ss) =
        segsState k (M.length + 2) (s :: ss) := rfl
    have hokS : ∀ m, CountsOK maxP maxA (setMode (segsState k (M.length + 2) (s :: ss)) m) := by
      intro m
      show (segsState k (M.length + 2) (s :: ss)).srv._pathCount < maxP ∧
        (segsState k (M.length + 2) (s :: ss)).srv._argsCount < maxA
      rw [hsc1, hsc2]
      exact ⟨by omega, by omega⟩
    have hline : requestLine M (s :: ss) args V =
        M ++ ' ' :: '/' :: (s ++ renderPath ss ++ (renderQuery '?' args ++ ' ' :: V)) := by
      simp [requestLine, renderPath]
    rw [hline, scanK_start maxP maxA M _ k hm hok hM]
    cases args with
    | nil =>
      have e : s ++ renderPath ss ++ (renderQuery '?' [] ++ ' ' :: V) =
          (s ++ renderPath ss ++ [' ']) ++ V := by
        simp [renderQuery]
      rw [e, scanK_append,
        scanK_path maxP maxA ' ' (Or.inr rfl) ss s _ (M.length + 2) rfl
          (by show k.srv._pathCount + 1 + ss.length < maxP; rw [hp0]; omega)
          (by show k.srv._argsCount < maxA; rw [ha0]; omega) hsegs]
      simp only [afterSeg_space, length_path]
      rw [hseg, scanK_vers maxP maxA V _ _ rfl (hokS _) hV]
      simp only [argsState, nulArgs, List.length_nil, Nat.add_zero, List.nil_append]
      rfl
    | cons x xs =>
      simp only [List.length_cons] at ha
      have e : s ++ renderPath ss ++ (renderQuery '?' (x :: xs) ++ ' ' :: V) =
          (s ++ renderPath ss ++ ['?']) ++ ((renderArg x ++ renderQuery '&' xs ++ [' ']) ++ V) := by
        simp [renderQuery]
      rw [e, scanK_append,
        scanK_path maxP maxA '?' (Or.inl rfl) ss s _ (M.length + 2) rfl
          (by show k.srv._pathCount + 1 + ss.length < maxP; rw [hp0]; omega)
          (by show k.srv._argsCount < maxA; rw [ha0]; omega) hsegs]
      simp only [afterSeg_quest, length_path]
      rw [hseg]
      have hargsS : argsState (setMode (segsState k (M.length + 2) (s :: ss)) Mode.SERVER_ARGS_INIT)
          (M.length + 2 + (nulJoin (s :: ss)).length) (x :: xs) =
          argsState (segsState k (M.length + 2) (s :: ss))
            (M.length + 2 + (nulJoin (s :: ss)).length) (x :: xs) :=
        argsState_setMode _ _ _ _ (List.cons_ne_nil _ _)
      obtain ⟨hac1, hac2⟩ := argsState_counts (x :: xs)
        (segsState k (M.length + 2) (s :: ss)) (M.length + 2 + (nulJoin (s :: ss)).length)
      rw [hsc1] at hac1
      rw [hsc2] at hac2
      simp only [List.length_cons, Nat.zero_add] at hac2
      rw [scanK_append,
        scanK_query maxP maxA xs x _ _ rfl
          (by show (segsState k (M.length + 2) (s :: ss)).srv._pathCount < maxP
              rw [hsc1]; omega)
          (by show (segsState k (M.length + 2) (s :: ss)).srv._argsCount + 1 + xs.length < maxA
              rw [hsc2]; omega) hargs]
      simp only [length_query]
      rw [hargsS, scanK_vers maxP maxA V _ _ rfl
        (by
          show (argsState _ _ (x :: xs)).srv._pathCount < maxP ∧
            (argsState _ _ (x :: xs)).srv._argsCount < maxA
          rw [hac1, hac2]
          exact ⟨by omega, by omega⟩) hV]
      simp only [List.append_assoc]
      rfl

/-! ## Reading the tokens back -/

theorem cstr_mid (pre w t : List Char) (hw : NUL ∉ w) :
    cstr (pre ++ (w ++ NUL :: t)) pre.length = w := by
  unfold cstr
  rw [List.drop_left]
  induction w with
  | nil => simp [List.takeWhile]
  | cons c w ih =>
    have hc : c ≠ NUL := fun e => hw (by rw [e]; exact List.mem_cons_self _ _)
    have hw2 : NUL ∉ w := fun e => hw (List.mem_cons_of_mem _ e)
    have hb : (c != NUL) = true := by simpa using hc
    rw [List.cons_append, List.takeWhile_cons, hb, if_pos rfl, ih hw2]

theorem segsState_path_lt (ss : List (List Char)) :
    ∀ (k : PState) (i q : Nat), q < k.srv._pathCount →
      (segsState k i ss).srv._path q = k.srv._path q := by
  induction ss with
  | nil => intro k i q _; rfl
  | cons s ss ih =>
    intro k i q hq
    show (segsState (setMode (recPath k i) Mode.SERVER_PATH_INIT) _ ss).srv._path q = _
    rw [ih _ _ q (by show q < k.srv._pathCount + 1; omega)]
    show Function.update k.srv._path k.srv._pathCount (some i) q = _
    rw [Function.update_noteq (by omega)]

theorem segsState_rest (ss : List (List Char)) :
    ∀ (k : PState) (i : Nat),
      (segsState k i ss).srv._args = k.srv._args ∧ (segsState k i ss).http = k.http := by
  induction ss with
  | nil => intro k i; exact ⟨rfl, rfl⟩
  | cons s ss ih =>
    intro k i
    exact ih (setMode (recPath k i) Mode.SERVER_PATH_INIT) (i + s.length + 1)

/-- Every path item recorded along the segments `ss` reads back as its segment, in order. -/
theorem segsState_read (ss : List (List Char)) :
    ∀ (k : PState) (pre rest : List Char) (j : Nat) (w : List Char),
      (∀ x ∈ ss, NUL ∉ x) → ss[j]? = some w →
      cstrAt (pre ++ (nulJoin ss ++ rest))
        ((segsState k pre.length ss).srv._path (k.srv._pathCount + j)) = some w := by
  induction ss with
  | nil => intro k pre rest j w _ h; simp at h
  | cons s ss ih =>
    intro k pre rest j w hnul h
    cases j with
    | zero =>
      simp only [List.getElem?_cons_zero, Option.some.injEq] at h
      subst h
      show cstrAt _ ((segsState (setMode (recPath k pre.length) Mode.SERVER_PATH_INIT) _ ss).srv._path
        (k.srv._pathCount + 0)) = _
      rw [Nat.add_zero, segsState_path_lt ss _ _ _ (by show k.srv._pathCount < k.srv._pathCount + 1; omega)]
      show cstrAt _ (Function.update k.srv._path k.srv._pathCount (some pre.length) k.srv._pathCount) = _
      rw [Function.update_same]
      simp only [cstrAt, Option.map_some', nulJoin, List.append_assoc, List.cons_append]
      rw [cstr_mid pre s _ (hnul s (List.mem_cons_self _ _))]
    | succ j =>
      simp only [List.getElem?_cons_succ] at h
      have hih := ih (setMode (recPath k pre.length) Mode.SERVER_PATH_INIT) (pre ++ (s ++ [NUL])) rest j w
        (fun x hx => hnul x (List.mem_cons_of_mem _ hx)) h
      have e1 : (pre ++ (s ++ [NUL])).length = pre.length + s.length + 1 := by
        simp; omega
      have e2 : (setMode (recPath k pre.length) Mode.SERVER_PATH_INIT).srv._pathCount + j =
          k.srv._pathCount + (j + 1) := by
        show k.srv._pathCount + 1 + j = _
        omega
      have e3 : pre ++ (s ++ [NUL]) ++ (nulJoin ss ++ rest) = pre ++ (nulJoin (s :: ss) ++ rest) := by
        simp [nulJoin]
      rw [e1, e2, e3] at hih
      exact hih

theorem argRec_args (k : PState) (i : Nat) (x : List Char × Option (List Char)) :
    (argRec k i x).srv._args k.srv._argsCount =
      { label := some i,
        value := match x.2 with
          | none => (k.srv._args k.srv._argsCount).value
          | some _ => some (i + x.1.length + 1) } ∧
    (∀ q, q ≠ k.srv._argsCount → (argRec k i x).srv._args q = k.srv._args q) ∧
    (argRec k i x).srv._path = k.srv._path ∧ (argRec k i x).http = k.http := by
  obtain ⟨l, v⟩ := x
  cases v with
  | none =>
    refine ⟨?_, ?_, rfl, rfl⟩
    · show Function.update k.srv._args k.srv._argsCount _ k.srv._argsCount = _
      rw [Function.update_same]
    · intro q hq
      show Function.update k.srv._args k.srv._argsCount _ q = _
      rw [Function.update_noteq hq]
  | some v =>
    refine ⟨?_, ?_, rfl, rfl⟩
    · show Function.update (Function.update k.srv._args k.srv._argsCount _)
        (k.srv._argsCount + 1 - 1) _ k.srv._argsCount = _
      simp [Function.update_same, recLabel]
    · intro q hq
      show Function.update (Function.update k.srv._args k.srv._argsCount _)
        (k.srv._argsCount + 1 - 1) _ q = _
      simp [Function.update_noteq hq]

theorem argsState_args_lt (xs : List (List Char × Option (List Char))) :
    ∀ (k : PState) (i q : Nat), q < k.srv._argsCount →
      (argsState k i xs).srv._args q = k.srv._args q := by
  induction xs with
  | nil => intro k i q _; rfl
  | cons x xs ih =>
    intro k i q hq
    show (argsState (setMode (argRec k i x) Mode.SERVER_ARGS_INIT) _ xs).srv._args q = _
    rw [ih _ _ q (by show q < (argRec k i x).srv._argsCount; rw [(argRec_counts k i x).2]; omega)]
    exact (argRec_args k i x).2.1 q (by omega)

theorem argsState_rest (xs : List (List Char × Option (List Char))) :
    ∀ (k : PState) (i : Nat),
      (argsState k i xs).srv._path = k.srv._path ∧ (argsState k i xs).http = k.http := by
  induction xs with
  | nil => intro k i; exact ⟨rfl, rfl⟩
  | cons x xs ih =>
    intro k i
    obtain ⟨h1, h2⟩ := ih (setMode (argRec k i x) Mode.SERVER_ARGS_INIT) (i + (nulArg x).length + 1)
    obtain ⟨_, _, h3, h4⟩ := argRec_args k i x
    exact ⟨h1.trans h3, h2.trans h4⟩

/-- Every argument recorded along `xs` reads back: the label always, the value when one is
written; the value pointer of an argument written without `=` is the one the entry held
before. -/
theorem argsState_read (xs : List (List Char × Option (List Char))) :
    ∀ (k : PState) (pre rest : List Char) (j : Nat) (l : List Char) (v : Option (List Char)),
      (∀ x ∈ xs, ArgNulFree x) → xs[j]? = some (l, v) →
      cstrAt (pre ++ (nulArgs xs ++ rest))
        ((argsState k pre.length xs).srv._args (k.srv._argsCount + j)).label = some l ∧
      (∀ val, v = some val →
        cstrAt (pre ++ (nulArgs xs ++ rest))
          ((argsState k pre.length xs).srv._args (k.srv._argsCount + j)).value = some val) ∧
      (v = none →
        ((argsState k pre.length xs).srv._args (k.srv._argsCount + j)).value =
          (k.srv._args (k.srv._argsCount + j)).value) := by
  induction xs with
  | nil => intro k pre rest j l v _ h; simp at h
  | cons x xs ih =>
    intro k pre rest j l v hnul h
    cases j with
    | zero =>
      simp only [List.getElem?_cons_zero, Option.some.injEq] at h
      subst h
      obtain ⟨hl, hv⟩ := hnul (l, v) (List.mem_cons_self _ _)
      simp only at hl hv
      have hA : (argsState k pre.length ((l, v) :: xs)).srv._args (k.srv._argsCount + 0) =
          (argRec k pre.length (l, v)).srv._args k.srv._argsCount := by
        show (argsState (setMode (argRec k pre.length (l, v)) Mode.SERVER_ARGS_INIT) _ xs).srv._args
          (k.srv._argsCount + 0) = _
        rw [Nat.add_zero, argsState_args_lt xs _ _ _
          (by show k.srv._argsCount < (argRec k pre.length (l, v)).srv._argsCount
              rw [(argRec_counts k pre.length (l, v)).2]; omega)]
        rfl
      rw [hA, (argRec_args k pre.length (l, v)).1]
      cases v with
      | none =>
        refine ⟨?_, ?_, ?_⟩
        · simp only [cstrAt, Option.map_some', nulArgs, nulArg, List.append_assoc,
            List.cons_append]
          rw [cstr_mid pre l _ hl]
        · intro val hval; cases hval
        · intro _; simp
      | some val =>
        refine ⟨?_, ?_, ?_⟩
        · simp only [cstrAt, Option.map_some', nulArgs, nulArg, List.append_assoc,
            List.cons_append]
          rw [cstr_mid pre l _ hl]
        · intro val2 hval
          cases hval
          have e : pre ++ (nulArgs ((l, some val) :: xs) ++ rest) =
              (pre ++ (l ++ [NUL])) ++ (val ++ NUL :: (nulArgs xs ++ rest)) := by
            simp [nulArgs, nulArg]
          have e2 : pre.length + l.length + 1 = (pre ++ (l ++ [NUL])).length := by
            simp; omega
          simp only [cstrAt, Option.map_some']
          rw [e, e2, cstr_mid _ val _ (hv val rfl)]
        · intro hc; cases hc
    | succ j =>
      simp only [List.getElem?_cons_succ] at h
      have hih := ih (setMode (argRec k pre.length x) Mode.SERVER_ARGS_INIT)
        (pre ++ (nulArg x ++ [NUL])) rest j l v
        (fun y hy => hnul y (List.mem_cons_of_mem _ hy)) h
      have e1 : (pre ++ (nulArg x ++ [NUL])).length = pre.length + (nulArg x).length + 1 := by
        simp; omega
      have e2 : (setMode (argRec k pre.length x) Mode.SERVER_ARGS_INIT).srv._argsCount + j =
          k.srv._argsCount + (j + 1) := by
        show (argRec k pre.length x).srv._argsCount + j = _
        rw [(argRec_counts k pre.length x).2]
        omega
      have e3 : pre ++ (nulArg x ++ [NUL]) ++ (nulArgs xs ++ rest) =
          pre ++ (nulArgs (x :: xs) ++ rest) := by
        simp [nulArgs]
      have e4 : (setMode (argRec k pre.length x) Mode.SERVER_ARGS_INIT).srv._args
          (k.srv._argsCount + (j + 1)) = k.srv._args (k.srv._argsCount + (j + 1)) :=
        (argRec_args k pre.length x).2.1 _ (by omega)
      rw [e1, e2, e3, e4] at hih
      exact hih

theorem nul_renderPath (ss : List (List Char)) (h : ∀ x ∈ ss, NUL ∉ x) :
    NUL ∉ renderPath ss := by
  induction ss with
  | nil => simp [renderPath]
  | cons s ss ih =>
    simp only [renderPath, List.mem_cons, List.mem_append, not_or]
    exact ⟨⟨NUL_ne_slash, h s (List.mem_cons_self _ _)⟩,
      ih (fun x hx => h x (List.mem_cons_of_mem _ hx))⟩

theorem nul_renderArg (x : List Char × Option (List Char)) (h : ArgNulFree x) :
    NUL ∉ renderArg x := by
  obtain ⟨l, v⟩ := x
  obtain ⟨hl, hv⟩ := h
  cases v with
  | none => exact hl
  | some v =>
    simp only [renderArg, List.mem_cons, List.mem_append, not_or]
    exact ⟨hl, NUL_ne_eq, hv v rfl⟩

theorem nul_renderQuery (xs : List (List Char × Option (List Char)))
    (h : ∀ x ∈ xs, ArgNulFree x) :
    ∀ d : Char, NUL ≠ d → NUL ∉ renderQuery d xs := by
  induction xs with
  | nil => intro d _; simp [renderQuery]
  | cons x xs ih =>
    intro d hd
    simp only [renderQuery, List.mem_cons, List.mem_append, not_or]
    exact ⟨⟨hd, nul_renderArg x (h x (List.mem_cons_self _ _))⟩,
      ih (fun y hy => h y (List.mem_cons_of_mem _ hy)) '&' NUL_ne_amp⟩

theorem nul_requestLine (M : List Char) (segs : List (List Char))
    (args : List (List Char × Option (List Char))) (V : List Char)
    (hM : NUL ∉ M) (hsegs : ∀ x ∈ segs, NUL ∉ x) (hargs : ∀ x ∈ args, ArgNulFree x)
    (hV : NUL ∉ V) :
    NUL ∉ requestLine M segs args V := by
  simp only [requestLine, List.mem_cons, List.mem_append, not_or]
  exact ⟨hM, NUL_ne_space, nul_renderPath segs hsegs,
    nul_renderQuery args hargs '?' NUL_ne_quest, NUL_ne_space, hV⟩

theorem dropWhile_line (line tail : List Char) (h : NUL ∉ line) :
    (line ++ NUL :: tail).dropWhile (fun c => c != NUL) = NUL :: tail := by
  induction line with
  | nil => simp [List.dropWhile]
  | cons c line ih =>
    have hc : c ≠ NUL := fun e => h (by rw [e]; exact List.mem_cons_self _ _)
    have hb : (c != NUL) = true := by simpa using hc
    rw [List.cons_append, List.dropWhile_cons, hb, if_pos rfl]
    exact ih (fun e => h (List.mem_cons_of_mem _ e))

theorem cstr_line (line tail : List Char) (h : NUL ∉ line) :
    cstr (line ++ NUL :: tail) 0 = line :=
  cstr_mid [] line tail h

/-- The working state that the loop of `_parseRequest` leaves on a buffer that holds the
terminated line `line`. -/
theorem parseLoop_line (maxP maxA : Nat) (s : Server) (line tail : List Char)
    (hbuf : s._buffer = line ++ NUL :: tail) (h : NUL ∉ line) :
    parseLoop maxP maxA s =
      withBuf (scanK maxP maxA (initK s) 0 line).1
        ((scanK maxP maxA (initK s) 0 line).2 ++ NUL :: tail) := by
  rw [parseLoop_scanK, hbuf, cstr_line line tail h, dropWhile_line line tail h]

/-! ## Well-formed request lines -/

theorem token_segOK {w : List Char} (h : Token w) : SegOK w :=
  ⟨h.1, free_mono (by simp) h.2⟩

theorem token_nul {w : List Char} (h : Token w) : NUL ∉ w :=
  fun hm => h.2 NUL hm (by simp)

theorem argToken_argTok {x : List Char × Option (List Char)} (h : ArgToken x) : ArgTok x :=
  ⟨h.1.1, free_mono (by simp) h.1.2,
    fun v hv => ⟨(h.2 v hv).1, free_mono (by simp) (h.2 v hv).2⟩⟩

theorem argToken_nul {x : List Char × Option (List Char)} (h : ArgToken x) : ArgNulFree x :=
  ⟨token_nul h.1, fun v hv => token_nul (h.2 v hv)⟩

/-- What `_parseRequest` returns and leaves on a buffer that holds a well-formed request
line with fewer than `maxP` segments and fewer than `maxA` arguments. -/
theorem parse_line_facts (maxP maxA : Nat) (s : Server) (M : List Char)
    (segs : List (List Char)) (args : List (List Char × Option (List Char)))
    (V tail : List Char)
    (hbuf : s._buffer = requestLine M segs args V ++ NUL :: tail)
    (hM : Free [' ', NUL] M) (hsegs : ∀ x ∈ segs, Token x) (hargs : ∀ y ∈ args, ArgToken y)
    (hV : V ≠ []) (hVnul : NUL ∉ V)
    (hk1 : segs ≠ []) (hk : segs.length < maxP) (hn : args.length < maxA) :
    (_parseRequest maxP maxA s).1 = true ∧
    (_parseRequest maxP maxA s).2._pathCount = segs.length ∧
    (_parseRequest maxP maxA s).2._argsCount = args.length ∧
    (∀ i w, segs[i]? = some w →
      cstrAt (_parseRequest maxP maxA s).2._buffer ((_parseRequest maxP maxA s).2._path i)
        = some w) ∧
    (∀ j l v, args[j]? = some (l, v) →
      argLabel (_parseRequest maxP maxA s).2 j = some l ∧
      (∀ val, v = some val → argValue (_parseRequest maxP maxA s).2 j = some val) ∧
      (v = none → ((_parseRequest maxP maxA s).2._args j).value = (s._args j).value)) ∧
    (_parseRequest maxP maxA s).2._buffer =
      M ++ NUL :: NUL :: (nulJoin segs ++ (nulArgs args ++ V.map crNul)) ++ NUL :: tail ∧
    (_parseRequest maxP maxA s).2._version =
      some (M.length + 2 + (nulJoin segs).length + (nulArgs args).length + 5) ∧
    (_parseRequest maxP maxA s).2._method = lookupMethod (some M) := by
  have hMnul : NUL ∉ M := fun hm => hM NUL hm (by simp)
  have hMsp : Free [' '] M := free_mono (by simp) hM
  have hline : NUL ∉ requestLine M segs args V :=
    nul_requestLine M segs args V hMnul (fun x hx => token_nul (hsegs x hx))
      (fun x hx => argToken_nul (hargs x hx)) hVnul
  have hloop := parseLoop_line maxP maxA s _ tail hbuf hline
  rw [scanK_line maxP maxA M segs args V (initK s) rfl rfl rfl hMsp hk1
    (fun x hx => token_segOK (hsegs x hx)) (fun y hy => argToken_argTok (hargs y hy)) hV hk hn] at hloop
  simp only at hloop
  obtain ⟨hs1, hs2⟩ := segsState_counts segs (initK s) (M.length + 2)
  obtain ⟨hs3, hs4⟩ := segsState_rest segs (initK s) (M.length + 2)
  obtain ⟨ha1, ha2⟩ := argsState_counts args (segsState (initK s) (M.length + 2) segs)
    (M.length + 2 + (nulJoin segs).length)
  obtain ⟨ha3, ha4⟩ := argsState_rest args (segsState (initK s) (M.length + 2) segs)
    (M.length + 2 + (nulJoin segs).length)
  have hpc0 : (initK s).srv._pathCount = 0 := rfl
  have hac0 : (initK s).srv._argsCount = 0 := rfl
  have hbufE : (_parseRequest maxP maxA s).2._buffer =
      M ++ NUL :: NUL :: (nulJoin segs ++ (nulArgs args ++ V.map crNul)) ++ NUL :: tail := by
    simp only [_parseRequest, finish, hloop]
    rfl
  have hpathE : (_parseRequest maxP maxA s).2._path =
      (segsState (initK s) (M.length + 2) segs).srv._path := by
    simp only [_parseRequest, finish, hloop]
    exact ha3
  have hargsE : (_parseRequest maxP maxA s).2._args =
      (argsState (segsState (initK s) (M.length + 2) segs)
        (M.length + 2 + (nulJoin segs).length) args).srv._args := by
    simp only [_parseRequest, finish, hloop]
    rfl
  refine ⟨?_, ?_, ?_, ?_, ?_, hbufE, ?_, ?_⟩
  · simp only [_parseRequest, hloop]
    rfl
  · simp only [_parseRequest, finish, hloop]
    show (argsState _ _ args).srv._pathCount = _
    rw [ha1, hs1, hpc0, Nat.zero_add]
  · simp only [_parseRequest, finish, hloop]
    show (argsState _ _ args).srv._argsCount = _
    rw [ha2, hs2, hac0, Nat.zero_add]
  · intro i w hw
    rw [hbufE, hpathE]
    have h := segsState_read segs (initK s) (M ++ [NUL, NUL])
      (nulArgs args ++ V.map crNul ++ NUL :: tail) i w (fun x hx => token_nul (hsegs x hx)) hw
    have e1 : (M ++ [NUL, NUL]).length = M.length + 2 := by simp
    have e2 : M ++ [NUL, NUL] ++ (nulJoin segs ++ (nulArgs args ++ V.map crNul ++ NUL :: tail)) =
        M ++ NUL :: NUL :: (nulJoin segs ++ (nulArgs args ++ V.map crNul)) ++ NUL :: tail := by
      simp
    rw [e1, hpc0, Nat.zero_add, e2] at h
    exact h
  · intro j l v hj
    have h := argsState_read args (segsState (initK s) (M.length + 2) segs)
      (M ++ [NUL, NUL] ++ nulJoin segs) (V.map crNul ++ NUL :: tail) j l v
      (fun x hx => argToken_nul (hargs x hx)) hj
    have e1 : (M ++ [NUL, NUL] ++ nulJoin segs).length = M.length + 2 + (nulJoin segs).length := by
      simp only [List.length_append, List.length_cons, List.length_nil]
    have e2 : M ++ [NUL, NUL] ++ nulJoin segs ++ (nulArgs args ++ (V.map crNul ++ NUL :: tail)) =
        M ++ NUL :: NUL :: (nulJoin segs ++ (nulArgs args ++ V.map crNul)) ++ NUL :: tail := by
      simp
    rw [e1, hs2, hac0, Nat.zero_add, e2, hs3] at h
    unfold argLabel argValue
    rw [hbufE, hargsE]
    exact h
  · simp only [_parseRequest, finish, hloop]
    rfl
  · have hc : cstr (_parseRequest maxP maxA s).2._buffer 0 = M := by
      rw [hbufE]
      have := cstr_mid [] M (NUL :: (nulJoin segs ++ (nulArgs args ++ V.map crNul)) ++ NUL :: tail) hMnul
      simpa using this
    have hb : (_parseRequest maxP maxA s).2._buffer = (parseLoop maxP maxA s).srv._buffer := rfl
    rw [hb] at hc
    simp only [_parseRequest, finish, cstrAt, Option.map_some', hc]

/-! ## The accessors `arg( label)` and `arg( label, value)` -/

theorem strCmp_some_iff (a : Option (List Char)) (b : List Char) :
    strCmp a (some b) = true ↔ a = some b := by
  cases a <;> simp [strCmp]

theorem argFrom_none_iff (s : Server) (L : List Char) (n i : Nat) :
    argFrom s (some L) i n = none ↔ ∀ j, i ≤ j → j < i + n → argLabel s j ≠ some L := by
  induction n generalizing i with
  | zero => simp [argFrom]; intro j h1 h2; omega
  | succ n ih =>
    unfold argFrom
    by_cases h : strCmp (cstrAt s._buffer (s._args i).label) (some L) = true
    · rw [if_pos h]
      have hl : argLabel s i = some L := (strCmp_some_iff _ _).1 h
      constructor
      · intro hn
        exfalso
        cases hv : (s._args i).value with
        | some v => rw [hv] at hn; simp at hn
        | none =>
          rw [hv] at hn
          simp only at hn
          unfold argLabel cstrAt at hl
          rw [hn] at hl
          simp at hl
      · intro hall
        exact absurd hl (hall i (Nat.le_refl _) (by omega))
    · rw [if_neg h, ih]
      have hl : argLabel s i ≠ some L := fun e => h ((strCmp_some_iff _ _).2 e)
      constructor
      · intro hall j h1 h2
        by_cases e : j = i
        · subst e; exact hl
        · exact hall j (by omega) (by omega)
      · intro hall j h1 h2
        exact hall j (by omega) (by omega)

theorem argFrom_first (s : Server) (L : List Char) (n i k : Nat)
    (hk1 : i ≤ k) (hk2 : k < i + n) (hk : argLabel s k = some L)
    (hbefore : ∀ j, i ≤ j → j < k → argLabel s j ≠ some L) :
    argFrom s (some L) i n =
      (match (s._args k).value with
       | some v => some v
       | none => (s._args k).label) := by
  induction n generalizing i with
  | zero => omega
  | succ n ih =>
    unfold argFrom
    by_cases e : k = i
    · subst e
      have h : strCmp (cstrAt s._buffer (s._args k).label) (some L) = true :=
        (strCmp_some_iff _ _).2 hk
      rw [if_pos h]
    · have hl : argLabel s i ≠ some L := hbefore i (Nat.le_refl _) (by omega)
      have h : ¬ strCmp (cstrAt s._buffer (s._args i).label) (some L) = true :=
        fun e => hl ((strCmp_some_iff _ _).1 e)
      rw [if_neg h]
      exact ih (i + 1) (by omega) (by omega) (fun j h1 h2 => hbefore j (by omega) h2)

theorem argEqFrom_iff (s : Server) (L V : List Char) (n i : Nat) (found : Bool) :
    argEqFrom s (some L) (some V) i n found = true ↔
      found = true ∨ ∃ j, i ≤ j ∧ j < i + n ∧ argLabel s j = some L ∧ argValue s j = some V := by
  induction n generalizing i found with
  | zero =>
    simp only [argEqFrom]
    constructor
    · intro h; exact Or.inl h
    · rintro (h | ⟨j, h1, h2, _⟩)
      · exact h
      · omega
  | succ n ih =>
    unfold argEqFrom
    rw [ih]
    simp only [Bool.or_eq_true, Bool.and_eq_true, strCmp_some_iff]
    constructor
    · rintro ((h | ⟨h1, h2⟩) | ⟨j, h1, h2, h3, h4⟩)
      · exact Or.inl h
      · exact Or.inr ⟨i, Nat.le_refl _, by omega, h1, h2⟩
      · exact Or.inr ⟨j, by omega, by omega, h3, h4⟩
    · rintro (h | ⟨j, h1, h2, h3, h4⟩)
      · exact Or.inl (Or.inl h)
      · by_cases e : j = i
        · subst e; exact Or.inl (Or.inr ⟨h3, h4⟩)
        · exact Or.inr ⟨j, by omega, by omega, h3, h4⟩

/-- Claim C9: `arg( L)` returns `NULL` exactly when none of the first `_argsCount` entries has
label `L`; and when entry `i` is the first one in insertion order whose label is `L`, it returns
that entry's value pointer when the value is present and the entry's label pointer when the value
is absent, whatever entries follow.  On the table `[("x", absent)]` the string returned for `"x"`
is `"x"`, and on `[("x", "1")]` it is `"1"`. -/
theorem arg_by_label (s : Server) (L : List Char) :
    (arg s (some L) = none ↔ ∀ i, i < s._argsCount → argLabel s i ≠ some L) ∧
    (∀ i, i < s._argsCount → argLabel s i = some L →
      (∀ j, j < i → argLabel s j ≠ some L) →
      arg s (some L) =
        (match (s._args i).value with
         | some v => some v
         | none => (s._args i).label)) ∧
    cstrAt ['x', NUL]
        (arg (tableServer ['x', NUL] [{ label := some 0, value := none }]) (some ['x']))
      = some ['x'] ∧
    cstrAt ['x', NUL, '1', NUL]
        (arg (tableServer ['x', NUL, '1', NUL] [{ label := some 0, value := some 2 }]) (some ['x']))
      = some ['1'] := by
  refine ⟨?_, ?_, by decide, by decide⟩
  · unfold arg
    rw [argFrom_none_iff]
    constructor
    · intro h i hi; exact h i (Nat.zero_le _) (by omega)
    · intro h j _ hj; exact h j (by omega)
  · intro i hi hl hb
    exact argFrom_first s L s._argsCount 0 i (Nat.zero_le _) (by omega) hl
      (fun j _ hj => hb j hj)

/-- Claim C10: `arg( L, V)` is true if and only if one of the first `_argsCount` entries has a
label equal to `L` and a present value equal to `V`; an entry whose value is absent does not
match, and an entry after another one with the same label is checked as well. -/
theorem arg_value_equals (s : Server) (L V : List Char) :
    (argEq s (some L) (some V) = true ↔
      ∃ i, i < s._argsCount ∧ argLabel s i = some L ∧ argValue s i = some V) ∧
    (∀ i, (s._args i).value = none → argValue s i ≠ some V) ∧
    argEq (tableServer ['x', NUL, '1', NUL, 'x', NUL, '2', NUL]
            [{ label := some 0, value := some 2 }, { label := some 4, value := some 6 }])
          (some ['x']) (some ['2']) = true := by
  refine ⟨?_, ?_, by decide⟩
  · unfold argEq
    rw [argEqFrom_iff]
    constructor
    · rintro (h | ⟨j, _, h2, h3, h4⟩)
      · exact absurd h (by simp)
      · exact ⟨j, by omega, h3, h4⟩
    · rintro ⟨i, h1, h2, h3⟩
      exact Or.inr ⟨i, Nat.zero_le _, by omega, h2, h3⟩
  · intro i h
    simp [argValue, cstrAt, h]

/-! ## Claims on `_parseRequest` -/

/-- Claim C1: on a buffer that holds the terminated request line
`M /s1/.../sk?l1[=v1]&...&ln[=vn] HTTP/1.1`, where `M` has no space, every segment, label and
value is a non-empty string with none of `' '`, `'/'`, `'?'`, `'='`, `'&'`, `'\r'`,
`1 <= k < MAX_PATHCOUNT` and `n < MAX_ARGSCOUNT`, `_parseRequest` returns success with
`pathCount = k`, `path(i)` reading `s(i+1)` for every `i < k`, `argsCount = n`, the labels
`l1..ln` in order, and the value `vi` for every argument written with `=`. -/
theorem parse_well_formed (maxP maxA : Nat) (s : Server) (M : List Char)
    (segs : List (List Char)) (args : List (List Char × Option (List Char)))
    (tail : List Char)
    (hbuf : s._buffer = requestLine M segs args "HTTP/1.1".toList ++ NUL :: tail)
    (hM : Free [' ', NUL] M) (hsegs : ∀ x ∈ segs, Token x) (hargs : ∀ y ∈ args, ArgToken y)
    (hk1 : 1 ≤ segs.length) (hk : segs.length < maxP) (hn : args.length < maxA) :
    (_parseRequest maxP maxA s).1 = true ∧
    pathCount (_parseRequest maxP maxA s).2 = segs.length ∧
    (∀ i w, segs[i]? = some w →
      cstrAt (_parseRequest maxP maxA s).2._buffer (path (_parseRequest maxP maxA s).2 i)
        = some w) ∧
    argsCount (_parseRequest maxP maxA s).2 = args.length ∧
    (∀ j l v, args[j]? = some (l, v) →
      argLabel (_parseRequest maxP maxA s).2 j = some l ∧
      (∀ val, v = some val → argValue (_parseRequest maxP maxA s).2 j = some val)) := by
  have hne : segs ≠ [] := by
    intro h; rw [h] at hk1; simp at hk1
  obtain ⟨h1, h2, h3, h4, h5, _, _, _⟩ :=
    parse_line_facts maxP maxA s M segs args "HTTP/1.1".toList tail hbuf hM hsegs hargs
      (by decide) (by decide) hne hk hn
  refine ⟨h1, h2, ?_, h3, ?_⟩
  · intro i w hw
    have hi : i < segs.length := by
      by_contra hc
      rw [List.getElem?_eq_none (by omega)] at hw
      cases hw
    unfold path
    rw [h2, if_pos hi]
    exact h4 i w hw
  · intro j l v hj
    exact ⟨(h5 j l v hj).1, (h5 j l v hj).2.1⟩

/-- The request line `GET /a/b?x=1&y HTTP/1.1` with room for four path items and four
arguments: segments `a`, `b`, and arguments `x` with value `1` followed by `y`. -/
theorem parse_well_formed_witness :
    (_parseRequest 4 4 (freshServer ("GET /a/b?x=1&y HTTP/1.1".toList ++ [NUL]))).1 = true ∧
    pathCount (_parseRequest 4 4 (freshServer ("GET /a/b?x=1&y HTTP/1.1".toList ++ [NUL]))).2
      = 2 ∧
    cstrAt (_parseRequest 4 4 (freshServer ("GET /a/b?x=1&y HTTP/1.1".toList ++ [NUL]))).2._buffer
      (path (_parseRequest 4 4 (freshServer ("GET /a/b?x=1&y HTTP/1.1".toList ++ [NUL]))).2 0)
      = some ['a'] ∧
    cstrAt (_parseRequest 4 4 (freshServer ("GET /a/b?x=1&y HTTP/1.1".toList ++ [NUL]))).2._buffer
      (path (_parseRequest 4 4 (freshServer ("GET /a/b?x=1&y HTTP/1.1".toList ++ [NUL]))).2 1)
      = some ['b'] ∧
    argsCount (_parseRequest 4 4 (freshServer ("GET /a/b?x=1&y HTTP/1.1".toList ++ [NUL]))).2
      = 2 ∧
    argLabel (_parseRequest 4 4 (freshServer ("GET /a/b?x=1&y HTTP/1.1".toList ++ [NUL]))).2 0
      = some ['x'] ∧
    argValue (_parseRequest 4 4 (freshServer ("GET /a/b?x=1&y HTTP/1.1".toList ++ [NUL]))).2 0
      = some ['1'] ∧
    argLabel (_parseRequest 4 4 (freshServer ("GET /a/b?x=1&y HTTP/1.1".toList ++ [NUL]))).2 1
      = some ['y'] := by
  have h := parse_well_formed 4 4 (freshServer ("GET /a/b?x=1&y HTTP/1.1".toList ++ [NUL]))
    "GET".toList [['a'], ['b']] [(['x'], some ['1']), (['y'], none)] []
    (by decide) (by decide) (by decide) (by decide) (by decide) (by decide) (by decide)
  exact ⟨h.1, h.2.1, h.2.2.1 0 ['a'] rfl, h.2.2.1 1 ['b'] rfl, h.2.2.2.1,
    (h.2.2.2.2 0 ['x'] (some ['1']) rfl).1, (h.2.2.2.2 0 ['x'] (some ['1']) rfl).2 ['1'] rfl,
    (h.2.2.2.2 1 ['y'] none rfl).1⟩

/-! ## The method token -/

/-- The bytes that the loop leaves in the place of the text before the first space. -/
theorem scanK_meth_out (maxP maxA : Nat) (k : PState)
    (hm : k.mode = Mode.SERVER_METH_READ) (hok : CountsOK maxP maxA k) (w : List Char) :
    ∀ i, ∃ t, (scanK maxP maxA k i w).2 = w.takeWhile (fun c => c != ' ') ++ t ∧
      ((t = [] ∧ w.takeWhile (fun c => c != ' ') = w) ∨ ∃ t2, t = NUL :: t2) := by
  induction w with
  | nil => intro i; exact ⟨[], rfl, Or.inl ⟨rfl, rfl⟩⟩
  | cons c w ih =>
    intro i
    by_cases hc : c = ' '
    · subst hc
      rw [scanK_cons, stepK_meth_space maxP maxA i k hm hok]
      refine ⟨NUL :: (scanK maxP maxA (setMode k Mode.SERVER_METH_DONE) (i + 1) w).2, ?_,
        Or.inr ⟨_, rfl⟩⟩
      simp
    · obtain ⟨t, ht, hcase⟩ := ih (i + 1)
      have hb : (c != ' ') = true := by simpa using hc
      rw [scanK_cons, stepK_meth_plain maxP maxA i k c hm hok hc]
      refine ⟨t, ?_, ?_⟩
      · simp only [List.takeWhile_cons, hb, if_pos, ht]
        rfl
      · rcases hcase with ⟨h1, h2⟩ | h
        · left
          refine ⟨h1, ?_⟩
          rw [List.takeWhile_cons, hb, if_pos rfl, h2]
        · exact Or.inr h

theorem nul_not_mem_cstr (buf : List Char) (k : Nat) : NUL ∉ cstr buf k := by
  intro h
  have := List.mem_takeWhile_imp h
  simp at this

/-- The method that `_parseRequest` stores is looked up from the text before the first
space of the request line. -/
theorem parse_method (maxP maxA : Nat) (hP : 0 < maxP) (hA : 0 < maxA) (s : Server) :
    (_parseRequest maxP maxA s).2._method =
      lookupMethod (some ((cstr s._buffer 0).takeWhile (fun c => c != ' '))) := by
  have hok : CountsOK maxP maxA (initK s) := ⟨hP, hA⟩
  obtain ⟨t, ht, hcase⟩ := scanK_meth_out maxP maxA (initK s) rfl hok (cstr s._buffer 0) 0
  have hnul : NUL ∉ (cstr s._buffer 0).takeWhile (fun c => c != ' ') :=
    fun h => nul_not_mem_cstr s._buffer 0 ((List.takeWhile_sublist _).subset h)
  have hc : cstr (parseLoop maxP maxA s).srv._buffer 0 =
      (cstr s._buffer 0).takeWhile (fun c => c != ' ') := by
    rw [parseLoop_scanK]
    show cstr ((scanK maxP maxA (initK s) 0 (cstr s._buffer 0)).2 ++ _) 0 = _
    rw [ht]
    rcases hcase with ⟨h1, h2⟩ | ⟨t2, h⟩
    · rw [h1, List.append_nil, h2, cstr_append_dropWhile]
    · rw [h]
      have := cstr_mid [] ((cstr s._buffer 0).takeWhile (fun c => c != ' '))
        (t2 ++ s._buffer.dropWhile (fun c => c != NUL)) hnul
      simpa using this
  simp only [_parseRequest, finish, cstrAt, Option.map_some', hc]

theorem lookupMethod_spec (w : List Char) :
    (lookupMethod (some w) = HTTPMethod.HTTP_GET ↔ w = "GET".toList) ∧
    (lookupMethod (some w) = HTTPMethod.HTTP_POST ↔ w = "POST".toList) ∧
    (lookupMethod (some w) = HTTPMethod.HTTP_PUT ↔ w = "PUT".toList) ∧
    (lookupMethod (some w) = HTTPMethod.HTTP_PATCH ↔ w = "PATCH".toList) ∧
    (lookupMethod (some w) = HTTPMethod.HTTP_DELETE ↔ w = "DELETE".toList) ∧
    (lookupMethod (some w) = HTTPMethod.HTTP_OPTIONS ↔ w = "OPTIONS".toList) ∧
    (lookupMethod (some w) = HTTPMethod.HTTP_ANY ↔
      w ∉ ["GET".toList, "POST".toList, "PUT".toList, "PATCH".toList, "DELETE".toList,
           "OPTIONS".toList]) := by
  by_cases h1 : w = "GET".toList
  · subst h1; decide
  by_cases h2 : w = "POST".toList
  · subst h2; decide
  by_cases h3 : w = "DELETE".toList
  · subst h3; decide
  by_cases h4 : w = "OPTIONS".toList
  · subst h4; decide
  by_cases h5 : w = "PUT".toList
  · subst h5; decide
  by_cases h6 : w = "PATCH".toList
  · subst h6; decide
  have g1 : ¬ w = ['G', 'E', 'T'] := h1
  have g2 : ¬ w = ['P', 'O', 'S', 'T'] := h2
  have g3 : ¬ w = ['D', 'E', 'L', 'E', 'T', 'E'] := h3
  have g4 : ¬ w = ['O', 'P', 'T', 'I', 'O', 'N', 'S'] := h4
  have g5 : ¬ w = ['P', 'U', 'T'] := h5
  have g6 : ¬ w = ['P', 'A', 'T', 'C', 'H'] := h6
  have e : lookupMethod (some w) = HTTPMethod.HTTP_ANY := by
    simp [lookupMethod, strCmp, g1, g2, g3, g4, g5, g6]
  rw [e]
  simp [g1, g2, g3, g4, g5, g6]

theorem stepC_ok (maxP maxA : Nat) (t : Mode × Nat × Nat) (c : Char)
    (hp : (switchC t c).2.1 < maxP) (ha : (switchC t c).2.2 < maxA) :
    stepC maxP maxA t c = switchC t c := by
  unfold stepC
  rw [if_pos ⟨hp, ha⟩]

theorem runC_plain (maxP maxA : Nat) (t : Mode × Nat × Nat) (w : List Char)
    (hp : t.2.1 < maxP) (ha : t.2.2 < maxA) (h : ∀ c ∈ w, switchC t c = t) :
    runC maxP maxA t w = t := by
  induction w with
  | nil => rfl
  | cons c w ih =>
    have hc := h c (List.mem_cons_self _ _)
    rw [runC_cons, stepC_ok maxP maxA t c (by rw [hc]; exact hp) (by rw [hc]; exact ha), hc]
    exact ih (fun d hd => h d (List.mem_cons_of_mem _ hd))

/-- Mode and counts after the method token and its space. -/
theorem runC_method (maxP maxA : Nat) (hP : 0 < maxP) (hA : 0 < maxA) (M rest : List Char)
    (hM : Free [' '] M) :
    runC maxP maxA (Mode.SERVER_METH_READ, 0, 0) (M ++ ' ' :: rest) =
      runC maxP maxA (Mode.SERVER_METH_DONE, 0, 0) rest := by
  rw [runC_append, runC_plain maxP maxA _ M hP hA
    (fun c hc => switchC_meth_plain 0 0 c (by simpa using hM c hc)), runC_cons]
  have e : switchC (Mode.SERVER_METH_READ, 0, 0) ' ' = (Mode.SERVER_METH_DONE, 0, 0) := by
    simp [switchC]
  rw [stepC_ok maxP maxA _ ' ' (by rw [e]; exact hP) (by rw [e]; exact hA), e]

theorem cstr_cons_append (M rest : List Char) (hM : NUL ∉ M) (c : Char) (hc : c ≠ NUL) :
    cstr (M ++ c :: rest) 0 = M ++ c :: cstr rest 0 := by
  unfold cstr
  simp only [List.drop_zero]
  induction M with
  | nil =>
    have hb : (c != NUL) = true := by simpa using hc
    simp [List.takeWhile_cons, hb]
  | cons a M ih =>
    have ha : a ≠ NUL := fun e => hM (by rw [e]; exact List.mem_cons_self _ _)
    have hb : (a != NUL) = true := by simpa using ha
    rw [List.cons_append, List.takeWhile_cons, hb, if_pos rfl,
      ih (fun e => hM (List.mem_cons_of_mem _ e))]
    rfl

/-- Claim C2: with room for at least one path item and one argument, the method that
`_parseRequest` stores is `GET`, `POST`, `PUT`, `PATCH`, `DELETE` or `OPTIONS` exactly when the
text before the first space of the buffer content equals that verb, and `ANY` otherwise; and
replacing the method token of a request line by any other space-free token leaves the result
of `_parseRequest` and the two counts unchanged. -/
theorem method_resolution (maxP maxA : Nat) (hP : 0 < maxP) (hA : 0 < maxA) :
    (∀ s : Server,
      ((_parseRequest maxP maxA s).2._method = HTTPMethod.HTTP_GET ↔
        (cstr s._buffer 0).takeWhile (fun c => c != ' ') = "GET".toList) ∧
      ((_parseRequest maxP maxA s).2._method = HTTPMethod.HTTP_POST ↔
        (cstr s._buffer 0).takeWhile (fun c => c != ' ') = "POST".toList) ∧
      ((_parseRequest maxP maxA s).2._method = HTTPMethod.HTTP_PUT ↔
        (cstr s._buffer 0).takeWhile (fun c => c != ' ') = "PUT".toList) ∧
      ((_parseRequest maxP maxA s).2._method = HTTPMethod.HTTP_PATCH ↔
        (cstr s._buffer 0).takeWhile (fun c => c != ' ') = "PATCH".toList) ∧
      ((_parseRequest maxP maxA s).2._method = HTTPMethod.HTTP_DELETE ↔
        (cstr s._buffer 0).takeWhile (fun c => c != ' ') = "DELETE".toList) ∧
      ((_parseRequest maxP maxA s).2._method = HTTPMethod.HTTP_OPTIONS ↔
        (cstr s._buffer 0).takeWhile (fun c => c != ' ') = "OPTIONS".toList) ∧
      ((_parseRequest maxP maxA s).2._method = HTTPMethod.HTTP_ANY ↔
        (cstr s._buffer 0).takeWhile (fun c => c != ' ') ∉
          ["GET".toList, "POST".toList, "PUT".toList, "PATCH".toList, "DELETE".toList,
           "OPTIONS".toList])) ∧
    (∀ (s1 s2 : Server) (M1 M2 rest : List Char),
      Free [' ', NUL] M1 → Free [' ', NUL] M2 →
      s1._buffer = M1 ++ ' ' :: rest → s2._buffer = M2 ++ ' ' :: rest →
      (_parseRequest maxP maxA s1).1 = (_parseRequest maxP maxA s2).1 ∧
      (_parseRequest maxP maxA s1).2._pathCount = (_parseRequest maxP maxA s2).2._pathCount ∧
      (_parseRequest maxP maxA s1).2._argsCount = (_parseRequest maxP maxA s2).2._argsCount) := by
  refine ⟨?_, ?_⟩
  · intro s
    rw [parse_method maxP maxA hP hA s]
    exact lookupMethod_spec _
  · intro s1 s2 M1 M2 rest hM1 hM2 hb1 hb2
    have key : ∀ (s : Server) (M : List Char), Free [' ', NUL] M → s._buffer = M ++ ' ' :: rest →
        (cstr s._buffer 0).foldl (stepC maxP maxA) (Mode.SERVER_METH_READ, 0, 0) =
          runC maxP maxA (Mode.SERVER_METH_DONE, 0, 0) (cstr rest 0) := by
      intro s M hM hb
      rw [hb, cstr_cons_append M rest (fun h => hM NUL h (by simp)) ' ' (by decide)]
      exact runC_method maxP maxA hP hA M _ (free_mono (by simp) hM)
    obtain ⟨a1, a2, a3⟩ := parse_ctl maxP maxA s1
    obtain ⟨b1, b2, b3⟩ := parse_ctl maxP maxA s2
    rw [key s1 M1 hM1 hb1] at a1 a2 a3
    rw [key s2 M2 hM2 hb2] at b1 b2 b3
    exact ⟨a1.trans b1.symm, a2.trans b2.symm, a3.trans b3.symm⟩

/-- The method of `FOO /a HTTP/1.1` is `ANY`, the method of `GET /a HTTP/1.1` is `GET`, and
both parse with the same result and counts. -/
theorem method_resolution_witness :
    (_parseRequest 4 4 (freshServer ("FOO /a HTTP/1.1".toList ++ [NUL]))).2._method
      = HTTPMethod.HTTP_ANY ∧
    (_parseRequest 4 4 (freshServer ("GET /a HTTP/1.1".toList ++ [NUL]))).2._method
      = HTTPMethod.HTTP_GET ∧
    (_parseRequest 4 4 (freshServer ("FOO /a HTTP/1.1".toList ++ [NUL]))).1 =
      (_parseRequest 4 4 (freshServer ("GET /a HTTP/1.1".toList ++ [NUL]))).1 := by
  have h := method_resolution 4 4 (by decide) (by decide)
  refine ⟨?_, ?_, ?_⟩
  · exact (h.1 (freshServer ("FOO /a HTTP/1.1".toList ++ [NUL]))).2.2.2.2.2.2.2 (by decide)
  · exact (h.1 (freshServer ("GET /a HTTP/1.1".toList ++ [NUL]))).1.2 (by decide)
  · exact (h.2 (freshServer ("FOO /a HTTP/1.1".toList ++ [NUL]))
      (freshServer ("GET /a HTTP/1.1".toList ++ [NUL])) "FOO".toList "GET".toList
      ("/a HTTP/1.1".toList ++ [NUL]) (by decide) (by decide) (by decide) (by decide)).1

/-! ## The path that is just `/`, and a missing path -/

theorem takeWhile_space (M rest : List Char) (hM : Free [' '] M) :
    (M ++ ' ' :: rest).takeWhile (fun c => c != ' ') = M := by
  induction M with
  | nil => simp
  | cons a M ih =>
    obtain ⟨ha, hM2⟩ := free_cons hM
    have hb : (a != ' ') = true := by simpa using ha
    rw [List.cons_append, List.takeWhile_cons, hb, if_pos rfl, ih hM2]

theorem cstr_append (A R : List Char) (hA : NUL ∉ A) :
    cstr (A ++ R) 0 = A ++ cstr R 0 := by
  unfold cstr
  simp only [List.drop_zero]
  induction A with
  | nil => rfl
  | cons a A ih =>
    have ha : a ≠ NUL := fun e => hA (by rw [e]; exact List.mem_cons_self _ _)
    have hb : (a != NUL) = true := by simpa using ha
    rw [List.cons_append, List.takeWhile_cons, hb, if_pos rfl,
      ih (fun e => hA (List.mem_cons_of_mem _ e))]
    rfl

/-- Claim C3, as the code has it: for every space-free method token `M`, with room for at
least one path item and one argument, `_parseRequest` on `M / HTTP/1.1` returns failure (the
space met where a path segment has to start is rejected), with `pathCount = 0`,
`argsCount = 0` and the method looked up from `M`; on the line `M /`, which ends after the
slash, it returns success with `pathCount = 0` and `argsCount = 0`. -/
theorem root_path_request (maxP maxA : Nat) (hP : 0 < maxP) (hA : 0 < maxA) (s : Server)
    (M tail : List Char) (hM : Free [' ', NUL] M) :
    (s._buffer = M ++ " / HTTP/1.1".toList ++ NUL :: tail →
      (_parseRequest maxP maxA s).1 = false ∧
      pathCount (_parseRequest maxP maxA s).2 = 0 ∧
      argsCount (_parseRequest maxP maxA s).2 = 0 ∧
      (_parseRequest maxP maxA s).2._method = lookupMethod (some M)) ∧
    (s._buffer = M ++ " /".toList ++ NUL :: tail →
      (_parseRequest maxP maxA s).1 = true ∧
      pathCount (_parseRequest maxP maxA s).2 = 0 ∧
      argsCount (_parseRequest maxP maxA s).2 = 0 ∧
      (_parseRequest maxP maxA s).2._method = lookupMethod (some M)) := by
  have hMnul : NUL ∉ M := fun h => hM NUL h (by simp)
  have hMsp : Free [' '] M := free_mono (by simp) hM
  obtain ⟨c1, c2, c3⟩ := parse_ctl maxP maxA s
  have hmeth := parse_method maxP maxA hP hA s
  have e1 : switchC (Mode.SERVER_METH_DONE, 0, 0) '/' = (Mode.SERVER_PATH_INIT, 0, 0) := by
    simp [switchC]
  have s1 : stepC maxP maxA (Mode.SERVER_METH_DONE, 0, 0) '/' = (Mode.SERVER_PATH_INIT, 0, 0) := by
    rw [stepC_ok maxP maxA _ '/' (by rw [e1]; exact hP) (by rw [e1]; exact hA), e1]
  constructor
  · intro hb
    have hc : cstr s._buffer 0 = M ++ ' ' :: "/ HTTP/1.1".toList := by
      rw [hb]
      have : M ++ " / HTTP/1.1".toList ++ NUL :: tail =
          (M ++ ' ' :: "/ HTTP/1.1".toList) ++ NUL :: tail := by simp
      rw [this]
      apply cstr_line
      simp only [List.mem_append, List.mem_cons, not_or]
      exact ⟨hMnul, by decide, by decide⟩
    have e2 : switchC (Mode.SERVER_PATH_INIT, 0, 0) ' ' = (Mode.HTTP_BAD_REQUEST, 0, 0) := by
      simp [switchC]
    have s2 : stepC maxP maxA (Mode.SERVER_PATH_INIT, 0, 0) ' ' =
        (Mode.HTTP_BAD_REQUEST, 0, 0) := by
      rw [stepC_ok maxP maxA _ ' ' (by rw [e2]; exact hP) (by rw [e2]; exact hA), e2]
    have hr : (cstr s._buffer 0).foldl (stepC maxP maxA) (Mode.SERVER_METH_READ, 0, 0) =
        (Mode.HTTP_BAD_REQUEST, 0, 0) := by
      rw [hc]
      have := runC_method maxP maxA hP hA M "/ HTTP/1.1".toList hMsp
      unfold runC at this
      rw [this]
      show runC maxP maxA _ ('/' :: ' ' :: "HTTP/1.1".toList) = _
      rw [runC_cons, s1, runC_cons, s2, runC_bad maxP maxA _ _ rfl]
    rw [hr] at c1 c2 c3
    refine ⟨by simpa using c1, c2, c3, ?_⟩
    rw [hmeth, hc, takeWhile_space M _ hMsp]
  · intro hb
    have hc : cstr s._buffer 0 = M ++ ' ' :: "/".toList := by
      rw [hb]
      have : M ++ " /".toList ++ NUL :: tail = (M ++ ' ' :: "/".toList) ++ NUL :: tail := by
        simp
      rw [this]
      apply cstr_line
      simp only [List.mem_append, List.mem_cons, not_or]
      exact ⟨hMnul, by decide, by decide⟩
    have hr : (cstr s._buffer 0).foldl (stepC maxP maxA) (Mode.SERVER_METH_READ, 0, 0) =
        (Mode.SERVER_PATH_INIT, 0, 0) := by
      rw [hc]
      have := runC_method maxP maxA hP hA M "/".toList hMsp
      unfold runC at this
      rw [this]
      show runC maxP maxA _ ['/'] = _
      rw [runC_cons, s1]
      rfl
    rw [hr] at c1 c2 c3
    refine ⟨by simpa using c1, c2, c3, ?_⟩
    rw [hmeth, hc, takeWhile_space M _ hMsp]

/-- The line `FOO / HTTP/1.1` is rejected and `FOO /` is accepted, both with no path item, no
argument and the method `ANY`. -/
theorem root_path_request_witness :
    ((_parseRequest 4 4 (freshServer ("FOO / HTTP/1.1".toList ++ [NUL]))).1 = false ∧
      pathCount (_parseRequest 4 4 (freshServer ("FOO / HTTP/1.1".toList ++ [NUL]))).2 = 0 ∧
      argsCount (_parseRequest 4 4 (freshServer ("FOO / HTTP/1.1".toList ++ [NUL]))).2 = 0 ∧
      (_parseRequest 4 4 (freshServer ("FOO / HTTP/1.1".toList ++ [NUL]))).2._method =
        HTTPMethod.HTTP_ANY) ∧
    ((_parseRequest 4 4 (freshServer ("FOO /".toList ++ [NUL]))).1 = true ∧
      pathCount (_parseRequest 4 4 (freshServer ("FOO /".toList ++ [NUL]))).2 = 0 ∧
      argsCount (_parseRequest 4 4 (freshServer ("FOO /".toList ++ [NUL]))).2 = 0 ∧
      (_parseRequest 4 4 (freshServer ("FOO /".toList ++ [NUL]))).2._method =
        HTTPMethod.HTTP_ANY) :=
  ⟨(root_path_request 4 4 (by decide) (by decide)
      (freshServer ("FOO / HTTP/1.1".toList ++ [NUL])) "FOO".toList [] (by decide)).1 rfl,
   (root_path_request 4 4 (by decide) (by decide)
      (freshServer ("FOO /".toList ++ [NUL])) "FOO".toList [] (by decide)).2 rfl⟩

/-- Claim C3 as stated fails: with room for four path items and four arguments,
`_parseRequest` on `FOO / HTTP/1.1` does not return success. -/
theorem slash_only_is_bad_request :
    ¬ ((_parseRequest 4 4 (freshServer ("FOO / HTTP/1.1".toList ++ [NUL]))).1 = true ∧
       pathCount (_parseRequest 4 4 (freshServer ("FOO / HTTP/1.1".toList ++ [NUL]))).2 = 0 ∧
       argsCount (_parseRequest 4 4 (freshServer ("FOO / HTTP/1.1".toList ++ [NUL]))).2 = 0) := by
  decide

/-- Claim C6, as the code has it: after the space that ends the method token the tokenizer
waits for `'/'` and passes over every other byte.  With room for at least one path item and
one argument, the bytes `w` between that space and the next `'/'` change neither the result
nor the counts of `_parseRequest`, and a request line with no `'/'` after the method token
is accepted, with no path item and no argument. -/
theorem await_path_skips (maxP maxA : Nat) (hP : 0 < maxP) (hA : 0 < maxA)
    (M w : List Char) (hM : Free [' ', NUL] M) (hw : Free ['/', NUL] w) :
    (∀ (s1 s2 : Server) (rest : List Char),
      s1._buffer = M ++ ' ' :: (w ++ '/' :: rest) → s2._buffer = M ++ ' ' :: '/' :: rest →
      (_parseRequest maxP maxA s1).1 = (_parseRequest maxP maxA s2).1 ∧
      pathCount (_parseRequest maxP maxA s1).2 = pathCount (_parseRequest maxP maxA s2).2 ∧
      argsCount (_parseRequest maxP maxA s1).2 = argsCount (_parseRequest maxP maxA s2).2) ∧
    (∀ (s : Server) (tail : List Char),
      s._buffer = M ++ ' ' :: (w ++ NUL :: tail) →
      (_parseRequest maxP maxA s).1 = true ∧
      pathCount (_parseRequest maxP maxA s).2 = 0 ∧
      argsCount (_parseRequest maxP maxA s).2 = 0) := by
  have hMnul : NUL ∉ M := fun h => hM NUL h (by simp)
  have hMsp : Free [' '] M := free_mono (by simp) hM
  have hwnul : NUL ∉ w := fun h => hw NUL h (by simp)
  have hwplain : ∀ c ∈ w, switchC (Mode.SERVER_METH_DONE, 0, 0) c = (Mode.SERVER_METH_DONE, 0, 0) :=
    fun c hc => switchC_done_plain 0 0 c (fun e => hw c hc (by simp [e]))
  constructor
  · intro s1 s2 rest hb1 hb2
    obtain ⟨a1, a2, a3⟩ := parse_ctl maxP maxA s1
    obtain ⟨b1, b2, b3⟩ := parse_ctl maxP maxA s2
    have h1 : (cstr s1._buffer 0).foldl (stepC maxP maxA) (Mode.SERVER_METH_READ, 0, 0) =
        runC maxP maxA (Mode.SERVER_METH_DONE, 0, 0) ('/' :: cstr rest 0) := by
      rw [hb1, cstr_cons_append M _ hMnul ' ' (by decide),
        cstr_cons_append w rest hwnul '/' (by decide)]
      have := runC_method maxP maxA hP hA M (w ++ '/' :: cstr rest 0) hMsp
      unfold runC at this
      rw [this]
      show runC maxP maxA _ (w ++ '/' :: cstr rest 0) = _
      rw [runC_append, runC_plain maxP maxA _ w hP hA hwplain]
    have h2 : (cstr s2._buffer 0).foldl (stepC maxP maxA) (Mode.SERVER_METH_READ, 0, 0) =
        runC maxP maxA (Mode.SERVER_METH_DONE, 0, 0) ('/' :: cstr rest 0) := by
      rw [hb2, cstr_cons_append M _ hMnul ' ' (by decide)]
      have e : cstr ('/' :: rest) 0 = '/' :: cstr rest 0 :=
        cstr_cons_append [] rest (by simp) '/' (by decide)
      rw [e]
      exact runC_method maxP maxA hP hA M _ hMsp
    rw [h1] at a1 a2 a3
    rw [h2] at b1 b2 b3
    exact ⟨a1.trans b1.symm, a2.trans b2.symm, a3.trans b3.symm⟩
  · intro s tail hb
    obtain ⟨a1, a2, a3⟩ := parse_ctl maxP maxA s
    have h1 : (cstr s._buffer 0).foldl (stepC maxP maxA) (Mode.SERVER_METH_READ, 0, 0) =
        (Mode.SERVER_METH_DONE, 0, 0) := by
      rw [hb, cstr_cons_append M _ hMnul ' ' (by decide), cstr_line w tail hwnul]
      have := runC_method maxP maxA hP hA M w hMsp
      unfold runC at this
      rw [this]
      exact runC_plain maxP maxA _ w hP hA hwplain
    rw [h1] at a1 a2 a3
    exact ⟨by simpa using a1, a2, a3⟩

/-- The line `GET foo HTTP/1.1` parses like `GET /1.1`, and `GET foo` is accepted with no
path item and no argument. -/
theorem await_path_skips_witness :
    (_parseRequest 4 4 (freshServer ("GET foo HTTP/1.1".toList ++ [NUL]))).1 =
      (_parseRequest 4 4 (freshServer ("GET /1.1".toList ++ [NUL]))).1 ∧
    (_parseRequest 4 4 (freshServer ("GET foo".toList ++ [NUL]))).1 = true :=
  ⟨((await_path_skips 4 4 (by decide) (by decide) "GET".toList "foo HTTP".toList
      (by decide) (by decide)).1
      (freshServer ("GET foo HTTP/1.1".toList ++ [NUL]))
      (freshServer ("GET /1.1".toList ++ [NUL])) ("1.1".toList ++ [NUL]) rfl rfl).1,
   ((await_path_skips 4 4 (by decide) (by decide) "GET".toList "foo".toList
      (by decide) (by decide)).2
      (freshServer ("GET foo".toList ++ [NUL])) [] rfl).1⟩

/-- Claim C6 as stated fails: the byte after the first space of `GET foo HTTP/1.1` is not
`'/'`, and with room for four path items and four arguments `_parseRequest` returns
success. -/
theorem no_path_accepted :
    ("GET foo HTTP/1.1".toList.getD 4 NUL ≠ '/') ∧
    (_parseRequest 4 4 (freshServer ("GET foo HTTP/1.1".toList ++ [NUL]))).1 = true := by
  decide

/-! ## The two maxima -/

theorem runC_start_badOr (maxP maxA : Nat) (M : List Char) (hM : Free [' '] M) :
    BadOr (runC maxP maxA (Mode.SERVER_METH_READ, 0, 0) (M ++ [' ', '/']))
      (Mode.SERVER_PATH_INIT, 0, 0) := by
  apply badOr_trans maxP maxA _ (Mode.SERVER_METH_READ, 0, 0)
  · exact badOr_plain maxP maxA _ M
      (fun c hc => switchC_meth_plain 0 0 c (by simpa using hM c hc))
  · apply badOr_step maxP maxA _ (Mode.SERVER_METH_DONE, 0, 0) _ ' ' _ (by simp [switchC])
    exact badOr_step maxP maxA _ (Mode.SERVER_PATH_INIT, 0, 0) _ '/' [] (by simp [switchC])
      (Or.inr rfl)

theorem runC_vers (maxP maxA : Nat) (V : List Char) :
    ∀ t : Mode × Nat × Nat,
      (t.1 = Mode.SERVER_HTTP_INIT ∨ t.1 = Mode.SERVER_HTTP_READ ∨ t.1 = Mode.HTTP_BAD_REQUEST) →
      ((runC maxP maxA t V).1 = Mode.SERVER_HTTP_INIT ∨
        (runC maxP maxA t V).1 = Mode.SERVER_HTTP_READ ∨
        (runC maxP maxA t V).1 = Mode.HTTP_BAD_REQUEST) ∧
      (runC maxP maxA t V).2 = t.2 := by
  induction V with
  | nil => intro t h; exact ⟨h, rfl⟩
  | cons c V ih =>
    intro t h
    obtain ⟨m, p, a⟩ := t
    simp only at h
    have hs : ((stepC maxP maxA (m, p, a) c).1 = Mode.SERVER_HTTP_INIT ∨
        (stepC maxP maxA (m, p, a) c).1 = Mode.SERVER_HTTP_READ ∨
        (stepC maxP maxA (m, p, a) c).1 = Mode.HTTP_BAD_REQUEST) ∧
        (stepC maxP maxA (m, p, a) c).2 = (p, a) := by
      rcases h with h | h | h <;> subst h <;> simp only [stepC, switchC] <;>
        (split_ifs <;> simp)
    rw [runC_cons]
    obtain ⟨h1, h2⟩ := ih _ hs.1
    exact ⟨h1, h2.trans hs.2⟩

/-- After a request line with well-formed tokens the mode is `HTTP_BAD_REQUEST`, or the
counts are the numbers of its segments and arguments. -/
theorem runC_line (maxP maxA : Nat) (M : List Char) (segs : List (List Char))
    (args : List (List Char × Option (List Char))) (V : List Char)
    (hM : Free [' '] M) (hne : segs ≠ [])
    (hsegs : ∀ x ∈ segs, Free [' ', '/', '?'] x)
    (hargs : ∀ y ∈ args, ArgOK [' ', '&', '='] y) :
    (runC maxP maxA (Mode.SERVER_METH_READ, 0, 0) (requestLine M segs args V)).1 =
        Mode.HTTP_BAD_REQUEST ∨
    (runC maxP maxA (Mode.SERVER_METH_READ, 0, 0) (requestLine M segs args V)).2 =
        (segs.length, args.length) := by
  cases segs with
  | nil => exact absurd rfl hne
  | cons s ss =>
    have hfin : ∀ (pre : List Char) (n : Nat),
        BadOr (runC maxP maxA (Mode.SERVER_METH_READ, 0, 0) pre)
          (Mode.SERVER_HTTP_INIT, (s :: ss).length, n) →
        (runC maxP maxA (Mode.SERVER_METH_READ, 0, 0) (pre ++ V)).1 = Mode.HTTP_BAD_REQUEST ∨
        (runC maxP maxA (Mode.SERVER_METH_READ, 0, 0) (pre ++ V)).2 = ((s :: ss).length, n) := by
      intro pre n h
      rw [runC_append]
      rcases h with h | h
      · left; rw [runC_bad maxP maxA V _ h]; exact h
      · right; rw [h]; exact (runC_vers maxP maxA V _ (Or.inl rfl)).2
    have hlen : 0 + 1 + ss.length = (s :: ss).length := by
      simp only [List.length_cons]; omega
    cases args with
    | nil =>
      have e : requestLine M (s :: ss) [] V =
          ((M ++ [' ', '/']) ++ (s ++ renderPath ss ++ [' '])) ++ V := by
        simp [requestLine, renderPath, renderQuery]
      rw [e]
      apply hfin
      apply badOr_trans maxP maxA _ (Mode.SERVER_PATH_INIT, 0, 0) _ _ _
        (runC_start_badOr maxP maxA M hM)
      have := badOr_path maxP maxA 0 ' ' (Or.inr rfl) ss s 0 hsegs
      rw [afterSeg_space, hlen] at this
      exact this
    | cons x xs =>
      have e : requestLine M (s :: ss) (x :: xs) V =
          ((M ++ [' ', '/']) ++ ((s ++ renderPath ss ++ ['?']) ++
            (renderArg x ++ renderQuery '&' xs ++ [' ']))) ++ V := by
        simp [requestLine, renderPath, renderQuery]
      rw [e]
      apply hfin
      apply badOr_trans maxP maxA _ (Mode.SERVER_PATH_INIT, 0, 0) _ _ _
        (runC_start_badOr maxP maxA M hM)
      apply badOr_trans maxP maxA _ (Mode.SERVER_ARGS_INIT, (s :: ss).length, 0)
      · have := badOr_path maxP maxA 0 '?' (Or.inl rfl) ss s 0 hsegs
        rw [afterSeg_quest, hlen] at this
        exact this
      · have := badOr_query maxP maxA (s :: ss).length xs x 0 hargs
        have hlen2 : 0 + 1 + xs.length = (x :: xs).length := by
          simp only [List.length_cons]; omega
        rw [hlen2] at this
        exact this

theorem requestLine_ne_nil (M : List Char) (segs : List (List Char))
    (args : List (List Char × Option (List Char))) (V : List Char) :
    requestLine M segs args V ≠ [] := by
  simp [requestLine]

/-- Claim C5, as the code has it: the count check after every byte turns the mode to
`HTTP_BAD_REQUEST` as soon as a count reaches its maximum, so a well-formed request line is
accepted exactly when it has fewer than `MAX_PATHCOUNT` path segments and fewer than
`MAX_ARGSCOUNT` arguments; a line with exactly `MAX_PATHCOUNT` segments, or with exactly
`MAX_ARGSCOUNT` arguments, is rejected. -/
theorem maxima_are_exclusive (maxP maxA : Nat) (s : Server) (M : List Char)
    (segs : List (List Char)) (args : List (List Char × Option (List Char)))
    (tail : List Char)
    (hbuf : s._buffer = requestLine M segs args "HTTP/1.1".toList ++ NUL :: tail)
    (hM : Free [' ', NUL] M) (hsegs : ∀ x ∈ segs, Token x) (hargs : ∀ y ∈ args, ArgToken y)
    (hk1 : 1 ≤ segs.length) :
    ((_parseRequest maxP maxA s).1 = true ↔ (segs.length < maxP ∧ args.length < maxA)) ∧
    (segs.length = maxP → (_parseRequest maxP maxA s).1 = false) ∧
    (args.length = maxA → (_parseRequest maxP maxA s).1 = false) := by
  have hne : segs ≠ [] := by
    intro h; rw [h] at hk1; simp at hk1
  have hMnul : NUL ∉ M := fun hm => hM NUL hm (by simp)
  have hMsp : Free [' '] M := free_mono (by simp) hM
  have hline : NUL ∉ requestLine M segs args "HTTP/1.1".toList :=
    nul_requestLine M segs args _ hMnul (fun x hx => token_nul (hsegs x hx))
      (fun x hx => argToken_nul (hargs x hx)) (by decide)
  have hiff : (_parseRequest maxP maxA s).1 = true ↔
      (segs.length < maxP ∧ args.length < maxA) := by
    constructor
    · intro hsucc
      obtain ⟨c1, _, _⟩ := parse_ctl maxP maxA s
      rw [hbuf, cstr_line _ tail hline] at c1
      rw [c1] at hsucc
      have hnb : (runC maxP maxA (Mode.SERVER_METH_READ, 0, 0)
          (requestLine M segs args "HTTP/1.1".toList)).1 ≠ Mode.HTTP_BAD_REQUEST := by
        simpa [runC] using hsucc
      have hreach := runC_reach maxP maxA _ (requestLine_ne_nil M segs args _) _ hnb
      rcases runC_line maxP maxA M segs args "HTTP/1.1".toList hMsp hne
        (fun x hx => (token_segOK (hsegs x hx)).2) (fun y hy => (argToken_argTok (hargs y hy)).2) with h | h
      · exact absurd h hnb
      · rw [h] at hreach
        exact hreach
    · rintro ⟨hk, hn⟩
      exact (parse_line_facts maxP maxA s M segs args "HTTP/1.1".toList tail hbuf hM hsegs
        hargs (by decide) (by decide) hne hk hn).1
  refine ⟨hiff, ?_, ?_⟩
  · intro h
    cases hr : (_parseRequest maxP maxA s).1 with
    | false => rfl
    | true => have := (hiff.1 hr).1; omega
  · intro h
    cases hr : (_parseRequest maxP maxA s).1 with
    | false => rfl
    | true => have := (hiff.1 hr).2; omega

/-- With room for four path items and four arguments, `GET /a/b/c HTTP/1.1` is accepted and
`GET /a/b/c/d HTTP/1.1` is rejected. -/
theorem maxima_are_exclusive_witness :
    (_parseRequest 4 4 (freshServer ("GET /a/b/c HTTP/1.1".toList ++ [NUL]))).1 = true ∧
    (_parseRequest 4 4 (freshServer ("GET /a/b/c/d HTTP/1.1".toList ++ [NUL]))).1 = false :=
  ⟨(maxima_are_exclusive 4 4 (freshServer ("GET /a/b/c HTTP/1.1".toList ++ [NUL]))
      "GET".toList [['a'], ['b'], ['c']] [] [] (by decide) (by decide) (by decide)
      (by decide) (by decide)).1.2 (by decide),
   (maxima_are_exclusive 4 4 (freshServer ("GET /a/b/c/d HTTP/1.1".toList ++ [NUL]))
      "GET".toList [['a'], ['b'], ['c'], ['d']] [] [] (by decide) (by decide) (by decide)
      (by decide) (by decide)).2.1 (by decide)⟩

set_option maxRecDepth 8000 in
/-- Claim C5 as stated fails: with `MAX_PATHCOUNT = 4` the well-formed request line
`GET /a/b/c/d HTTP/1.1` has exactly four path segments, and `_parseRequest` does not return
success; with `MAX_ARGSCOUNT = 4` the line `GET /a?p&q&r&s HTTP/1.1` has exactly four
arguments, and `_parseRequest` does not return success. -/
theorem exactly_maximum_rejected :
    ¬ ((_parseRequest 4 4 (freshServer ("GET /a/b/c/d HTTP/1.1".toList ++ [NUL]))).1 = true) ∧
    ¬ ((_parseRequest 4 4 (freshServer ("GET /a?p&q&r&s HTTP/1.1".toList ++ [NUL]))).1 = true) :=
  ⟨by decide, by decide⟩

theorem argOK_mono {bad bad2 : List Char} {x : List Char × Option (List Char)}
    (hsub : ∀ c ∈ bad, c ∈ bad2) (h : ArgOK bad2 x) : ArgOK bad x :=
  ⟨free_mono hsub h.1, fun v hv => ⟨(h.2 v hv).1, free_mono hsub (h.2 v hv).2⟩⟩

/-- More segments than there is room for: the mode is `HTTP_BAD_REQUEST` before the path
ends. -/
theorem overflow_path (maxP maxA a : Nat) (ss : List (List Char)) :
    ∀ (s : List Char) (p : Nat),
      (∀ x ∈ s :: ss, Free [' ', '/', '?'] x) → p < maxP → maxP ≤ p + ss.length →
      (runC maxP maxA (Mode.SERVER_PATH_INIT, p, a) (s ++ renderPath ss)).1 =
        Mode.HTTP_BAD_REQUEST := by
  induction ss with
  | nil => intro s p _ h1 h2; simp at h2; omega
  | cons s2 ss ih =>
    intro s p h h1 h2
    have e : s ++ renderPath (s2 :: ss) = (s ++ ['/']) ++ (s2 ++ renderPath ss) := by
      simp [renderPath]
    rw [e, runC_append]
    rcases badOr_seg maxP maxA p a s '/' (h s (List.mem_cons_self _ _)) (Or.inl rfl) with hb | hb
    · rw [runC_bad maxP maxA _ _ hb]; exact hb
    · have hreach := runC_reach maxP maxA (s ++ ['/']) (by simp) (Mode.SERVER_PATH_INIT, p, a)
        (by rw [hb, afterSeg_slash]; simp)
      rw [hb] at hreach ⊢
      rw [afterSeg_slash]
      simp only [List.length_cons] at h2
      exact ih s2 (p + 1) (fun x hx => h x (List.mem_cons_of_mem _ hx)) hreach.1 (by omega)

/-- More arguments than there is room for: the mode is `HTTP_BAD_REQUEST` before the query
ends. -/
theorem overflow_query (maxP maxA p : Nat) (xs : List (List Char × Option (List Char))) :
    ∀ (x : List Char × Option (List Char)) (a : Nat),
      (∀ y ∈ x :: xs, ArgOK [' ', '&', '='] y) → a < maxA → maxA ≤ a + xs.length →
      (runC maxP maxA (Mode.SERVER_ARGS_INIT, p, a) (renderArg x ++ renderQuery '&' xs)).1 =
        Mode.HTTP_BAD_REQUEST := by
  induction xs with
  | nil => intro x a _ h1 h2; simp at h2; omega
  | cons x2 xs ih =>
    intro x a h h1 h2
    have e : renderArg x ++ renderQuery '&' (x2 :: xs) =
        (renderArg x ++ ['&']) ++ (renderArg x2 ++ renderQuery '&' xs) := by
      simp [renderQuery]
    rw [e, runC_append]
    rcases badOr_arg maxP maxA p a x '&' (h x (List.mem_cons_self _ _)) (Or.inl rfl) with hb | hb
    · rw [runC_bad maxP maxA _ _ hb]; exact hb
    · have hreach := runC_reach maxP maxA (renderArg x ++ ['&']) (by simp)
        (Mode.SERVER_ARGS_INIT, p, a) (by rw [hb, afterArg_amp]; simp)
      rw [hb] at hreach ⊢
      rw [afterArg_amp]
      simp only [List.length_cons] at h2
      exact ih x2 (a + 1) (fun y hy => h y (List.mem_cons_of_mem _ hy)) hreach.2 (by omega)

theorem parse_fails_of_bad_start (maxP maxA : Nat) (s : Server) (A rest : List Char)
    (hbuf : s._buffer = A ++ rest) (hA : NUL ∉ A)
    (hbad : (runC maxP maxA (Mode.SERVER_METH_READ, 0, 0) A).1 = Mode.HTTP_BAD_REQUEST) :
    (_parseRequest maxP maxA s).1 = false := by
  obtain ⟨c1, _, _⟩ := parse_ctl maxP maxA s
  rw [hbuf, cstr_append A rest hA] at c1
  have h : (runC maxP maxA (Mode.SERVER_METH_READ, 0, 0) (A ++ cstr rest 0)).1 =
      Mode.HTTP_BAD_REQUEST := by
    rw [runC_append, runC_bad maxP maxA _ _ hbad]; exact hbad
  unfold runC at h
  rw [c1, h]
  decide

/-- Claim C4, as the code has it: `_parseRequest` returns failure, whatever bytes `rest`
follow, on every request line whose path starts right after the space of the method token
and has more than `MAX_PATHCOUNT` segments, and on every request line whose query follows
such a path and has more than `MAX_ARGSCOUNT` arguments, each one written `l` or `l=v` with
`v` non-empty and no further `=` in `l` and `v`.  (Arguments written `l=` with nothing
after the `=` are left out.) -/
theorem count_overflow (maxP maxA : Nat) (s : Server) (M : List Char)
    (segs : List (List Char)) (hM : Free [' ', NUL] M)
    (hsegs : ∀ x ∈ segs, Free [' ', '/', '?', NUL] x) :
    (∀ rest : List Char,
      s._buffer = M ++ ' ' :: (renderPath segs ++ rest) → maxP < segs.length →
      (_parseRequest maxP maxA s).1 = false) ∧
    (∀ (args : List (List Char × Option (List Char))) (rest : List Char),
      s._buffer = M ++ ' ' :: (renderPath segs ++ (renderQuery '?' args ++ rest)) →
      segs ≠ [] → (∀ y ∈ args, ArgOK [' ', '&', '=', NUL] y) → maxA < args.length →
      (_parseRequest maxP maxA s).1 = false) := by
  have hMnul : NUL ∉ M := fun hm => hM NUL hm (by simp)
  have hMsp : Free [' '] M := free_mono (by simp) hM
  have hsegs3 : ∀ x ∈ segs, Free [' ', '/', '?'] x :=
    fun x hx => free_mono (by simp) (hsegs x hx)
  have hsegsnul : ∀ x ∈ segs, NUL ∉ x := fun x hx hm => hsegs x hx NUL hm (by simp)
  constructor
  · intro rest hbuf hlen
    cases segs with
    | nil => simp at hlen
    | cons s0 ss =>
      simp only [List.length_cons] at hlen
      have e : M ++ ' ' :: (renderPath (s0 :: ss) ++ rest) =
          ((M ++ [' ', '/']) ++ (s0 ++ renderPath ss)) ++ rest := by
        simp [renderPath]
      rw [e] at hbuf
      apply parse_fails_of_bad_start maxP maxA s _ rest hbuf
      · have := nul_renderPath (s0 :: ss) hsegsnul
        simp only [renderPath, List.mem_cons, List.mem_append, not_or] at this
        simp only [List.mem_append, List.mem_cons, not_or, List.mem_nil_iff, not_false_eq_true,
          and_true]
        exact ⟨⟨hMnul, NUL_ne_space, NUL_ne_slash⟩, this.1.2, this.2⟩
      · rw [runC_append]
        rcases runC_start_badOr maxP maxA M hMsp with hb | hb
        · rw [runC_bad maxP maxA _ _ hb]; exact hb
        · have hreach := runC_reach maxP maxA (M ++ [' ', '/']) (by simp) _
            (by rw [hb]; decide)
          rw [hb] at hreach ⊢
          exact overflow_path maxP maxA 0 ss s0 0 hsegs3 hreach.1 (by omega)
  · intro args rest hbuf hne hargs hlen
    have hargs3 : ∀ y ∈ args, ArgOK [' ', '&', '='] y :=
      fun y hy => argOK_mono (by simp) (hargs y hy)
    have hargsnul : ∀ y ∈ args, ArgNulFree y :=
      fun y hy => ⟨fun hm => (hargs y hy).1 NUL hm (by simp),
        fun v hv hm => ((hargs y hy).2 v hv).2 NUL hm (by simp)⟩
    cases segs with
    | nil => exact absurd rfl hne
    | cons s0 ss =>
      cases args with
      | nil => simp at hlen
      | cons x xs =>
        simp only [List.length_cons] at hlen
        have e : M ++ ' ' :: (renderPath (s0 :: ss) ++ (renderQuery '?' (x :: xs) ++ rest)) =
            ((M ++ [' ', '/']) ++ ((s0 ++ renderPath ss ++ ['?']) ++
              (renderArg x ++ renderQuery '&' xs))) ++ rest := by
          simp [renderPath, renderQuery]
        rw [e] at hbuf
        apply parse_fails_of_bad_start maxP maxA s _ rest hbuf
        · have h1 := nul_renderPath (s0 :: ss) hsegsnul
          have h2 := nul_renderQuery (x :: xs) hargsnul '?' NUL_ne_quest
          simp only [renderPath, List.mem_cons, List.mem_append, not_or] at h1
          simp only [renderQuery, List.mem_cons, List.mem_append, not_or] at h2
          simp only [List.mem_append, List.mem_cons, not_or, List.mem_nil_iff, not_false_eq_true,
            and_true]
          exact ⟨⟨hMnul, NUL_ne_space, NUL_ne_slash⟩, ⟨⟨h1.1.2, h1.2⟩, NUL_ne_quest⟩,
            h2.1.2, h2.2⟩
        · rw [runC_append]
          rcases runC_start_badOr maxP maxA M hMsp with hb | hb
          · rw [runC_bad maxP maxA _ _ hb]; exact hb
          · rw [hb, runC_append]
            rcases badOr_path maxP maxA 0 '?' (Or.inl rfl) ss s0 0 hsegs3 with hb2 | hb2
            · rw [runC_bad maxP maxA _ _ hb2]; exact hb2
            · have hreach := runC_reach maxP maxA (s0 ++ renderPath ss ++ ['?']) (by simp) _
                (by rw [hb2, afterSeg_quest]; simp)
              rw [hb2] at hreach ⊢
              rw [afterSeg_quest]
              exact overflow_query maxP maxA _ xs x 0 hargs3 hreach.2 (by omega)

/-- With room for two path items and two arguments: `GET /a/b/c` followed by the bytes
`xyz`, and `GET /a?x=1&y&z` followed by ` HTTP/1.1`, are rejected. -/
theorem count_overflow_witness :
    (_parseRequest 2 2 (freshServer ("GET /a/b/cxyz".toList ++ [NUL]))).1 = false ∧
    (_parseRequest 2 2 (freshServer ("GET /a?x=1&y&z HTTP/1.1".toList ++ [NUL]))).1 = false :=
  ⟨(count_overflow 2 2 (freshServer ("GET /a/b/cxyz".toList ++ [NUL])) "GET".toList
      [['a'], ['b'], ['c']] (by decide) (by decide)).1 ("xyz".toList ++ [NUL]) rfl (by decide),
   (count_overflow 2 2 (freshServer ("GET /a?x=1&y&z HTTP/1.1".toList ++ [NUL])) "GET".toList
      [['a']] (by decide) (by decide)).2 [(['x'], some ['1']), (['y'], none), (['z'], none)]
      (" HTTP/1.1".toList ++ [NUL]) rfl (by decide) (by decide) (by decide)⟩

set_option maxRecDepth 8000 in
/-- Claim C4 as stated fails, with `MAX_PATHCOUNT = MAX_ARGSCOUNT = 4`: the query of
`GET foo?a&b&c&d&e HTTP/1.1` has five `&`-separated arguments and `_parseRequest` returns
success, because every byte between the method token and the first `'/'` is passed over; and
the query of `GET /a?a=&b=&c=&d=&e= HTTP/1.1` has five `&`-separated arguments and
`_parseRequest` returns success with one argument counted, because the byte after each `=`
is taken as a value byte without being examined. -/
theorem overflow_not_always_rejected :
    ("GET foo".toList ++ renderQuery '?'
        [(['a'], none), (['b'], none), (['c'], none), (['d'], none), (['e'], none)]
        ++ " HTTP/1.1".toList
      = "GET foo?a&b&c&d&e HTTP/1.1".toList ∧
     (_parseRequest 4 4
        (freshServer ("GET foo?a&b&c&d&e HTTP/1.1".toList ++ [NUL]))).1 = true) ∧
    (requestLine "GET".toList [['a']]
        [(['a'], some []), (['b'], some []), (['c'], some []), (['d'], some []), (['e'], some [])]
        "HTTP/1.1".toList
      = "GET /a?a=&b=&c=&d=&e= HTTP/1.1".toList ∧
     (_parseRequest 4 4
        (freshServer ("GET /a?a=&b=&c=&d=&e= HTTP/1.1".toList ++ [NUL]))).1 = true ∧
     argsCount (_parseRequest 4 4
        (freshServer ("GET /a?a=&b=&c=&d=&e= HTTP/1.1".toList ++ [NUL]))).2 = 1) :=
  ⟨⟨by decide, by decide⟩, by decide, by decide, by decide⟩

/-! ## The version token -/

theorem takeWhile_crNul (W tail : List Char) (hW : NUL ∉ W) :
    (W.map crNul ++ NUL :: tail).takeWhile (fun c => c != NUL) =
      W.takeWhile (fun c => c != '\r') := by
  induction W with
  | nil => simp
  | cons c W ih =>
    have hc : c ≠ NUL := fun e => hW (by rw [e]; exact List.mem_cons_self _ _)
    have hW2 : NUL ∉ W := fun e => hW (List.mem_cons_of_mem _ e)
    by_cases hr : c = '\r'
    · subst hr
      simp [crNul]
    · have hb : (c != NUL) = true := by simpa using hc
      have hb2 : (c != '\r') = true := by simpa using hr
      simp only [List.map_cons, List.cons_append, crNul, if_neg hr, List.takeWhile_cons, hb, hb2,
        if_true]
      rw [ih hW2]

theorem cstr_version (pre V tail : List Char) (hV : NUL ∉ V) (h5 : 5 ≤ V.length) :
    cstr (pre ++ (V.map crNul ++ NUL :: tail)) (pre.length + 5) =
      (V.drop 5).takeWhile (fun c => c != '\r') := by
  have hV2 : NUL ∉ V.drop 5 := fun h => hV (List.mem_of_mem_drop h)
  unfold cstr
  rw [List.drop_append, List.drop_append_of_le_length (by simpa using h5), ← List.map_drop]
  exact takeWhile_crNul _ tail hV2

theorem length_renderPath (ss : List (List Char)) :
    (renderPath ss).length = (nulJoin ss).length := by
  induction ss with
  | nil => rfl
  | cons s ss ih => simp [renderPath, nulJoin, ih]; omega

theorem length_renderQuery (xs : List (List Char × Option (List Char))) :
    ∀ d, (renderQuery d xs).length = (nulArgs xs).length := by
  induction xs with
  | nil => intro d; rfl
  | cons x xs ih => intro d; simp [renderQuery, nulArgs, ih, length_arg]; omega

/-- Claim C7, as the code has it (`_version = http + 5`): after the parse of a well-formed
request line that ends in a protocol token `V` of at least five bytes, the version pointer
is five bytes past the byte that follows the space that ended the path or query, and the
version token is the text from there to the carriage-return or to the end of the line: the
five bytes of `HTTP/` are not part of it. -/
theorem version_token (maxP maxA : Nat) (s : Server) (M : List Char)
    (segs : List (List Char)) (args : List (List Char × Option (List Char)))
    (V tail : List Char)
    (hbuf : s._buffer = requestLine M segs args V ++ NUL :: tail)
    (hM : Free [' ', NUL] M) (hsegs : ∀ x ∈ segs, Token x) (hargs : ∀ y ∈ args, ArgToken y)
    (hV5 : 5 ≤ V.length) (hVnul : NUL ∉ V)
    (hk1 : 1 ≤ segs.length) (hk : segs.length < maxP) (hn : args.length < maxA) :
    (_parseRequest maxP maxA s).1 = true ∧
    (_parseRequest maxP maxA s).2._version =
      some ((requestLine M segs args V).length - V.length + 5) ∧
    cstrAt (_parseRequest maxP maxA s).2._buffer (_parseRequest maxP maxA s).2._version =
      some ((V.drop 5).takeWhile (fun c => c != '\r')) := by
  have hne : segs ≠ [] := by
    intro h; rw [h] at hk1; simp at hk1
  have hVne : V ≠ [] := by
    intro h; rw [h] at hV5; simp at hV5
  obtain ⟨h1, _, _, _, _, h6, h7, _⟩ :=
    parse_line_facts maxP maxA s M segs args V tail hbuf hM hsegs hargs hVne hVnul hne hk hn
  have hlen : (requestLine M segs args V).length - V.length + 5 =
      M.length + 2 + (nulJoin segs).length + (nulArgs args).length + 5 := by
    simp only [requestLine, List.length_append, List.length_cons, length_renderPath,
      length_renderQuery]
    omega
  refine ⟨h1, by rw [h7, hlen], ?_⟩
  rw [h6, h7]
  have e1 : M ++ NUL :: NUL :: (nulJoin segs ++ (nulArgs args ++ V.map crNul)) ++ NUL :: tail =
      (M ++ NUL :: NUL :: (nulJoin segs ++ nulArgs args)) ++ (V.map crNul ++ NUL :: tail) := by
    simp
  have e2 : M.length + 2 + (nulJoin segs).length + (nulArgs args).length + 5 =
      (M ++ NUL :: NUL :: (nulJoin segs ++ nulArgs args)).length + 5 := by
    simp only [List.length_append, List.length_cons]
    omega
  simp only [cstrAt, Option.map_some']
  rw [e1, e2, cstr_version _ V tail hVnul hV5]

/-- The version token of `GET /a/b?x=1&y HTTP/1.1` is `1.1`. -/
theorem version_token_witness :
    cstrAt (_parseRequest 4 4 (freshServer ("GET /a/b?x=1&y HTTP/1.1".toList ++ [NUL]))).2._buffer
      (_parseRequest 4 4 (freshServer ("GET /a/b?x=1&y HTTP/1.1".toList ++ [NUL]))).2._version
      = some "1.1".toList :=
  (version_token 4 4 (freshServer ("GET /a/b?x=1&y HTTP/1.1".toList ++ [NUL]))
    "GET".toList [['a'], ['b']] [(['x'], some ['1']), (['y'], none)] "HTTP/1.1".toList []
    (by decide) (by decide) (by decide) (by decide) (by decide) (by decide) (by decide)
    (by decide) (by decide)).2.2

set_option maxRecDepth 8000 in
/-- Claim C7 as stated fails: after the parse of `GET /a/b?x=1&y HTTP/1.1` the version token
is not `HTTP/1.1`. -/
theorem version_skips_protocol_name :
    cstrAt (_parseRequest 4 4 (freshServer ("GET /a/b?x=1&y HTTP/1.1".toList ++ [NUL]))).2._buffer
      (_parseRequest 4 4 (freshServer ("GET /a/b?x=1&y HTTP/1.1".toList ++ [NUL]))).2._version
      ≠ some "HTTP/1.1".toList := by
  decide

/-! ## Parsing again -/

set_option maxRecDepth 16000 in
/-- Claim C8 at its own witnesses: after `GET /a/b/c HTTP/1.1` and then `GET /x HTTP/1.1`
the path count is 1; but after `GET /a?x=1 HTTP/1.1` and then `GET /a?y HTTP/1.1` the
argument `y`, written without `=`, still has the value pointer that the first parse stored
for `x`, and `arg("y")` returns the string `HTTP/1.1` found there, not the label `y`. -/
theorem reparse_keeps_stale_value :
    pathCount (parseTwice 4 4 "GET /a/b/c HTTP/1.1".toList "GET /x HTTP/1.1".toList) = 1 ∧
    argLabel (parseTwice 4 4 "GET /a?x=1 HTTP/1.1".toList "GET /a?y HTTP/1.1".toList) 0
      = some ['y'] ∧
    ((parseTwice 4 4 "GET /a?x=1 HTTP/1.1".toList "GET /a?y HTTP/1.1".toList)._args 0).value
      = some 9 ∧
    cstrAt (parseTwice 4 4 "GET /a?x=1 HTTP/1.1".toList "GET /a?y HTTP/1.1".toList)._buffer
      (arg (parseTwice 4 4 "GET /a?x=1 HTTP/1.1".toList "GET /a?y HTTP/1.1".toList)
        (some ['y']))
      = some "HTTP/1.1".toList :=
  ⟨by decide, by decide, by decide, by decide⟩

/-! ## The accessor `method( method)` -/

/-- Claim C12: for every requested method `r` and every server, `method( r)` is true if
and only if `r` is the wildcard `HTTP_ANY` or `r` is the parsed method; when the parsed
method is `HTTP_ANY` (the verb was not recognised) only the wildcard matches. -/
theorem method_matches (s : Server) (r : HTTPMethod) :
    (methodIs s r = true ↔ (r = HTTPMethod.HTTP_ANY ∨ r = method s)) ∧
    (method s = HTTPMethod.HTTP_ANY → (methodIs s r = true ↔ r = HTTPMethod.HTTP_ANY)) := by
  have h : methodIs s r = true ↔ (r = HTTPMethod.HTTP_ANY ∨ r = method s) := by
    simp [methodIs, method]
  refine ⟨h, ?_⟩
  intro hp
  rw [h, hp]
  simp

/-! ## What one loop body records -/

/-- The arrays, the counts and `http` after one loop body, from the mode before it and the
character under the index. -/
theorem stepK_data (maxP maxA i : Nat) (k : PState) (c : Char) :
    (stepK maxP maxA i (k, c)).1.srv._path =
      (if k.mode = Mode.SERVER_PATH_INIT ∧ c ≠ ' ' then
        Function.update k.srv._path k.srv._pathCount (some i) else k.srv._path) ∧
    (stepK maxP maxA i (k, c)).1.srv._pathCount =
      (if k.mode = Mode.SERVER_PATH_INIT ∧ c ≠ ' ' then k.srv._pathCount + 1
       else k.srv._pathCount) ∧
    (stepK maxP maxA i (k, c)).1.srv._args =
      (if k.mode = Mode.SERVER_ARGS_INIT ∧ c ≠ ' ' then
        Function.update k.srv._args k.srv._argsCount
          { k.srv._args k.srv._argsCount with label := some i }
       else if k.mode = Mode.SERVER_ARGS_NEXT then
        Function.update k.srv._args (k.srv._argsCount - 1)
          { k.srv._args (k.srv._argsCount - 1) with value := some i }
       else k.srv._args) ∧
    (stepK maxP maxA i (k, c)).1.srv._argsCount =
      (if k.mode = Mode.SERVER_ARGS_INIT ∧ c ≠ ' ' then k.srv._argsCount + 1
       else k.srv._argsCount) ∧
    (stepK maxP maxA i (k, c)).1.http =
      (if k.mode = Mode.SERVER_HTTP_INIT then i else k.http) := by
  unfold stepK capMode
  cases hm : k.mode with
  | SERVER_METH_READ =>
    simp only [switchK, hm, cutK]
    split_ifs <;> simp_all
  | SERVER_METH_DONE =>
    simp only [switchK, hm, cutK]
    split_ifs <;> simp_all
  | SERVER_PATH_INIT =>
    simp only [switchK, hm, pathReadK_eq]
    split_ifs <;> simp_all
  | SERVER_PATH_READ =>
    simp only [switchK, hm, pathReadK_eq]
    split_ifs <;> simp_all
  | SERVER_ARGS_INIT =>
    simp only [switchK, hm, argsReadK_eq]
    split_ifs <;> simp_all
  | SERVER_ARGS_READ =>
    simp only [switchK, hm, argsReadK_eq]
    split_ifs <;> simp_all
  | SERVER_ARGS_NEXT => simp [switchK, hm]
  | SERVER_HTTP_INIT =>
    simp only [switchK, hm, httpReadK]
    split_ifs <;> simp_all
  | SERVER_HTTP_READ =>
    simp only [switchK, hm, httpReadK]
    split_ifs <;> simp_all
  | HTTP_BAD_REQUEST => simp [switchK, hm]

theorem stepC_argsInv (maxP maxA : Nat) (t : Mode × Nat × Nat) (c : Char) (h : ArgsInv t) :
    ArgsInv (stepC maxP maxA t c) := by
  obtain ⟨m, p, a⟩ := t
  unfold ArgsInv at h ⊢
  simp only at h
  cases m <;> simp only [stepC, switchC, pathC, argsC] <;> split_ifs <;> simp_all

theorem stepC_modeInv (maxP maxA : Nat) (t : Mode × Nat × Nat) (c : Char)
    (h : ModeInv maxP maxA t) : ModeInv maxP maxA (stepC maxP maxA t c) := by
  obtain ⟨h1, h2, h3, h4⟩ := h
  refine ⟨?_, stepC_argsInv maxP maxA t c h2, ?_, ?_⟩
  · intro hne
    exact stepC_reach maxP maxA t c hne
  · obtain ⟨m, p, a⟩ := t
    simp only at h1 h3 h4
    cases m <;> simp only [stepC, switchC]
    all_goals try split_ifs
    all_goals try simp_all
    all_goals try omega
  · obtain ⟨m, p, a⟩ := t
    simp only at h1 h3 h4
    cases m <;> simp only [stepC, switchC]
    all_goals try split_ifs
    all_goals try simp_all
    all_goals try omega

theorem runC_modeInv (maxP maxA : Nat) (w : List Char) :
    ∀ t, ModeInv maxP maxA t → ModeInv maxP maxA (runC maxP maxA t w) := by
  induction w with
  | nil => intro t h; exact h
  | cons c w ih => intro t h; exact ih _ (stepC_modeInv maxP maxA t c h)

theorem modeInv_init (maxP maxA : Nat) (hP : 0 < maxP) (hA : 0 < maxA) :
    ModeInv maxP maxA (Mode.SERVER_METH_READ, 0, 0) := by
  refine ⟨fun _ => ⟨hP, hA⟩, ?_, Nat.zero_le _, Nat.zero_le _⟩
  intro h
  rcases h with h | h <;> cases h

/-- One loop body at index `n` keeps what is recorded. -/
theorem stepK_recorded (maxP maxA n : Nat) (old : Nat → Argument) (k : PState) (c : Char)
    (h : Recorded old k n) : Recorded old (stepK maxP maxA n (k, c)).1 (n + 1) := by
  obtain ⟨h1, h2, h3, h4, h5, h6⟩ := h
  obtain ⟨e1, e2, e3, e4, e5⟩ := stepK_data maxP maxA n k c
  have hmode : ArgsInv (ctlOf (stepK maxP maxA n (k, c)).1) := by
    rw [ctlOf_stepK]; exact stepC_argsInv maxP maxA _ c h6
  refine ⟨?_, ?_, ?_, ?_, ?_, hmode⟩
  · intro j hj
    rw [e1]
    rw [e2] at hj
    by_cases hc : k.mode = Mode.SERVER_PATH_INIT ∧ c ≠ ' '
    · rw [if_pos hc] at hj ⊢
      by_cases hjp : j = k.srv._pathCount
      · subst hjp
        exact ⟨n, by omega, by rw [Function.update_same]⟩
      · rw [Function.update_noteq hjp]
        obtain ⟨off, ho, he⟩ := h1 j (by omega)
        exact ⟨off, by omega, he⟩
    · rw [if_neg hc] at hj ⊢
      obtain ⟨off, ho, he⟩ := h1 j hj
      exact ⟨off, by omega, he⟩
  · intro j hj
    rw [e3]
    rw [e4] at hj
    by_cases hc : k.mode = Mode.SERVER_ARGS_INIT ∧ c ≠ ' '
    · rw [if_pos hc] at hj ⊢
      by_cases hja : j = k.srv._argsCount
      · subst hja
        exact ⟨n, by omega, by rw [Function.update_same]⟩
      · rw [Function.update_noteq hja]
        obtain ⟨off, ho, he⟩ := h2 j (by omega)
        exact ⟨off, by omega, he⟩
    · rw [if_neg hc] at hj ⊢
      by_cases hn : k.mode = Mode.SERVER_ARGS_NEXT
      · rw [if_pos hn]
        obtain ⟨off, ho, he⟩ := h2 j hj
        by_cases hja : j = k.srv._argsCount - 1
        · subst hja
          rw [Function.update_same]
          exact ⟨off, by omega, he⟩
        · rw [Function.update_noteq hja]
          exact ⟨off, by omega, he⟩
      · rw [if_neg hn]
        obtain ⟨off, ho, he⟩ := h2 j hj
        exact ⟨off, by omega, he⟩
  · intro j hj
    rw [e3]
    rw [e4] at hj
    by_cases hc : k.mode = Mode.SERVER_ARGS_INIT ∧ c ≠ ' '
    · rw [if_pos hc] at hj ⊢
      by_cases hja : j = k.srv._argsCount
      · subst hja
        rw [Function.update_same]
        left
        show (k.srv._args k.srv._argsCount).value = _
        rw [h4 _ (Nat.le_refl _)]
      · rw [Function.update_noteq hja]
        rcases h3 j (by omega) with hv | ⟨off, ho, he⟩
        · exact Or.inl hv
        · exact Or.inr ⟨off, by omega, he⟩
    · rw [if_neg hc] at hj ⊢
      by_cases hn : k.mode = Mode.SERVER_ARGS_NEXT
      · rw [if_pos hn]
        by_cases hja : j = k.srv._argsCount - 1
        · subst hja
          rw [Function.update_same]
          exact Or.inr ⟨n, by omega, rfl⟩
        · rw [Function.update_noteq hja]
          rcases h3 j hj with hv | ⟨off, ho, he⟩
          · exact Or.inl hv
          · exact Or.inr ⟨off, by omega, he⟩
      · rw [if_neg hn]
        rcases h3 j hj with hv | ⟨off, ho, he⟩
        · exact Or.inl hv
        · exact Or.inr ⟨off, by omega, he⟩
  · intro j hj
    rw [e3]
    rw [e4] at hj
    by_cases hc : k.mode = Mode.SERVER_ARGS_INIT ∧ c ≠ ' '
    · rw [if_pos hc] at hj ⊢
      rw [Function.update_noteq (by omega)]
      exact h4 j (by omega)
    · rw [if_neg hc] at hj ⊢
      by_cases hn : k.mode = Mode.SERVER_ARGS_NEXT
      · rw [if_pos hn]
        have h1a : 1 ≤ k.srv._argsCount := h6 (Or.inr hn)
        rw [Function.update_noteq (by omega)]
        exact h4 j hj
      · rw [if_neg hn]
        exact h4 j hj
  · rw [e5]
    by_cases hh : k.mode = Mode.SERVER_HTTP_INIT
    · rw [if_pos hh]; right; omega
    · rw [if_neg hh]
      rcases h5 with h | h
      · exact Or.inl h
      · right; omega

theorem scanK_recorded (maxP maxA : Nat) (old : Nat → Argument) (w : List Char) :
    ∀ (k : PState) (n : Nat), Recorded old k n →
      Recorded old (scanK maxP maxA k n w).1 (n + w.length) := by
  induction w with
  | nil => intro k n h; exact h
  | cons c w ih =>
    intro k n h
    have := ih _ (n + 1) (stepK_recorded maxP maxA n old k c h)
    rw [scanK_cons]
    simp only [List.length_cons]
    have e : n + (w.length + 1) = n + 1 + w.length := by omega
    rw [e]
    exact this

theorem recorded_init (s : Server) : Recorded s._args (initK s) 0 := by
  refine ⟨?_, ?_, ?_, ?_, Or.inl rfl, ?_⟩
  · intro j hj; exact absurd hj (Nat.not_lt_zero _)
  · intro j hj; exact absurd hj (Nat.not_lt_zero _)
  · intro j hj; exact absurd hj (Nat.not_lt_zero _)
  · intro j _; rfl
  · intro h
    rcases h with h | h <;> cases h

/-- What the loop of `_parseRequest` has recorded when it ends. -/
theorem parseLoop_recorded (maxP maxA : Nat) (s : Server) :
    Recorded s._args (parseLoop maxP maxA s) (strlen s._buffer) := by
  have h := scanK_recorded maxP maxA s._args (cstr s._buffer 0) (initK s) 0 (recorded_init s)
  rw [Nat.zero_add] at h
  rw [parseLoop_scanK]
  exact h

/-! ## The bytes the loop writes -/

theorem switchK_char (i : Nat) (k : PState) (c : Char) : Cut c (switchK i (k, c)).2 := by
  unfold switchK Cut Delim
  cases hm : k.mode with
  | SERVER_METH_READ => simp only [cutK]; split_ifs <;> simp_all
  | SERVER_METH_DONE => simp only [cutK]; split_ifs <;> simp_all
  | SERVER_PATH_INIT => simp only [pathReadK_eq]; split_ifs <;> simp_all
  | SERVER_PATH_READ => simp only [pathReadK_eq]; split_ifs <;> simp_all
  | SERVER_ARGS_INIT => simp only [argsReadK_eq]; split_ifs <;> simp_all
  | SERVER_ARGS_READ => simp only [argsReadK_eq]; split_ifs <;> simp_all
  | SERVER_ARGS_NEXT => simp
  | SERVER_HTTP_INIT => simp only [httpReadK]; split_ifs <;> simp_all
  | SERVER_HTTP_READ => simp only [httpReadK]; split_ifs <;> simp_all
  | HTTP_BAD_REQUEST => simp

theorem stepK_char (maxP maxA i : Nat) (k : PState) (c : Char) :
    Cut c (stepK maxP maxA i (k, c)).2 :=
  switchK_char i k c

theorem scanK_chars (maxP maxA : Nat) (w : List Char) :
    ∀ (k : PState) (i : Nat), List.Forall₂ Cut w (scanK maxP maxA k i w).2 := by
  induction w with
  | nil => intro k i; exact List.Forall₂.nil
  | cons c w ih =>
    intro k i
    rw [scanK_cons]
    exact List.Forall₂.cons (stepK_char maxP maxA i k c) (ih _ _)

theorem forall2_getD {R : Char → Char → Prop} {a b : List Char} (h : List.Forall₂ R a b) :
    ∀ j, j < a.length → R (a.getD j NUL) (b.getD j NUL) := by
  induction h with
  | nil => intro j hj; exact absurd hj (Nat.not_lt_zero _)
  | cons hx _ ih =>
    intro j hj
    cases j with
    | zero => simpa using hx
    | succ j =>
      simp only [List.length_cons] at hj
      simpa using ih j (by omega)

/-- The buffer that `_parseRequest` leaves: the bytes of the request line as the loop has
left them, followed by the rest of the array as it was. -/
theorem parse_buffer (maxP maxA : Nat) (s : Server) :
    (_parseRequest maxP maxA s).2._buffer =
      (scanK maxP maxA (initK s) 0 (cstr s._buffer 0)).2 ++
        s._buffer.dropWhile (fun c => c != NUL) := by
  simp only [_parseRequest, finish, parseLoop_scanK]
  rfl

theorem parse_buffer_length (maxP maxA : Nat) (s : Server) :
    (_parseRequest maxP maxA s).2._buffer.length = s._buffer.length := by
  rw [parse_buffer]
  have h := (scanK_chars maxP maxA (cstr s._buffer 0) (initK s) 0).length_eq
  conv_rhs => rw [← cstr_append_dropWhile s._buffer]
  simp only [List.length_append]
  rw [h]

theorem strlen_le (buf : List Char) : strlen buf ≤ buf.length := by
  have h := congrArg List.length (cstr_append_dropWhile buf)
  simp only [List.length_append] at h
  unfold strlen
  omega

/-! ## The frame of `_parseRequest` on the buffer -/

/-- Claim C20: `_parseRequest` keeps the length of `_buffer`; at every position below
`strlen( _buffer)` the byte it leaves is the byte that was there, or the terminator where
the byte was one of `' '`, `'/'`, `'?'`, `'='`, `'&'`, `'\r'`; at every position from
`strlen( _buffer)` on the byte is the byte that was there. -/
theorem parse_writes_terminators_only (maxP maxA : Nat) (s : Server) :
    (_parseRequest maxP maxA s).2._buffer.length = s._buffer.length ∧
    (∀ j, j < strlen s._buffer →
      (_parseRequest maxP maxA s).2._buffer.getD j NUL = s._buffer.getD j NUL ∨
      ((_parseRequest maxP maxA s).2._buffer.getD j NUL = NUL ∧
        Delim (s._buffer.getD j NUL))) ∧
    (∀ j, strlen s._buffer ≤ j →
      (_parseRequest maxP maxA s).2._buffer.getD j NUL = s._buffer.getD j NUL) := by
  have hF := scanK_chars maxP maxA (cstr s._buffer 0) (initK s) 0
  have hlen := hF.length_eq
  have hsplit := cstr_append_dropWhile s._buffer
  refine ⟨parse_buffer_length maxP maxA s, ?_, ?_⟩
  · intro j hj
    unfold strlen at hj
    have h := forall2_getD hF j hj
    have e1 : (_parseRequest maxP maxA s).2._buffer.getD j NUL =
        (scanK maxP maxA (initK s) 0 (cstr s._buffer 0)).2.getD j NUL := by
      rw [parse_buffer, List.getD_append _ _ _ _ (by omega)]
    have e2 : s._buffer.getD j NUL = (cstr s._buffer 0).getD j NUL := by
      conv_lhs => rw [← hsplit]
      rw [List.getD_append _ _ _ _ hj]
    rw [e1, e2]
    exact h
  · intro j hj
    unfold strlen at hj
    have e1 : (_parseRequest maxP maxA s).2._buffer.getD j NUL =
        (s._buffer.dropWhile (fun c => c != NUL)).getD (j - (cstr s._buffer 0).length) NUL := by
      rw [parse_buffer, List.getD_append_right _ _ _ _ (by omega), ← hlen]
    have e2 : s._buffer.getD j NUL =
        (s._buffer.dropWhile (fun c => c != NUL)).getD (j - (cstr s._buffer 0).length) NUL := by
      conv_lhs => rw [← hsplit]
      rw [List.getD_append_right _ _ _ _ hj]
    rw [e1, e2]

/-! ## Where the recorded positions lie -/

/-- Claim C19, as the code has it: the request line is no longer than the buffer; after
`_parseRequest` every counted path item and every counted argument label is an offset below
the length of the request line; the value of a counted argument is the pointer that the
entry held before the parse (the parse did not set it) or an offset below the length of the
request line; and `_version` is `http + 5` where `http` is `0` or an offset below the
length of the request line. -/
theorem token_positions (maxP maxA : Nat) (s : Server) :
    strlen s._buffer ≤ (_parseRequest maxP maxA s).2._buffer.length ∧
    (∀ j, j < pathCount (_parseRequest maxP maxA s).2 →
      ∃ off, off < strlen s._buffer ∧ path (_parseRequest maxP maxA s).2 j = some off) ∧
    (∀ j, j < argsCount (_parseRequest maxP maxA s).2 →
      ∃ off, off < strlen s._buffer ∧
        ((_parseRequest maxP maxA s).2._args j).label = some off) ∧
    (∀ j, j < argsCount (_parseRequest maxP maxA s).2 →
      ((_parseRequest maxP maxA s).2._args j).value = (s._args j).value ∨
      ∃ off, off < strlen s._buffer ∧
        ((_parseRequest maxP maxA s).2._args j).value = some off) ∧
    (∃ http, (_parseRequest maxP maxA s).2._version = some (http + 5) ∧
      (http = 0 ∨ http < strlen s._buffer)) := by
  obtain ⟨h1, h2, h3, _, h5, _⟩ := parseLoop_recorded maxP maxA s
  refine ⟨?_, ?_, ?_, ?_, ?_⟩
  · rw [parse_buffer_length]; exact strlen_le _
  · intro j hj
    obtain ⟨off, ho, he⟩ := h1 j hj
    refine ⟨off, ho, ?_⟩
    have hj2 : j < (_parseRequest maxP maxA s).2._pathCount := hj
    unfold path
    rw [if_pos hj2]
    exact he
  · intro j hj
    exact h2 j hj
  · intro j hj
    exact h3 j hj
  · exact ⟨(parseLoop maxP maxA s).http, rfl, h5⟩

/-- With `MAX_PATHCOUNT = MAX_ARGSCOUNT = 4` and the 9-byte buffer `GET /a H` + terminator:
the parse succeeds, the request line has 8 bytes, and `_version` is offset 12, past the end
of the request line and of the buffer. -/
theorem version_past_the_line :
    (_parseRequest 4 4 (freshServer ("GET /a H".toList ++ [NUL]))).1 = true ∧
    strlen (freshServer ("GET /a H".toList ++ [NUL]))._buffer = 8 ∧
    (freshServer ("GET /a H".toList ++ [NUL]))._buffer.length = 9 ∧
    (_parseRequest 4 4 (freshServer ("GET /a H".toList ++ [NUL]))).2._version = some 12 := by
  decide

/-! ## The accessors `path( i)` and `path( i, pathItem)` -/

/-- Claim C11: for every server state, index `i` and candidate `c`: when `i` is not below
`_pathCount`, `path( i)` is `NULL`, `path( i, c)` is false and no entry of `_path` is read;
when `i` is below `_pathCount`, `path( i)` is the stored pointer `_path[i]`;
`path( i, c)` is true exactly when `i` is below `_pathCount` and `c` is a string equal to
the string at `_path[i]`; the only entry `path( i, c)` reads is `_path[i]` with `i` below
`_pathCount`.  After `_parseRequest`, `path( i)` is `NULL` exactly when `i` is not below
`_pathCount`. -/
theorem path_by_index (maxP maxA : Nat) (s : Server) (i : Nat) (c : Option (List Char)) :
    (pathCount s ≤ i → path s i = none ∧ pathEq s i c = false ∧ pathReads s i = []) ∧
    (i < pathCount s → path s i = s._path i) ∧
    (pathEq s i c = true ↔
      i < pathCount s ∧ ∃ w, c = some w ∧ cstrAt s._buffer (s._path i) = some w) ∧
    (∀ j ∈ pathReads s i, j = i ∧ j < pathCount s) ∧
    (path (_parseRequest maxP maxA s).2 i = none ↔
      pathCount (_parseRequest maxP maxA s).2 ≤ i) := by
  refine ⟨?_, ?_, ?_, ?_, ?_⟩
  · intro h
    have h2 : ¬ i < s._pathCount := Nat.not_lt.2 h
    simp [path, pathEq, pathReads, h2]
  · intro h
    have h2 : i < s._pathCount := h
    simp [path, h2]
  · unfold pathEq pathCount
    by_cases h : i < s._pathCount
    · rw [if_pos h]
      cases c with
      | none => simp [strCmp]
      | some w =>
        cases hq : cstrAt s._buffer (s._path i) with
        | none => simp [strCmp, h]
        | some v =>
          simp only [strCmp, beq_iff_eq, h, true_and, Option.some.injEq]
          constructor
          · intro e; exact ⟨w, rfl, e.symm⟩
          · rintro ⟨w2, e1, e2⟩; rw [e1, e2]
    · rw [if_neg h]
      simp [h]
  · intro j hj
    unfold pathReads at hj
    by_cases h : i < s._pathCount
    · rw [if_pos h] at hj
      have e : j = i := by simpa using hj
      exact ⟨e, by rw [e]; exact h⟩
    · rw [if_neg h] at hj
      simp at hj
  · constructor
    · intro h
      by_contra hlt
      have hlt2 : i < (_parseRequest maxP maxA s).2._pathCount := Nat.lt_of_not_le hlt
      obtain ⟨off, _, he⟩ := (parseLoop_recorded maxP maxA s).1 i hlt2
      have hp : path (_parseRequest maxP maxA s).2 i = some off := by
        unfold path
        rw [if_pos hlt2]
        exact he
      rw [hp] at h
      cases h
    · intro h
      have h2 : ¬ i < (_parseRequest maxP maxA s).2._pathCount := Nat.not_lt.2 h
      unfold path
      rw [if_neg h2]

/-- The buffer `OPTIONS *` parses to zero path segments, and `path( 0, "a")` is false on
it. -/
theorem path_by_index_witness :
    pathCount (_parseRequest 4 4 (freshServer ("OPTIONS *".toList ++ [NUL]))).2 = 0 ∧
    pathEq (_parseRequest 4 4 (freshServer ("OPTIONS *".toList ++ [NUL]))).2 0
      (some "a".toList) = false :=
  ⟨by decide,
   ((path_by_index 4 4 (_parseRequest 4 4 (freshServer ("OPTIONS *".toList ++ [NUL]))).2 0
      (some "a".toList)).1 (by decide)).2.1⟩

/-! ## The array writes of the buffer loop -/

theorem stepWrites_inBounds (maxP maxA : Nat) (s : PState) (i : Nat)
    (h : ModeInv maxP maxA (ctlOf s)) : ∀ x ∈ stepWrites s i, InBounds maxP maxA x := by
  obtain ⟨h1, h2, _, _⟩ := h
  unfold ArgsInv at h2
  simp only [ctlOf] at h1 h2
  intro x hx
  unfold stepWrites at hx
  cases hm : s.mode <;> rw [hm] at hx <;> simp only at hx
  · simp at hx
  · simp at hx
  · have hb := (h1 (by rw [hm]; decide)).1
    split_ifs at hx
    · simp at hx
    · simp only [List.mem_singleton] at hx
      rw [hx]
      exact hb
  · simp at hx
  · have hb := (h1 (by rw [hm]; decide)).2
    split_ifs at hx
    · simp at hx
    · simp only [List.mem_singleton] at hx
      rw [hx]
      exact hb
  · simp at hx
  · have hb := (h1 (by rw [hm]; decide)).2
    have h1a := h2 (Or.inr hm)
    simp only [List.mem_singleton] at hx
    rw [hx]
    show (0 : Int) ≤ (s.srv._argsCount : Int) - 1 ∧ (s.srv._argsCount : Int) - 1 < (maxA : Int)
    omega
  · simp at hx
  · simp at hx
  · simp at hx

theorem runWrites_inBounds (maxP maxA : Nat) (w : List Char) :
    ∀ (k : PState) (pre suf : List Char), ModeInv maxP maxA (ctlOf k) →
      ∀ x ∈ runWrites maxP maxA (withBuf k (pre ++ w ++ suf))
        (List.range' pre.length w.length), InBounds maxP maxA x := by
  induction w with
  | nil => intro k pre suf _ x hx; simp [runWrites] at hx
  | cons c w ih =>
    intro k pre suf hk x hx
    have h1 : withBuf k (pre ++ c :: w ++ suf) = emb pre (w ++ suf) (k, c) := by
      simp [emb]
    have h2 : emb pre (w ++ suf) (stepK maxP maxA pre.length (k, c)) =
        withBuf (stepK maxP maxA pre.length (k, c)).1
          ((pre ++ [(stepK maxP maxA pre.length (k, c)).2]) ++ w ++ suf) := by
      simp [emb]
    simp only [List.length_cons, List.range'_succ, runWrites, List.mem_append] at hx
    rcases hx with hx | hx
    · exact stepWrites_inBounds maxP maxA (withBuf k (pre ++ c :: w ++ suf)) pre.length hk x hx
    · rw [h1, step_emb, h2] at hx
      have hk2 : ModeInv maxP maxA (ctlOf (stepK maxP maxA pre.length (k, c)).1) := by
        rw [ctlOf_stepK]; exact stepC_modeInv maxP maxA _ c hk
      have h3 := ih (stepK maxP maxA pre.length (k, c)).1
        (pre ++ [(stepK maxP maxA pre.length (k, c)).2]) suf hk2 x
      simp only [List.length_append, List.length_singleton] at h3
      exact h3 hx

/-- Claim C17: with `MAX_PATHCOUNT >= 1` and `MAX_ARGSCOUNT >= 1`, every write that
`_parseRequest` makes to `_path` is at an index below `MAX_PATHCOUNT`, every write of a
label is at an index below `MAX_ARGSCOUNT`, every write of a value is at the index
`_argsCount - 1`, which is not negative and is below `MAX_ARGSCOUNT`; and after the parse,
failed or not, `_pathCount <= MAX_PATHCOUNT` and `_argsCount <= MAX_ARGSCOUNT`. -/
theorem writes_in_bounds (maxP maxA : Nat) (hP : 0 < maxP) (hA : 0 < maxA) (s : Server) :
    (∀ x ∈ parseWrites maxP maxA s, InBounds maxP maxA x) ∧
    pathCount (_parseRequest maxP maxA s).2 ≤ maxP ∧
    argsCount (_parseRequest maxP maxA s).2 ≤ maxA := by
  have h0 : ModeInv maxP maxA (ctlOf (initK s)) := modeInv_init maxP maxA hP hA
  constructor
  · have h := runWrites_inBounds maxP maxA (cstr s._buffer 0) (initK s) []
      (s._buffer.dropWhile (fun c => c != NUL)) h0
    simp only [List.nil_append, List.length_nil] at h
    rw [cstr_append_dropWhile] at h
    unfold parseWrites strlen
    rw [List.range_eq_range']
    exact h
  · obtain ⟨_, hp, ha⟩ := parse_ctl maxP maxA s
    have hinv := runC_modeInv maxP maxA (cstr s._buffer 0) _ (modeInv_init maxP maxA hP hA)
    unfold pathCount argsCount
    rw [hp, ha]
    exact ⟨hinv.2.2.1, hinv.2.2.2⟩

set_option maxRecDepth 16000 in
/-- The array writes of the parse of `GET /a?x=1 HTTP/1.1` with both maxima 4: `_path[0]`,
the label of `_args[0]` and the value of `_args[0]`, all inside the arrays. -/
theorem writes_in_bounds_witness :
    parseWrites 4 4 (freshServer ("GET /a?x=1 HTTP/1.1".toList ++ [NUL])) =
      [ArrayWrite.pathAt 0, ArrayWrite.labelAt 0, ArrayWrite.valueAt 0] ∧
    ((∀ x ∈ parseWrites 4 4 (freshServer ("GET /a?x=1 HTTP/1.1".toList ++ [NUL])),
        InBounds 4 4 x) ∧
      pathCount (_parseRequest 4 4 (freshServer ("GET /a?x=1 HTTP/1.1".toList ++ [NUL]))).2 ≤ 4 ∧
      argsCount (_parseRequest 4 4 (freshServer ("GET /a?x=1 HTTP/1.1".toList ++ [NUL]))).2 ≤ 4) :=
  ⟨by decide,
   writes_in_bounds 4 4 (by decide) (by decide)
     (freshServer ("GET /a?x=1 HTTP/1.1".toList ++ [NUL]))⟩

/-! ## `HTTP_BAD_REQUEST` is absorbing -/

theorem step_bad (maxP maxA : Nat) (s : PState) (i : Nat)
    (h : s.mode = Mode.HTTP_BAD_REQUEST) : step maxP maxA s i = s := by
  obtain ⟨srv, mode, http⟩ := s
  simp only at h
  subst h
  simp [step, switchMode, capMode]

theorem run_bad (maxP maxA : Nat) (is : List Nat) :
    ∀ s : PState, s.mode = Mode.HTTP_BAD_REQUEST → run maxP maxA s is = s := by
  induction is with
  | nil => intro s _; rfl
  | cons i is ih =>
    intro s h
    simp only [run, List.foldl_cons]
    rw [step_bad maxP maxA s i h]
    exact ih s h

theorem run_append (maxP maxA : Nat) (s : PState) (xs ys : List Nat) :
    run maxP maxA s (xs ++ ys) = run maxP maxA (run maxP maxA s xs) ys := by
  simp [run, List.foldl_append]

theorem range_split (n m : Nat) (h : n ≤ m) :
    List.range m = List.range n ++ List.range' n (m - n) := by
  have h1 := List.range'_append_1 0 n (m - n)
  rw [Nat.zero_add] at h1
  rw [List.range_eq_range', List.range_eq_range', h1]
  congr 1
  omega

/-- Claim C18: when the mode is `HTTP_BAD_REQUEST` after the loop bodies at the indices
below `n`, the loop bodies at the further indices leave the whole working state (the buffer,
both counts, the arrays `_path` and `_args`, `http` and the mode) as it is then, they write
to neither array, and `_parseRequest` returns `false`. -/
theorem bad_request_absorbing (maxP maxA : Nat) (s : Server) (n : Nat)
    (hn : n ≤ strlen s._buffer)
    (hbad : (run maxP maxA (initK s) (List.range n)).mode = Mode.HTTP_BAD_REQUEST) :
    (∀ m, n ≤ m →
      run maxP maxA (initK s) (List.range m) = run maxP maxA (initK s) (List.range n)) ∧
    (∀ i, stepWrites (run maxP maxA (initK s) (List.range n)) i = []) ∧
    parseLoop maxP maxA s = run maxP maxA (initK s) (List.range n) ∧
    (_parseRequest maxP maxA s).1 = false ∧
    (_parseRequest maxP maxA s).2 = finish (run maxP maxA (initK s) (List.range n)) := by
  have hall : ∀ m, n ≤ m →
      run maxP maxA (initK s) (List.range m) = run maxP maxA (initK s) (List.range n) := by
    intro m hm
    rw [range_split n m hm, run_append]
    exact run_bad maxP maxA _ _ hbad
  have hloop : parseLoop maxP maxA s = run maxP maxA (initK s) (List.range n) :=
    hall (strlen s._buffer) hn
  refine ⟨hall, ?_, hloop, ?_, ?_⟩
  · intro i
    unfold stepWrites
    rw [hbad]
  · unfold _parseRequest
    simp only [hloop, hbad]
    decide
  · unfold _parseRequest
    simp only [hloop]

set_option maxRecDepth 16000 in
/-- The buffer `GET /a? HTTP/1.1`: the mode is `HTTP_BAD_REQUEST` after the byte at index 7
(the space that follows `?`), and the parse fails. -/
theorem bad_request_absorbing_witness :
    (run 4 4 (initK (freshServer ("GET /a? HTTP/1.1".toList ++ [NUL])))
      (List.range 7)).mode = Mode.SERVER_ARGS_INIT ∧
    (run 4 4 (initK (freshServer ("GET /a? HTTP/1.1".toList ++ [NUL])))
      (List.range 8)).mode = Mode.HTTP_BAD_REQUEST ∧
    (_parseRequest 4 4 (freshServer ("GET /a? HTTP/1.1".toList ++ [NUL]))).1 = false :=
  ⟨by decide, by decide,
   (bad_request_absorbing 4 4 (freshServer ("GET /a? HTTP/1.1".toList ++ [NUL])) 8
      (by decide) (by decide)).2.2.2.1⟩

/-! ## The first byte of an argument value -/

set_option maxRecDepth 16000 in
/-- Claim C16, evaluated on its two request lines with `MAX_PATHCOUNT = MAX_ARGSCOUNT = 4`
on a cleared server.  `case SERVER_ARGS_NEXT` records the value and leaves the `switch`
without looking at the byte under the index.  The buffer `GET /a?x=&y=2 HTTP/1.1` parses to
one argument, with label `x` and value `2`: the `&` after `=` starts no argument.  The
buffer `GET /a?x= HTTP/1.1` parses to one argument with label `x` and value ` HTTP/1.1`:
the space after `=` does not start the version, `_version` stays at offset 5 and reads
`a`. -/
theorem value_start_not_scanned :
    ((_parseRequest 4 4 (freshServer ("GET /a?x=&y=2 HTTP/1.1".toList ++ [NUL]))).1 = true ∧
     argsCount (_parseRequest 4 4 (freshServer ("GET /a?x=&y=2 HTTP/1.1".toList ++ [NUL]))).2
       = 1 ∧
     argLabel (_parseRequest 4 4 (freshServer ("GET /a?x=&y=2 HTTP/1.1".toList ++ [NUL]))).2 0
       = some "x".toList ∧
     argValue (_parseRequest 4 4 (freshServer ("GET /a?x=&y=2 HTTP/1.1".toList ++ [NUL]))).2 0
       = some "2".toList) ∧
    ((_parseRequest 4 4 (freshServer ("GET /a?x= HTTP/1.1".toList ++ [NUL]))).1 = true ∧
     argsCount (_parseRequest 4 4 (freshServer ("GET /a?x= HTTP/1.1".toList ++ [NUL]))).2
       = 1 ∧
     argLabel (_parseRequest 4 4 (freshServer ("GET /a?x= HTTP/1.1".toList ++ [NUL]))).2 0
       = some "x".toList ∧
     argValue (_parseRequest 4 4 (freshServer ("GET /a?x= HTTP/1.1".toList ++ [NUL]))).2 0
       = some " HTTP/1.1".toList ∧
     (_parseRequest 4 4 (freshServer ("GET /a?x= HTTP/1.1".toList ++ [NUL]))).2._version
       = some 5 ∧
     cstrAt (_parseRequest 4 4 (freshServer ("GET /a?x= HTTP/1.1".toList ++ [NUL]))).2._buffer
       (_parseRequest 4 4 (freshServer ("GET /a?x= HTTP/1.1".toList ++ [NUL]))).2._version
       = some "a".toList) := by
  decide

/-! ## The response writer -/

theorem sendHeader_on (d : Deps) (code : Int) (size : Nat) (t : Option (List Char))
    (s : Server) (hc : s.connected = true) (hh : s._header = true) :
    _sendHeader d code size t s =
      { s with sent := s.sent ++ specHeaderBlock d code size t, _header := false } := by
  unfold _sendHeader
  simp [hc, hh, CPRINT, specHeaderBlock, List.append_assoc]

theorem sendHeader_off (d : Deps) (code : Int) (size : Nat) (t : Option (List Char))
    (s : Server) (h : (s.connected && s._header) = false) :
    _sendHeader d code size t s = s := by
  unfold _sendHeader
  rw [h]
  rfl

theorem sendContent_on (c : List Char) (s : Server) (hc : s.connected = true) :
    _sendContent c s = { s with sent := s.sent ++ (c ++ "\r\n".toList) } := by
  unfold _sendContent
  simp [hc, CPRINT, List.append_assoc]

theorem sendContent_off (c : List Char) (s : Server) (hc : s.connected = false) :
    _sendContent c s = s := by
  unfold _sendContent
  simp [hc]

/-- Claim C13, as the code has it: on an open session with the header pending,
`response( code, content_type, c)` prints the header block with
`Content-Length: strlen( c) + 2`, then the bytes of `c` and the line terminator, which are
`strlen( c) + 2` bytes, and nothing else; the header is then no longer pending. -/
theorem content_length_declared (d : Deps) (s : Server) (code : Int)
    (content_type : Option (List Char)) (c : List Char)
    (hc : s.connected = true) (hh : s._header = true)
    (hlen : c.length + 2 < 2 ^ d.sizeBits) :
    (responseContent d code content_type c s).sent =
      s.sent ++ specHeaderBlock d code (c.length + 2) content_type ++ (c ++ "\r\n".toList) ∧
    (c ++ "\r\n".toList).length = c.length + 2 ∧
    (responseContent d code content_type c s)._header = false := by
  unfold responseContent
  rw [Nat.mod_eq_of_lt hlen, sendHeader_on d code _ content_type s hc hh,
    sendContent_on c _ (show ({ s with
      sent := s.sent ++ specHeaderBlock d code (c.length + 2) content_type,
      _header := false } : Server).connected = true from hc)]
  refine ⟨rfl, ?_, rfl⟩
  simp

set_option maxRecDepth 16000 in
/-- The response with code 200, content type `application/json` and the 11-byte body
`\x7b"ok":true\x7d` on an open session: one status line, and `Content-Length: 13`. -/
theorem content_length_declared_witness :
    "\x7b\x22ok\x22:true\x7d".toList.length = 11 ∧
    ((responseContent stdDeps 200 (some "application/json".toList)
        "\x7b\x22ok\x22:true\x7d".toList openServer).sent =
      openServer.sent ++
        specHeaderBlock stdDeps 200 ("\x7b\x22ok\x22:true\x7d".toList.length + 2)
          (some "application/json".toList) ++
        ("\x7b\x22ok\x22:true\x7d".toList ++ "\r\n".toList) ∧
     ("\x7b\x22ok\x22:true\x7d".toList ++ "\r\n".toList).length =
       "\x7b\x22ok\x22:true\x7d".toList.length + 2 ∧
     (responseContent stdDeps 200 (some "application/json".toList)
        "\x7b\x22ok\x22:true\x7d".toList openServer)._header = false) :=
  ⟨by decide,
   content_length_declared stdDeps openServer 200 (some "application/json".toList)
     "\x7b\x22ok\x22:true\x7d".toList (by decide) (by decide) (by decide)⟩

set_option maxRecDepth 16000 in
/-- The response with code 200, content type `application/json` and body
`\x7b"ok":true\x7d`: the body has 11 bytes and the header block says `Content-Length: 13`,
not 14. -/
theorem json_body_declares_thirteen :
    "\x7b\x22ok\x22:true\x7d".toList.length = 11 ∧
    (responseContent stdDeps 200 (some "application/json".toList)
        "\x7b\x22ok\x22:true\x7d".toList openServer).sent =
      ("HTTP/1.1 200 OK\r\n" ++
       "User-Agent: Arduino-ethernet\r\n" ++
       "Content-Length: 13\r\n" ++
       "Content-Type: application/json\r\n" ++
       "Connection: close\r\n" ++
       "\r\n" ++
       "\x7b\x22ok\x22:true\x7d\r\n").toList := by
  decide

theorem sendHeader_connected (d : Deps) (code : Int) (size : Nat) (t : Option (List Char))
    (s : Server) : (_sendHeader d code size t s).connected = s.connected := by
  by_cases h : (s.connected && s._header) = true
  · have hc : s.connected = true := by
      cases h1 : s.connected <;> simp_all
    have hh : s._header = true := by
      cases h1 : s._header <;> simp_all
    rw [sendHeader_on d code size t s hc hh]
  · have h2 : (s.connected && s._header) = false := by
      cases h1 : (s.connected && s._header) <;> simp_all
    rw [sendHeader_off d code size t s h2]

theorem sendContent_header (c : List Char) (s : Server) :
    (_sendContent c s)._header = s._header := by
  unfold _sendContent
  split <;> rfl

theorem sendContent_sent (c : List Char) (s : Server) :
    (_sendContent c s).sent =
      s.sent ++ (if s.connected then c ++ "\r\n".toList else []) := by
  unfold _sendContent
  by_cases h : s.connected = true
  · simp [h, CPRINT, List.append_assoc]
  · simp [h]

theorem sendHeader_sent (d : Deps) (code : Int) (size : Nat) (t : Option (List Char))
    (s : Server) :
    (_sendHeader d code size t s).sent =
      s.sent ++ (_sendHeader d code size t s).sent.drop s.sent.length := by
  by_cases h : (s.connected && s._header) = true
  · have hc : s.connected = true := by
      cases h1 : s.connected <;> simp_all
    have hh : s._header = true := by
      cases h1 : s._header <;> simp_all
    rw [sendHeader_on d code size t s hc hh]
    simp
  · have h2 : (s.connected && s._header) = false := by
      cases h1 : (s.connected && s._header) <;> simp_all
    rw [sendHeader_off d code size t s h2]
    simp

/-- The header after the call is pending exactly when it was pending and the call's
`_sendHeader` printed nothing. -/
theorem exec_header (d : Deps) (s : Server) (c : Call) :
    (headerBytes d s c = [] → (exec d s c)._header = s._header) ∧
    (headerBytes d s c ≠ [] → (exec d s c)._header = false) := by
  have key : ∀ code size t,
      ((_sendHeader d code size t s).sent.drop s.sent.length = [] →
        (_sendHeader d code size t s)._header = s._header) ∧
      ((_sendHeader d code size t s).sent.drop s.sent.length ≠ [] →
        (_sendHeader d code size t s)._header = false) := by
    intro code size t
    by_cases h : (s.connected && s._header) = true
    · have hc : s.connected = true := by
        cases h1 : s.connected <;> simp_all
      have hh : s._header = true := by
        cases h1 : s._header <;> simp_all
      rw [sendHeader_on d code size t s hc hh]
      constructor
      · intro h0
        simp [specHeaderBlock] at h0
      · intro _; rfl
    · have h2 : (s.connected && s._header) = false := by
        cases h1 : (s.connected && s._header) <;> simp_all
      rw [sendHeader_off d code size t s h2]
      constructor
      · intro _; rfl
      · intro h0; simp at h0
  cases c with
  | response code => exact key code _ _
  | responseType code t => exact key code _ _
  | responseContent code t x =>
    simp only [headerBytes, headerArgs, exec, responseContent, sendContent_header]
    exact key code _ _
  | responseFlash code t x =>
    simp only [headerBytes, headerArgs, exec, responseFlash, sendContent_header]
    exact key code _ _
  | sendHeader code size t => exact key code _ _
  | sendContent x =>
    simp only [headerBytes, headerArgs, exec, sendContent_header]
    simp
  | disconnect =>
    simp only [headerBytes, headerArgs, exec, disconnect]
    constructor
    · intro _; split <;> rfl
    · intro h0; exact absurd rfl h0

theorem headerBytes_sent (d : Deps) (s : Server) (c : Call)
    (h : (s.connected && s._header) = false) : headerBytes d s c = [] := by
  unfold headerBytes
  cases headerArgs d c with
  | none => rfl
  | some a =>
    simp only
    rw [sendHeader_off d _ _ _ s h]
    simp

theorem headersWritten_sent (d : Deps) (cs : List Call) :
    ∀ s : Server, s._header = false → headersWritten d s cs = 0 := by
  induction cs with
  | nil => intro s _; rfl
  | cons c cs ih =>
    intro s h
    have h0 : headerBytes d s c = [] := headerBytes_sent d s c (by simp [h])
    have h1 : (exec d s c)._header = false := by
      rw [(exec_header d s c).1 h0]; exact h
    simp only [headersWritten, h0, if_true]
    rw [ih _ h1]

theorem headersWritten_le (d : Deps) (cs : List Call) :
    ∀ s : Server, headersWritten d s cs ≤ 1 := by
  induction cs with
  | nil => intro s; exact Nat.zero_le _
  | cons c cs ih =>
    intro s
    by_cases h0 : headerBytes d s c = []
    · simp only [headersWritten, h0, if_true]
      have := ih (exec d s c)
      omega
    · simp only [headersWritten, h0, if_false]
      rw [headersWritten_sent d cs _ ((exec_header d s c).2 h0)]

/-- Claim C14: `_parseRequest` leaves the header pending.  A call of `response` or
`_sendHeader` on an open session with the header pending prints the header block, once,
and leaves the header sent; a call made when the header is sent, or when the session is
closed, prints no header bytes and leaves the header state as it is; what a call prints is
its header bytes followed by its content bytes; so in every sequence of calls at most one
call prints header bytes. -/
theorem header_at_most_once (d : Deps) (maxP maxA : Nat) :
    (∀ s, (_parseRequest maxP maxA s).2._header = true) ∧
    (∀ s c, (exec d s c).sent = s.sent ++ headerBytes d s c ++ contentBytes s c) ∧
    (∀ s c code size t, headerArgs d c = some (code, size, t) →
      s.connected = true → s._header = true →
      headerBytes d s c = specHeaderBlock d code size t ∧ (exec d s c)._header = false) ∧
    (∀ s c, s._header = false →
      headerBytes d s c = [] ∧ (exec d s c)._header = false) ∧
    (∀ s c, s.connected = false →
      headerBytes d s c = [] ∧ (exec d s c)._header = s._header) ∧
    (∀ s cs, headersWritten d s cs ≤ 1) := by
  refine ⟨fun s => rfl, ?_, ?_, ?_, ?_, fun s cs => headersWritten_le d cs s⟩
  · intro s c
    cases c with
    | response code =>
      simp only [exec, response, headerBytes, headerArgs, contentBytes, contentArg,
        List.append_nil]
      exact sendHeader_sent d _ _ _ s
    | responseType code t =>
      simp only [exec, responseType, headerBytes, headerArgs, contentBytes, contentArg,
        List.append_nil]
      exact sendHeader_sent d _ _ _ s
    | responseContent code t x =>
      simp only [exec, responseContent, headerBytes, headerArgs, contentBytes, contentArg]
      rw [sendContent_sent, sendContent_sent, sendHeader_connected,
        ← sendHeader_sent d _ _ _ s]
      simp
    | responseFlash code t x =>
      simp only [exec, responseFlash, headerBytes, headerArgs, contentBytes, contentArg]
      rw [sendContent_sent, sendContent_sent, sendHeader_connected,
        ← sendHeader_sent d _ _ _ s]
      simp
    | sendHeader code size t =>
      simp only [exec, headerBytes, headerArgs, contentBytes, contentArg, List.append_nil]
      exact sendHeader_sent d _ _ _ s
    | sendContent x =>
      simp only [exec, headerBytes, headerArgs, contentBytes, contentArg, List.append_nil]
      rw [sendContent_sent]
      simp
    | disconnect =>
      simp only [exec, disconnect, headerBytes, headerArgs, contentBytes, contentArg,
        List.append_nil]
      split <;> rfl
  · intro s c code size t ha hc hh
    have hb : headerBytes d s c = specHeaderBlock d code size t := by
      unfold headerBytes
      rw [ha]
      simp only
      rw [sendHeader_on d code size t s hc hh]
      simp
    refine ⟨hb, (exec_header d s c).2 ?_⟩
    rw [hb]
    simp [specHeaderBlock]
  · intro s c h
    have h0 : headerBytes d s c = [] := headerBytes_sent d s c (by simp [h])
    exact ⟨h0, by rw [(exec_header d s c).1 h0]; exact h⟩
  · intro s c h
    have h0 : headerBytes d s c = [] := headerBytes_sent d s c (by simp [h])
    exact ⟨h0, (exec_header d s c).1 h0⟩

/-! ## The function `handle()` on a malformed request -/

theorem stepK_client (maxP maxA i : Nat) (k : PState) (c : Char) :
    (stepK maxP maxA i (k, c)).1.srv.connected = k.srv.connected ∧
    (stepK maxP maxA i (k, c)).1.srv.sent = k.srv.sent := by
  unfold stepK capMode
  simp only
  cases hm : k.mode with
  | SERVER_METH_READ => simp only [switchK, hm, cutK]; split_ifs <;> simp
  | SERVER_METH_DONE => simp only [switchK, hm, cutK]; split_ifs <;> simp
  | SERVER_PATH_INIT => simp only [switchK, hm, pathReadK_eq]; split_ifs <;> simp
  | SERVER_PATH_READ => simp only [switchK, hm, pathReadK_eq]; split_ifs <;> simp
  | SERVER_ARGS_INIT => simp only [switchK, hm, argsReadK_eq]; split_ifs <;> simp
  | SERVER_ARGS_READ => simp only [switchK, hm, argsReadK_eq]; split_ifs <;> simp
  | SERVER_ARGS_NEXT => simp only [switchK, hm]; simp
  | SERVER_HTTP_INIT => simp only [switchK, hm, httpReadK]; split_ifs <;> simp
  | SERVER_HTTP_READ => simp only [switchK, hm, httpReadK]; split_ifs <;> simp
  | HTTP_BAD_REQUEST => simp only [switchK, hm]; simp

theorem scanK_client (maxP maxA : Nat) (w : List Char) :
    ∀ (k : PState) (i : Nat),
      (scanK maxP maxA k i w).1.srv.connected = k.srv.connected ∧
      (scanK maxP maxA k i w).1.srv.sent = k.srv.sent := by
  induction w with
  | nil => intro k i; exact ⟨rfl, rfl⟩
  | cons c w ih =>
    intro k i
    rw [scanK_cons]
    obtain ⟨h1, h2⟩ := ih (stepK maxP maxA i (k, c)).1 (i + 1)
    obtain ⟨h3, h4⟩ := stepK_client maxP maxA i k c
    exact ⟨h1.trans h3, h2.trans h4⟩

/-- The tokenizer does not touch the client: `_parseRequest` leaves the session and the
bytes sent as they are. -/
theorem parse_client (maxP maxA : Nat) (s : Server) :
    (_parseRequest maxP maxA s).2.connected = s.connected ∧
    (_parseRequest maxP maxA s).2.sent = s.sent := by
  obtain ⟨h1, h2⟩ := scanK_client maxP maxA (cstr s._buffer 0) (initK s) 0
  simp only [_parseRequest, finish, parseLoop_scanK]
  exact ⟨h1, h2⟩

theorem readLoop_line (line : List Char) (term : Char) (rest : List Char)
    (hterm : term = '\r' ∨ term = '\n') :
    ∀ (i : Nat) (s : Server), (∀ c ∈ line, ¬ (c = '\r' ∨ c = '\n')) →
      (readLoop (line ++ term :: rest) i s).connected = s.connected ∧
      (readLoop (line ++ term :: rest) i s).sent = s.sent := by
  induction line with
  | nil =>
    intro i s _
    simp [readLoop, hterm]
  | cons c line ih =>
    intro i s h
    have hc : ¬ (c = '\r' ∨ c = '\n') := h c (List.mem_cons_self _ _)
    simp only [List.cons_append, readLoop, if_neg hc]
    exact ih (i + 1) _ (fun x hx => h x (List.mem_cons_of_mem _ hx))

/-- Claim C15, as the code has it: when a client sends a request line that ends in a
carriage-return or a newline and `_parseRequest` fails on it, `handle()` sends one
response, the header block with code 400, and returns with the session still open:
`disconnect()` is not reached. -/
theorem bad_request_leaves_session_open (d : Deps) (maxP maxA : Nat)
    (tasks : List SimpleWebServerTask) (line : List Char) (term : Char) (rest : List Char)
    (s : Server)
    (hline : ∀ c ∈ line, ¬ (c = '\r' ∨ c = '\n'))
    (hterm : term = '\r' ∨ term = '\n')
    (hfail : (_parseRequest maxP maxA
      (readLoop (line ++ term :: rest) 0 (accept s))).1 = false) :
    (handle d maxP maxA tasks (some (line ++ term :: rest)) s).1.sent =
      specHeaderBlock d 400 d.defaultSize d.defaultType ∧
    (handle d maxP maxA tasks (some (line ++ term :: rest)) s).1.connected = true := by
  obtain ⟨h1, h2⟩ := readLoop_line line term rest hterm 0 (accept s) hline
  obtain ⟨h3, h4⟩ := parse_client maxP maxA (readLoop (line ++ term :: rest) 0 (accept s))
  have hc : (_parseRequest maxP maxA
      (readLoop (line ++ term :: rest) 0 (accept s))).2.connected = true := by
    rw [h3, h1]; rfl
  have hs : (_parseRequest maxP maxA
      (readLoop (line ++ term :: rest) 0 (accept s))).2.sent = [] := by
    rw [h4, h2]; rfl
  have hh : (_parseRequest maxP maxA
      (readLoop (line ++ term :: rest) 0 (accept s))).2._header = true := rfl
  have hcon : connect d maxP maxA (some (line ++ term :: rest)) s =
      (false, response d 400 (_parseRequest maxP maxA
        (readLoop (line ++ term :: rest) 0 (accept s))).2) := by
    simp only [connect, hfail]
    rfl
  simp only [handle, hcon, response]
  rw [sendHeader_on d 400 _ _ _ hc hh]
  simp only [hs, List.nil_append, true_and]
  exact hc

set_option maxRecDepth 16000 in
/-- The request `GET / HTTP/1.1` + CR LF, sent to a server with a cleared 20-byte buffer,
`MAX_PATHCOUNT = MAX_ARGSCOUNT = 4` and no task: the parse fails, `handle()` sends the
header block with `400 Bad Request`, and the session is open when it returns. -/
theorem bad_request_leaves_session_open_witness :
    (_parseRequest 4 4 (readLoop ("GET / HTTP/1.1".toList ++ '\r' :: "\n".toList) 0
      (accept (freshServer (List.replicate 20 NUL))))).1 = false ∧
    specHeaderBlock stdDeps 400 stdDeps.defaultSize stdDeps.defaultType =
      ("HTTP/1.1 400 Bad Request\r\n" ++
       "User-Agent: Arduino-ethernet\r\n" ++
       "Content-Length: 0\r\n" ++
       "Content-Type: text/html\r\n" ++
       "Connection: close\r\n" ++
       "\r\n").toList ∧
    ((handle stdDeps 4 4 [] (some ("GET / HTTP/1.1".toList ++ '\r' :: "\n".toList))
        (freshServer (List.replicate 20 NUL))).1.sent =
      specHeaderBlock stdDeps 400 stdDeps.defaultSize stdDeps.defaultType ∧
     (handle stdDeps 4 4 [] (some ("GET / HTTP/1.1".toList ++ '\r' :: "\n".toList))
        (freshServer (List.replicate 20 NUL))).1.connected = true) :=
  ⟨by decide, by decide,
   bad_request_leaves_session_open stdDeps 4 4 [] "GET / HTTP/1.1".toList '\r' "\n".toList
     (freshServer (List.replicate 20 NUL)) (by decide) (by decide) (by decide)⟩

/-! ## An argument value with a further `=` -/

theorem afterArg_eq : afterArg '=' = Mode.SERVER_ARGS_NEXT := by decide

/-- A label and the `=` that closes it, met in mode `SERVER_ARGS_INIT` with room for one
more argument. -/
theorem scanK_label (maxP maxA : Nat) (k : PState) (i : Nat) (l : List Char)
    (hm : k.mode = Mode.SERVER_ARGS_INIT)
    (hp : k.srv._pathCount < maxP) (ha : k.srv._argsCount + 1 < maxA)
    (hne : l ≠ []) (hl : Free [' ', '&', '='] l) :
    scanK maxP maxA k i (l ++ ['=']) =
      (setMode (recLabel k i) Mode.SERVER_ARGS_NEXT, l ++ [NUL]) := by
  cases l with
  | nil => exact absurd rfl hne
  | cons c l =>
    obtain ⟨hc, hl2⟩ := free_cons hl
    have hok : CountsOK maxP maxA (recLabel k i) := ⟨hp, ha⟩
    rw [List.cons_append, scanK_cons, stepK_ainit maxP maxA i k c hm hp ha hc]
    simp only
    rw [scanK_append,
      scanK_plain maxP maxA (recLabel k i) l
        (fun y hy j => stepK_args_plain maxP maxA j _ y rfl hok (hl2 y hy))]
    simp only
    rw [scanK_cons, stepK_args_delim maxP maxA _ _ '=' rfl hok (Or.inl rfl)]
    simp [scanK_nil, afterArg_eq]

/-- A value and the delimiter that closes it, met in mode `SERVER_ARGS_NEXT`: the first
byte is recorded as the value and is not compared with anything; `=` is one of the
delimiters that close the value. -/
theorem scanK_value (maxP maxA : Nat) (k : PState) (i : Nat) (v : List Char) (d : Char)
    (hm : k.mode = Mode.SERVER_ARGS_NEXT) (hok : CountsOK maxP maxA k)
    (hne : v ≠ []) (hv : Free [' ', '&', '='] v) (hd : d = '=' ∨ d = '&' ∨ d = ' ') :
    scanK maxP maxA k i (v ++ [d]) = (setMode (recValue k i) (afterArg d), v ++ [NUL]) := by
  cases v with
  | nil => exact absurd rfl hne
  | cons c v =>
    obtain ⟨_, hv2⟩ := free_cons hv
    have hok2 : CountsOK maxP maxA (recValue k i) := hok
    rw [List.cons_append, scanK_cons, stepK_anext maxP maxA i k c hm hok]
    simp only
    rw [scanK_append,
      scanK_plain maxP maxA (recValue k i) v
        (fun y hy j => stepK_args_plain maxP maxA j _ y rfl hok2 (hv2 y hy))]
    simp only
    rw [scanK_cons, stepK_args_delim maxP maxA _ _ d rfl hok2 hd]
    simp [scanK_nil]

/-- The text `l=v1=v2` and the delimiter that closes it, met in mode `SERVER_ARGS_INIT`
with room for one more argument: both `=` are overwritten and the value is recorded
twice. -/
theorem scanK_arg_again (maxP maxA : Nat) (k : PState) (i : Nat) (l v1 v2 : List Char)
    (d : Char) (hm : k.mode = Mode.SERVER_ARGS_INIT)
    (hp : k.srv._pathCount < maxP) (ha : k.srv._argsCount + 1 < maxA)
    (hl : l ≠ []) (hlf : Free [' ', '&', '='] l)
    (hv1 : v1 ≠ []) (hv1f : Free [' ', '&', '='] v1)
    (hv2 : v2 ≠ []) (hv2f : Free [' ', '&', '='] v2) (hd : d = '&' ∨ d = ' ') :
    scanK maxP maxA k i (l ++ '=' :: (v1 ++ '=' :: (v2 ++ [d]))) =
      (setMode (recAgain k i l v1) (afterArg d), l ++ NUL :: (v1 ++ NUL :: (v2 ++ [NUL]))) := by
  have e : l ++ '=' :: (v1 ++ '=' :: (v2 ++ [d])) =
      (l ++ ['=']) ++ ((v1 ++ ['=']) ++ (v2 ++ [d])) := by simp
  have hokA : CountsOK maxP maxA (setMode (recLabel k i) Mode.SERVER_ARGS_NEXT) := ⟨hp, ha⟩
  have hokB : CountsOK maxP maxA
      (setMode (recValue (recLabel k i) (i + l.length + 1)) Mode.SERVER_ARGS_NEXT) := ⟨hp, ha⟩
  have e1 : i + (l ++ ['=']).length = i + l.length + 1 := by simp; omega
  have e2 : i + l.length + 1 + (v1 ++ ['=']).length = i + l.length + 1 + v1.length + 1 := by
    simp; omega
  rw [e, scanK_append, scanK_label maxP maxA k i l hm hp ha hl hlf]
  simp only
  rw [e1, scanK_append,
    scanK_value maxP maxA _ (i + l.length + 1) v1 '=' rfl hokA hv1 hv1f (Or.inl rfl)]
  simp only [afterArg_eq]
  have e3 : recValue (setMode (recLabel k i) Mode.SERVER_ARGS_NEXT) (i + l.length + 1) =
      recValue (recLabel k i) (i + l.length + 1) := rfl
  rw [e2, e3, scanK_value maxP maxA _ (i + l.length + 1 + v1.length + 1) v2 d rfl hokB hv2 hv2f
    (Or.inr hd)]
  simp [recAgain, setMode, recValue]

theorem recAgain_facts (k : PState) (i : Nat) (l v1 : List Char) :
    (recAgain k i l v1).srv._pathCount = k.srv._pathCount ∧
    (recAgain k i l v1).srv._argsCount = k.srv._argsCount + 1 ∧
    (recAgain k i l v1).srv._args k.srv._argsCount =
      { label := some i, value := some (i + l.length + 1 + v1.length + 1) } ∧
    (∀ q, q ≠ k.srv._argsCount → (recAgain k i l v1).srv._args q = k.srv._args q) ∧
    (recAgain k i l v1).srv._path = k.srv._path ∧ (recAgain k i l v1).http = k.http := by
  refine ⟨rfl, rfl, ?_, ?_, rfl, rfl⟩
  · simp [recAgain, recValue, recLabel]
  · intro q hq
    simp [recAgain, recValue, recLabel, Function.update_noteq hq]

theorem renderQuery_split (pre post : List (List Char × Option (List Char)))
    (x : List Char × Option (List Char)) :
    ∀ d : Char, renderQuery d (pre ++ x :: post) =
      d :: (ampArgs pre ++ (renderArg x ++ renderQuery '&' post)) := by
  induction pre with
  | nil => intro d; simp [renderQuery, ampArgs]
  | cons a pre ih => intro d; simp [renderQuery, ampArgs, ih]

theorem length_ampArgs (xs : List (List Char × Option (List Char))) :
    (ampArgs xs).length = (nulArgs xs).length := by
  induction xs with
  | nil => rfl
  | cons x xs ih => simp [ampArgs, nulArgs, length_arg, ih]

/-- The arguments `xs`, each one closed by `&`, met in mode `SERVER_ARGS_INIT` with room
for all of them and one more. -/
theorem scanK_amps (maxP maxA : Nat) (xs : List (List Char × Option (List Char))) :
    ∀ (k : PState) (i : Nat),
      k.mode = Mode.SERVER_ARGS_INIT →
      k.srv._pathCount < maxP → k.srv._argsCount + xs.length < maxA →
      (∀ y ∈ xs, ArgTok y) →
      scanK maxP maxA k i (ampArgs xs) = (argsState k i xs, nulArgs xs) := by
  induction xs with
  | nil => intro k i _ _ _ _; rfl
  | cons x xs ih =>
    intro k i hm hp ha h
    obtain ⟨hne, hx⟩ := h x (List.mem_cons_self _ _)
    simp only [List.length_cons] at ha
    have e : ampArgs (x :: xs) = (renderArg x ++ ['&']) ++ ampArgs xs := by
      simp [ampArgs]
    have e2 : i + (renderArg x ++ ['&']).length = i + (nulArg x).length + 1 := by
      simp [length_arg]; omega
    obtain ⟨h3, h4⟩ := argRec_counts k i x
    rw [e, scanK_append,
      scanK_arg maxP maxA k i x '&' hm hp (by omega) hne hx (Or.inl rfl)]
    simp only [afterArg_amp]
    rw [e2, ih (setMode (argRec k i x) Mode.SERVER_ARGS_INIT) (i + (nulArg x).length + 1) rfl
      (by show (argRec k i x).srv._pathCount < maxP; rw [h3]; exact hp)
      (by show (argRec k i x).srv._argsCount + xs.length < maxA; rw [h4]; omega)
      (fun y hy => h y (List.mem_cons_of_mem _ hy))]
    simp [argsState, nulArgs]

theorem argsState_mode (xs : List (List Char × Option (List Char))) :
    ∀ (k : PState) (i : Nat), k.mode = Mode.SERVER_ARGS_INIT →
      (argsState k i xs).mode = Mode.SERVER_ARGS_INIT := by
  induction xs with
  | nil => intro k i h; exact h
  | cons x xs ih =>
    intro k i _
    exact ih (setMode (argRec k i x) Mode.SERVER_ARGS_INIT) _ rfl

/-- The working state and the buffer bytes after a request line that is well formed but
for one argument, written `l=v1=v2`. -/
theorem scanK_line_again (maxP maxA : Nat) (M : List Char) (segs : List (List Char))
    (pre post : List (List Char × Option (List Char))) (l v1 v2 V : List Char) (k : PState)
    (hm : k.mode = Mode.SERVER_METH_READ)
    (hp0 : k.srv._pathCount = 0) (ha0 : k.srv._argsCount = 0)
    (hM : Free [' '] M) (hne : segs ≠ []) (hsegs : ∀ x ∈ segs, SegOK x)
    (hpre : ∀ y ∈ pre, ArgTok y) (hpost : ∀ y ∈ post, ArgTok y)
    (hl : l ≠ []) (hlf : Free [' ', '&', '='] l)
    (hv1 : v1 ≠ []) (hv1f : Free [' ', '&', '='] v1)
    (hv2 : v2 ≠ []) (hv2f : Free [' ', '&', '='] v2) (hV : V ≠ [])
    (hp : segs.length < maxP) (ha : pre.length + 1 + post.length < maxA) :
    ∃ iP iV,
      scanK maxP maxA k 0
          (requestLine M segs (pre ++ (l, some (v1 ++ '=' :: v2)) :: post) V) =
        (recHttp
          (argsState
            (recAgain
              (argsState (segsState k (M.length + 2) segs)
                (M.length + 2 + (nulJoin segs).length) pre)
              (M.length + 2 + (nulJoin segs).length + (nulArgs pre).length) l v1)
            iP post) iV,
         M ++ NUL :: NUL :: (nulJoin segs ++ (nulArgs pre ++
           (l ++ NUL :: (v1 ++ NUL :: (v2 ++ NUL :: (nulArgs post ++ V.map crNul))))))) := by
  cases segs with
  | nil => exact absurd rfl hne
  | cons s ss =>
    simp only [List.length_cons] at hp
    have hok : CountsOK maxP maxA k := by
      unfold CountsOK; rw [hp0, ha0]; exact ⟨by omega, by omega⟩
    have hsc := segsState_counts (s :: ss) k (M.length + 2)
    rw [hp0, ha0] at hsc
    obtain ⟨hsc1, hsc2⟩ := hsc
    simp only [List.length_cons, Nat.zero_add] at hsc1
    have hseg : segsState (setMode k Mode.SERVER_PATH_INIT) (M.length + 2) (s :: ss) =
        segsState k (M.length + 2) (s :: ss) := rfl
    -- the state after the arguments before `l=v1=v2`
    obtain ⟨hpc1, hpc2⟩ := argsState_counts pre
      (setMode (segsState k (M.length + 2) (s :: ss)) Mode.SERVER_ARGS_INIT)
      (M.length + 2 + (nulJoin (s :: ss)).length)
    have hpc1b : (argsState
        (setMode (segsState k (M.length + 2) (s :: ss)) Mode.SERVER_ARGS_INIT)
        (M.length + 2 + (nulJoin (s :: ss)).length) pre).srv._pathCount = ss.length + 1 := by
      rw [hpc1]; exact hsc1
    have hpc2b : (argsState
        (setMode (segsState k (M.length + 2) (s :: ss)) Mode.SERVER_ARGS_INIT)
        (M.length + 2 + (nulJoin (s :: ss)).length) pre).srv._argsCount = pre.length := by
      rw [hpc2]
      show (segsState k (M.length + 2) (s :: ss)).srv._argsCount + pre.length = pre.length
      rw [hsc2, Nat.zero_add]
    have hpreS : recAgain
        (argsState (setMode (segsState k (M.length + 2) (s :: ss)) Mode.SERVER_ARGS_INIT)
          (M.length + 2 + (nulJoin (s :: ss)).length) pre)
        (M.length + 2 + (nulJoin (s :: ss)).length + (nulArgs pre).length) l v1 =
        recAgain
        (argsState (segsState k (M.length + 2) (s :: ss))
          (M.length + 2 + (nulJoin (s :: ss)).length) pre)
        (M.length + 2 + (nulJoin (s :: ss)).length + (nulArgs pre).length) l v1 := by
      cases pre with
      | nil => rfl
      | cons y ys => rw [argsState_setMode _ _ _ _ (List.cons_ne_nil _ _)]
    have hamps := scanK_amps maxP maxA pre
      (setMode (segsState k (M.length + 2) (s :: ss)) Mode.SERVER_ARGS_INIT)
      (M.length + 2 + (nulJoin (s :: ss)).length) rfl
      (by show (segsState k (M.length + 2) (s :: ss)).srv._pathCount < maxP
          rw [hsc1]; omega)
      (by show (segsState k (M.length + 2) (s :: ss)).srv._argsCount + pre.length < maxA
          rw [hsc2]; omega) hpre
    have hagain : ∀ d : Char, d = '&' ∨ d = ' ' →
        scanK maxP maxA
          (argsState (setMode (segsState k (M.length + 2) (s :: ss)) Mode.SERVER_ARGS_INIT)
            (M.length + 2 + (nulJoin (s :: ss)).length) pre)
          (M.length + 2 + (nulJoin (s :: ss)).length + (nulArgs pre).length)
          (l ++ '=' :: (v1 ++ '=' :: (v2 ++ [d]))) =
        (setMode (recAgain
            (argsState (segsState k (M.length + 2) (s :: ss))
              (M.length + 2 + (nulJoin (s :: ss)).length) pre)
            (M.length + 2 + (nulJoin (s :: ss)).length + (nulArgs pre).length) l v1)
          (afterArg d),
         l ++ NUL :: (v1 ++ NUL :: (v2 ++ [NUL]))) := by
      intro d hd
      rw [scanK_arg_again maxP maxA _ _ l v1 v2 d (argsState_mode pre _ _ rfl)
        (by rw [hpc1b]; omega) (by rw [hpc2b]; omega) hl hlf hv1 hv1f hv2 hv2f hd, hpreS]
    obtain ⟨hr1, hr2, _⟩ := recAgain_facts
      (argsState (segsState k (M.length + 2) (s :: ss))
        (M.length + 2 + (nulJoin (s :: ss)).length) pre)
      (M.length + 2 + (nulJoin (s :: ss)).length + (nulArgs pre).length) l v1
    obtain ⟨hqc1, hqc2⟩ := argsState_counts pre (segsState k (M.length + 2) (s :: ss))
      (M.length + 2 + (nulJoin (s :: ss)).length)
    rw [hqc1, hsc1] at hr1
    rw [hqc2, hsc2, Nat.zero_add] at hr2
    cases post with
    | nil =>
      have hline : requestLine M (s :: ss) (pre ++ [(l, some (v1 ++ '=' :: v2))]) V =
          M ++ ' ' :: '/' :: ((s ++ renderPath ss ++ ['?']) ++
            (ampArgs pre ++ ((l ++ '=' :: (v1 ++ '=' :: (v2 ++ [' ']))) ++ V))) := by
        simp [requestLine, renderPath, renderQuery_split, renderArg, renderQuery]
      refine ⟨0, M.length + 2 + (nulJoin (s :: ss)).length + (nulArgs pre).length +
          (l ++ '=' :: (v1 ++ '=' :: (v2 ++ [' ']))).length, ?_⟩
      · rw [hline, scanK_start maxP maxA M _ k hm hok hM, scanK_append,
          scanK_path maxP maxA '?' (Or.inl rfl) ss s _ (M.length + 2) rfl
            (by show k.srv._pathCount + 1 + ss.length < maxP; rw [hp0]; omega)
            (by show k.srv._argsCount < maxA; rw [ha0]; omega) hsegs]
        simp only [afterSeg_quest, length_path]
        rw [hseg, scanK_append, hamps]
        simp only [length_ampArgs]
        rw [scanK_append, hagain ' ' (Or.inr rfl)]
        simp only [afterArg_space]
        rw [scanK_vers maxP maxA V _ _ rfl
          (by
            show (recAgain _ _ l v1).srv._pathCount < maxP ∧
              (recAgain _ _ l v1).srv._argsCount < maxA
            rw [hr1, hr2]
            exact ⟨by omega, by omega⟩) hV]
        simp only [argsState, nulArgs, List.append_assoc, List.cons_append, List.nil_append]
        rfl
    | cons x xs =>
      simp only [List.length_cons] at ha
      have hline : requestLine M (s :: ss) (pre ++ (l, some (v1 ++ '=' :: v2)) :: x :: xs) V =
          M ++ ' ' :: '/' :: ((s ++ renderPath ss ++ ['?']) ++
            (ampArgs pre ++ ((l ++ '=' :: (v1 ++ '=' :: (v2 ++ ['&']))) ++
              ((renderArg x ++ renderQuery '&' xs ++ [' ']) ++ V)))) := by
        simp [requestLine, renderPath, renderQuery_split, renderArg, renderQuery]
      obtain ⟨hac1, hac2⟩ := argsState_counts (x :: xs)
        (recAgain
          (argsState (segsState k (M.length + 2) (s :: ss))
            (M.length + 2 + (nulJoin (s :: ss)).length) pre)
          (M.length + 2 + (nulJoin (s :: ss)).length + (nulArgs pre).length) l v1)
        (M.length + 2 + (nulJoin (s :: ss)).length + (nulArgs pre).length +
          (l ++ '=' :: (v1 ++ '=' :: (v2 ++ ['&']))).length)
      rw [hr1] at hac1
      rw [hr2] at hac2
      simp only [List.length_cons] at hac2
      refine ⟨M.length + 2 + (nulJoin (s :: ss)).length + (nulArgs pre).length +
          (l ++ '=' :: (v1 ++ '=' :: (v2 ++ ['&']))).length,
        M.length + 2 + (nulJoin (s :: ss)).length + (nulArgs pre).length +
          (l ++ '=' :: (v1 ++ '=' :: (v2 ++ ['&']))).length + (nulArgs (x :: xs)).length, ?_⟩
      · rw [hline, scanK_start maxP maxA M _ k hm hok hM, scanK_append,
          scanK_path maxP maxA '?' (Or.inl rfl) ss s _ (M.length + 2) rfl
            (by show k.srv._pathCount + 1 + ss.length < maxP; rw [hp0]; omega)
            (by show k.srv._argsCount < maxA; rw [ha0]; omega) hsegs]
        simp only [afterSeg_quest, length_path]
        rw [hseg, scanK_append, hamps]
        simp only [length_ampArgs]
        rw [scanK_append, hagain '&' (Or.inl rfl)]
        simp only [afterArg_amp]
        rw [scanK_append,
          scanK_query maxP maxA xs x _ _ rfl
            (by show (recAgain _ _ l v1).srv._pathCount < maxP; rw [hr1]; omega)
            (by show (recAgain _ _ l v1).srv._argsCount + 1 + xs.length < maxA
                rw [hr2]; omega)
            hpost]
        simp only [length_query]
        rw [argsState_setMode _ _ _ _ (List.cons_ne_nil _ _),
          scanK_vers maxP maxA V _ _ rfl
            (by
              show (argsState _ _ (x :: xs)).srv._pathCount < maxP ∧
                (argsState _ _ (x :: xs)).srv._argsCount < maxA
              rw [hac1, hac2]
              exact ⟨by omega, by omega⟩) hV]
        simp only [List.append_assoc, List.cons_append, List.nil_append]
        rfl

/-- Claim C21, as the code has it: `SERVER_ARGS_NEXT` hands over to `SERVER_ARGS_READ`,
the state that reads labels, so `=` is as special in a value as in a label.  On a request
line that is well formed but for one argument, written `l=v1=v2`, the parse succeeds, the
argument is counted once, its label reads `l`, the second `=` is overwritten with the
terminator, the value pointer of the argument is the byte that follows the second `=`, and
the value reads `v2`. -/
theorem further_equals_restarts_value (maxP maxA : Nat) (s : Server) (M : List Char)
    (segs : List (List Char)) (pre post : List (List Char × Option (List Char)))
    (l v1 v2 V tail : List Char)
    (hbuf : s._buffer =
      requestLine M segs (pre ++ (l, some (v1 ++ '=' :: v2)) :: post) V ++ NUL :: tail)
    (hM : Free [' ', NUL] M) (hsegs : ∀ x ∈ segs, Token x)
    (hpre : ∀ y ∈ pre, ArgToken y) (hpost : ∀ y ∈ post, ArgToken y)
    (hl : Token l) (hv1 : Token v1) (hv2 : Token v2)
    (hV : V ≠ []) (hVnul : NUL ∉ V)
    (hk1 : segs ≠ []) (hk : segs.length < maxP) (hn : pre.length + 1 + post.length < maxA) :
    (_parseRequest maxP maxA s).1 = true ∧
    argsCount (_parseRequest maxP maxA s).2 = pre.length + 1 + post.length ∧
    argLabel (_parseRequest maxP maxA s).2 pre.length = some l ∧
    s._buffer.getD (furtherEq M segs pre l v1) NUL = '=' ∧
    (_parseRequest maxP maxA s).2._buffer.getD (furtherEq M segs pre l v1) NUL = NUL ∧
    ((_parseRequest maxP maxA s).2._args pre.length).value =
      some (furtherEq M segs pre l v1 + 1) ∧
    argValue (_parseRequest maxP maxA s).2 pre.length = some v2 := by
  have hMnul : NUL ∉ M := fun hm => hM NUL hm (by simp)
  have hMsp : Free [' '] M := free_mono (by simp) hM
  have hlnul : NUL ∉ l := token_nul hl
  have hv1nul : NUL ∉ v1 := token_nul hv1
  have hv2nul : NUL ∉ v2 := token_nul hv2
  have hfree : ∀ {w : List Char}, Token w → Free [' ', '&', '='] w :=
    fun h => free_mono (by simp) h.2
  have hspnul : ArgNulFree (l, some (v1 ++ '=' :: v2)) := by
    refine ⟨hlnul, ?_⟩
    intro v hv
    simp only [Option.some.injEq] at hv
    subst hv
    simp only [List.mem_append, List.mem_cons, not_or]
    exact ⟨hv1nul, NUL_ne_eq, hv2nul⟩
  have hargsnul : ∀ x ∈ pre ++ (l, some (v1 ++ '=' :: v2)) :: post, ArgNulFree x := by
    intro x hx
    simp only [List.mem_append, List.mem_cons] at hx
    rcases hx with hx | hx | hx
    · exact argToken_nul (hpre x hx)
    · rw [hx]; exact hspnul
    · exact argToken_nul (hpost x hx)
  have hline : NUL ∉ requestLine M segs (pre ++ (l, some (v1 ++ '=' :: v2)) :: post) V :=
    nul_requestLine M segs _ V hMnul (fun x hx => token_nul (hsegs x hx)) hargsnul hVnul
  have hloop := parseLoop_line maxP maxA s _ tail hbuf hline
  obtain ⟨iP, iV, hscan⟩ := scanK_line_again maxP maxA M segs pre post l v1 v2 V (initK s)
    rfl rfl rfl hMsp hk1 (fun x hx => token_segOK (hsegs x hx))
    (fun y hy => argToken_argTok (hpre y hy)) (fun y hy => argToken_argTok (hpost y hy))
    hl.1 (hfree hl) hv1.1 (hfree hv1) hv2.1 (hfree hv2) hV hk hn
  rw [hscan] at hloop
  simp only at hloop
  -- the counts and the entry of the argument
  obtain ⟨_, hs2⟩ := segsState_counts segs (initK s) (M.length + 2)
  have hac0 : (initK s).srv._argsCount = 0 := rfl
  obtain ⟨_, hp2⟩ := argsState_counts pre (segsState (initK s) (M.length + 2) segs)
    (M.length + 2 + (nulJoin segs).length)
  rw [hs2, hac0, Nat.zero_add] at hp2
  obtain ⟨_, hr2, hr3, _⟩ := recAgain_facts
    (argsState (segsState (initK s) (M.length + 2) segs)
      (M.length + 2 + (nulJoin segs).length) pre)
    (M.length + 2 + (nulJoin segs).length + (nulArgs pre).length) l v1
  rw [hp2] at hr2 hr3
  obtain ⟨_, hq2⟩ := argsState_counts post
    (recAgain
      (argsState (segsState (initK s) (M.length + 2) segs)
        (M.length + 2 + (nulJoin segs).length) pre)
      (M.length + 2 + (nulJoin segs).length + (nulArgs pre).length) l v1) iP
  rw [hr2] at hq2
  have hentry := argsState_args_lt post
    (recAgain
      (argsState (segsState (initK s) (M.length + 2) segs)
        (M.length + 2 + (nulJoin segs).length) pre)
      (M.length + 2 + (nulJoin segs).length + (nulArgs pre).length) l v1) iP pre.length
    (by rw [hr2]; omega)
  rw [hr3] at hentry
  -- the index of the second `=`
  have hpos : furtherEq M segs pre l v1 =
      M.length + 2 + (nulJoin segs).length + (nulArgs pre).length + l.length + 1 + v1.length := by
    simp only [furtherEq, List.length_append, List.length_cons, length_renderPath,
      length_ampArgs]
    omega
  have hbufE : (_parseRequest maxP maxA s).2._buffer =
      M ++ NUL :: NUL :: (nulJoin segs ++ (nulArgs pre ++
        (l ++ NUL :: (v1 ++ NUL :: (v2 ++ NUL :: (nulArgs post ++ V.map crNul)))))) ++
        NUL :: tail := by
    simp only [_parseRequest, finish, hloop]
    rfl
  have hargsE : (_parseRequest maxP maxA s).2._args pre.length =
      { label := some (M.length + 2 + (nulJoin segs).length + (nulArgs pre).length),
        value := some (M.length + 2 + (nulJoin segs).length + (nulArgs pre).length +
          l.length + 1 + v1.length + 1) } := by
    simp only [_parseRequest, finish, hloop]
    exact hentry
  refine ⟨?_, ?_, ?_, ?_, ?_, ?_, ?_⟩
  · simp only [_parseRequest, hloop]
    rfl
  · simp only [argsCount, _parseRequest, finish, hloop]
    exact hq2
  · unfold argLabel
    rw [hbufE, hargsE]
    have e : M ++ NUL :: NUL :: (nulJoin segs ++ (nulArgs pre ++
        (l ++ NUL :: (v1 ++ NUL :: (v2 ++ NUL :: (nulArgs post ++ V.map crNul)))))) ++
        NUL :: tail =
        (M ++ [NUL, NUL] ++ nulJoin segs ++ nulArgs pre) ++
          (l ++ NUL :: (v1 ++ NUL :: (v2 ++ NUL :: (nulArgs post ++ V.map crNul)) ++
            NUL :: tail)) := by
      simp
    have e2 : M.length + 2 + (nulJoin segs).length + (nulArgs pre).length =
        (M ++ [NUL, NUL] ++ nulJoin segs ++ nulArgs pre).length := by
      simp only [List.length_append, List.length_cons, List.length_nil]
    simp only [cstrAt, Option.map_some']
    rw [e, e2, cstr_mid _ l _ hlnul]
  · rw [hbuf]
    have e : requestLine M segs (pre ++ (l, some (v1 ++ '=' :: v2)) :: post) V ++ NUL :: tail =
        (M ++ ' ' :: (renderPath segs ++ '?' :: (ampArgs pre ++ (l ++ '=' :: v1)))) ++
          '=' :: (v2 ++ (renderQuery '&' post ++ ' ' :: V) ++ NUL :: tail) := by
      simp [requestLine, renderQuery_split, renderArg]
    rw [e]
    exact getD_mid _ _ _ _
  · rw [hbufE, hpos]
    have e : M ++ NUL :: NUL :: (nulJoin segs ++ (nulArgs pre ++
        (l ++ NUL :: (v1 ++ NUL :: (v2 ++ NUL :: (nulArgs post ++ V.map crNul)))))) ++
        NUL :: tail =
        (M ++ [NUL, NUL] ++ nulJoin segs ++ nulArgs pre ++ l ++ [NUL] ++ v1) ++
          NUL :: (v2 ++ NUL :: (nulArgs post ++ V.map crNul) ++ NUL :: tail) := by
      simp
    have e2 : M.length + 2 + (nulJoin segs).length + (nulArgs pre).length + l.length + 1 +
        v1.length = (M ++ [NUL, NUL] ++ nulJoin segs ++ nulArgs pre ++ l ++ [NUL] ++ v1).length := by
      simp only [List.length_append, List.length_cons, List.length_nil]
    rw [e, e2]
    exact getD_mid _ _ _ _
  · rw [hargsE, hpos]
  · unfold argValue
    rw [hbufE, hargsE]
    have e : M ++ NUL :: NUL :: (nulJoin segs ++ (nulArgs pre ++
        (l ++ NUL :: (v1 ++ NUL :: (v2 ++ NUL :: (nulArgs post ++ V.map crNul)))))) ++
        NUL :: tail =
        (M ++ [NUL, NUL] ++ nulJoin segs ++ nulArgs pre ++ l ++ [NUL] ++ v1 ++ [NUL]) ++
          (v2 ++ NUL :: ((nulArgs post ++ V.map crNul) ++ NUL :: tail)) := by
      simp
    have e2 : M.length + 2 + (nulJoin segs).length + (nulArgs pre).length + l.length + 1 +
        v1.length + 1 =
        (M ++ [NUL, NUL] ++ nulJoin segs ++ nulArgs pre ++ l ++ [NUL] ++ v1 ++ [NUL]).length := by
      simp only [List.length_append, List.length_cons, List.length_nil]
    simp only [cstrAt, Option.map_some']
    rw [e, e2, cstr_mid _ v2 _ hv2nul]

set_option maxRecDepth 16000 in
/-- The request line `GET /a?p=0&x=1=2&q HTTP/1.1`: the second `=` of `x=1=2` is at index
14; the three arguments are counted, the second one has label `x`, its value pointer is
offset 15 and its value reads `2`. -/
theorem further_equals_restarts_value_witness :
    furtherEq "GET".toList [['a']] [(['p'], some ['0'])] ['x'] ['1'] = 14 ∧
    (_parseRequest 4 4 (freshServer ("GET /a?p=0&x=1=2&q HTTP/1.1".toList ++ [NUL]))).1 = true ∧
    argsCount (_parseRequest 4 4
      (freshServer ("GET /a?p=0&x=1=2&q HTTP/1.1".toList ++ [NUL]))).2 = 3 ∧
    argLabel (_parseRequest 4 4
      (freshServer ("GET /a?p=0&x=1=2&q HTTP/1.1".toList ++ [NUL]))).2 1 = some ['x'] ∧
    (freshServer ("GET /a?p=0&x=1=2&q HTTP/1.1".toList ++ [NUL]))._buffer.getD
      (furtherEq "GET".toList [['a']] [(['p'], some ['0'])] ['x'] ['1']) NUL = '=' ∧
    (_parseRequest 4 4
      (freshServer ("GET /a?p=0&x=1=2&q HTTP/1.1".toList ++ [NUL]))).2._buffer.getD
      (furtherEq "GET".toList [['a']] [(['p'], some ['0'])] ['x'] ['1']) NUL = NUL ∧
    ((_parseRequest 4 4
      (freshServer ("GET /a?p=0&x=1=2&q HTTP/1.1".toList ++ [NUL]))).2._args 1).value =
      some (furtherEq "GET".toList [['a']] [(['p'], some ['0'])] ['x'] ['1'] + 1) ∧
    argValue (_parseRequest 4 4
      (freshServer ("GET /a?p=0&x=1=2&q HTTP/1.1".toList ++ [NUL]))).2 1 = some ['2'] :=
  ⟨by decide,
   further_equals_restarts_value 4 4
     (freshServer ("GET /a?p=0&x=1=2&q HTTP/1.1".toList ++ [NUL]))
     "GET".toList [['a']] [(['p'], some ['0'])] [(['q'], none)] ['x'] ['1'] ['2']
     "HTTP/1.1".toList []
     (by decide) (by decide) (by decide) (by decide) (by decide) (by decide) (by decide)
     (by decide) (by decide) (by decide) (by decide) (by decide) (by decide)⟩

set_option maxRecDepth 16000 in
/-- Claim C21 as stated fails: in `GET /a?x=1=2 HTTP/1.1` the second `=` is the byte at
index 10 and the value starts at index 9; after the parse the byte at index 10 is not `=`,
the value pointer of `x` is not offset 9, and the value of `x` does not read `1=2`: it
reads `2`. -/
theorem further_equals_is_cut :
    (freshServer ("GET /a?x=1=2 HTTP/1.1".toList ++ [NUL]))._buffer.getD 10 NUL = '=' ∧
    (_parseRequest 4 4 (freshServer ("GET /a?x=1=2 HTTP/1.1".toList ++ [NUL]))).1 = true ∧
    (_parseRequest 4 4
      (freshServer ("GET /a?x=1=2 HTTP/1.1".toList ++ [NUL]))).2._buffer.getD 10 NUL ≠ '=' ∧
    ((_parseRequest 4 4
      (freshServer ("GET /a?x=1=2 HTTP/1.1".toList ++ [NUL]))).2._args 0).value ≠ some 9 ∧
    argValue (_parseRequest 4 4
      (freshServer ("GET /a?x=1=2 HTTP/1.1".toList ++ [NUL]))).2 0 ≠ some "1=2".toList ∧
    argValue (_parseRequest 4 4
      (freshServer ("GET /a?x=1=2 HTTP/1.1".toList ++ [NUL]))).2 0 = some "2".toList := by
  decide

end SimpleWebServer
